import Mathlib

/-!
Shallow embedding of the plan-governance core of the repository
(`tools/plan/src/domain/task.py`, `tools/plan/src/domain/dependency_graph.py`,
`tools/plan/src/domain/validation_rules.py`,
`tools/plan/src/application/lint_plan.py`,
`tools/plan/src/adapters/yaml_loader.py` data model), together with
verification of the behavioural properties stated in the specification.

Conventions of the embedding:
* Python `dict`s (which preserve insertion order) are modelled as
  insertion-ordered association lists `List (String × α)`; assignment to an
  existing key keeps its position (`alModify`), a fresh key is appended.
* Python `Optional[T]` is `Option T`; Python truthiness of strings/lists is
  made explicit (`optStrTruthy`, emptiness tests).
* Machine integers are `Int` (sprint numbers, in-degrees, day counts).
* The filesystem is the one impure boundary of the linter; it enters the
  embedding as an existence oracle `String → Bool` standing for
  `(project_root / rel).exists()`.
* `datetime.fromisoformat` + `datetime.now()` in the waiver check enter as an
  oracle `String → Option Int` returning `(expiry - now).days`, with `none`
  for the `ValueError` branch of the `try/except`.
* The recursive DFS and the Kahn `while` loop are total functions via an
  explicit fuel argument; the fuel chosen in `detect_cycles` and
  `topological_sort` is proved sufficient, so the `fuel = 0` fallback is
  unreachable and the functions agree with the Python originals.
-/

set_option maxHeartbeats 1000000

namespace Plan

/-! ### Generic helpers -/

/-- Insert a string into a `<`-sorted duplicate-free list, keeping it sorted
and duplicate-free.  Used to model Python `tuple(sorted(set(...)))`. -/
def insertSorted (x : String) : List String → List String
  | [] => [x]
  | y :: ys => if x = y then y :: ys else if x < y then x :: y :: ys else y :: insertSorted x ys

/-- Canonical sorted duplicate-free form of a list of strings; the embedding of
Python `tuple(sorted(set(xs)))` (sets compare by membership, `sorted` is the
lexicographic string order). -/
def sortedDedup (xs : List String) : List String := xs.foldr insertSorted []

/-- Association-list lookup (first entry wins, like a Python dict). -/
def alLookup {α : Type} (al : List (String × α)) (k : String) : Option α :=
  (al.find? (fun p => p.1 = k)).map (·.2)

/-- In-place update of every entry of key `k` (a Python dict holds one entry
per key, and assignment keeps the key at its original position). -/
def alModify {α : Type} (al : List (String × α)) (k : String) (f : α → α) :
    List (String × α) :=
  al.map (fun p => if p.1 = k then (p.1, f p.2) else p)

/-- `dict` membership test. -/
def alHasKey {α : Type} (al : List (String × α)) (k : String) : Bool :=
  al.any (fun p => p.1 = k)

/-- Python `str.strip()` (ASCII-whitespace fragment). -/
def pyStrip (s : String) : String :=
  String.mk (((s.toList.dropWhile Char.isWhitespace).reverse.dropWhile
    Char.isWhitespace).reverse)

/-- Python `str.lower()` (ASCII fragment). -/
def pyLower (s : String) : String := String.mk (s.toList.map Char.toLower)

/-- Python `str.upper()` (ASCII fragment). -/
def pyUpper (s : String) : String := String.mk (s.toList.map Char.toUpper)

/-- Python `s.startswith(p)`. -/
def pyStartsWith (s p : String) : Bool := p.toList.isPrefixOf s.toList

/-- Python `c in s` for a single character. -/
def pyHasChar (s : String) (c : Char) : Bool := s.toList.contains c

/-- Occurrence test of `needle` inside the character list. -/
def containsSubList (needle : List Char) : List Char → Bool
  | [] => needle.isEmpty
  | c :: cs => needle.isPrefixOf (c :: cs) || containsSubList needle cs

/-- Python `sub in s` substring containment. -/
def strContainsSub (s sub : String) : Bool := containsSubList sub.toList s.toList

/-- Python `s.replace(old, new)`: left-to-right, non-overlapping. -/
def replaceSubAux (old new : List Char) : List Char → List Char
  | [] => []
  | c :: cs =>
    if old.isPrefixOf (c :: cs) then new ++ replaceSubAux old new (cs.drop (old.length - 1))
    else c :: replaceSubAux old new cs
termination_by l => l.length
decreasing_by all_goals (simp only [List.length_drop, List.length_cons]; omega)

/-- Python `s.replace(old, new)` for the non-empty `old` the source uses. -/
def pyReplace (s old new : String) : String :=
  if old = "" then s else String.mk (replaceSubAux old.toList new.toList s.toList)

/-- Split on a character predicate, keeping empty pieces (Python
`s.split(sep)` for one-character `sep` uses `(· = sep)`). -/
def splitCharAux (p : Char → Bool) : List Char → List (List Char)
  | [] => [[]]
  | x :: xs =>
    if p x then [] :: splitCharAux p xs
    else match splitCharAux p xs with
      | [] => [[x]]
      | y :: ys => (x :: y) :: ys

/-- Python `s.split(c)` for a one-character separator. -/
def pySplitOnChar (c : Char) (s : String) : List String :=
  (splitCharAux (· = c) s.toList).map String.mk

/-- Python `str.split()` with no argument (whitespace runs, empties dropped). -/
def pySplit (s : String) : List String :=
  ((splitCharAux Char.isWhitespace s.toList).map String.mk).filter (· ≠ "")

/-- Python slicing `s[:n]`. -/
def pyTake (s : String) (n : Nat) : String := String.mk (s.toList.take n)

/-- Python `s[0]` of a non-empty string (the default is never consulted). -/
def pyFront (s : String) : Char := s.toList.headD 'A'

/-- Python truthiness of an `Optional[str]` (`None` and `""` are falsy). -/
def optStrTruthy : Option String → Bool
  | some s => s ≠ ""
  | none => false

/-! ### Task model (`domain/task.py`) -/

/-- `Tier` enumeration. -/
inductive Tier
  | A | B | C
deriving DecidableEq

/-- `Tier.from_string`: parse tier from string, defaulting to `C`. -/
def Tier.from_string (value : String) : Tier :=
  if value = "" then .C
  else
    let normalized := pyUpper (pyStrip value)
    if normalized = "A" then .A
    else if normalized = "B" then .B
    else if normalized = "C" then .C
    else .C

/-- `GateProfile` enumeration. -/
inductive GateProfile
  | NONE | BASIC | STANDARD | STRICT
deriving DecidableEq

/-- `GateProfile.from_string`: custom profiles (`custom:...`) are treated as
`STRICT`; unknown values fall back to `NONE` (the `except ValueError`
branch). -/
def GateProfile.from_string (value : String) : GateProfile :=
  if value = "" then .NONE
  else
    let normalized := pyLower (pyStrip value)
    if pyStartsWith normalized "custom:" then .STRICT
    else if normalized = "none" then .NONE
    else if normalized = "basic" then .BASIC
    else if normalized = "standard" then .STANDARD
    else if normalized = "strict" then .STRICT
    else .NONE

/-- `TaskStatus` enumeration. -/
inductive TaskStatus
  | PLANNED | IN_PROGRESS | VALIDATING | COMPLETED | BLOCKED | FAILED | BACKLOG
deriving DecidableEq

/-- The `.value` string of each status member. -/
def TaskStatus.value : TaskStatus → String
  | .PLANNED => "Planned"
  | .IN_PROGRESS => "In Progress"
  | .VALIDATING => "Validating"
  | .COMPLETED => "Completed"
  | .BLOCKED => "Blocked"
  | .FAILED => "Failed"
  | .BACKLOG => "Backlog"

/-- `TaskStatus.from_string`: the Python loop compares
`status.value.lower() == normalized.lower()` member by member, then handles
the alternative name `done`, then falls back to `PLANNED`. -/
def TaskStatus.from_string (value : String) : TaskStatus :=
  if value = "" then .PLANNED
  else
    let n := pyLower (pyStrip value)
    if n = "planned" then .PLANNED
    else if n = "in progress" then .IN_PROGRESS
    else if n = "validating" then .VALIDATING
    else if n = "completed" then .COMPLETED
    else if n = "blocked" then .BLOCKED
    else if n = "failed" then .FAILED
    else if n = "backlog" then .BACKLOG
    else if n = "done" then .COMPLETED
    else .PLANNED

/-- The `Task` frozen dataclass.  `dependencies` and the other tuples are
lists; `sprint = none` is the Python `None` meaning `Continuous`.
(`section` is a Lean keyword, hence the field name `section_`.) -/
structure Task where
  task_id : String
  section_ : String := ""
  description : String := ""
  owner : String := ""
  dependencies : List String := []
  sprint : Option Int := none
  status : TaskStatus := .PLANNED
  tier : Tier := .C
  gate_profile : GateProfile := .NONE
  acceptance_owner : Option String := none
  evidence_required : List String := []
  acceptance_criteria : String := ""
  artifacts_expected : List String := []
  adr_required : Bool := false
  risk : String := "Low"
  review_required : Bool := false
  waiver_policy : String := "none"
  cross_sprint_allowed : Bool := false
  cross_sprint_reason : String := ""
  definition_of_done : String := ""
  kpis : String := ""
  validation_method : String := ""
deriving DecidableEq

/-- `Task.__post_init__`: constructing a `Task` raises `ValueError` exactly
when `task_id` is empty; the embedding returns the constructed value
otherwise. -/
def Task.make (t : Task) : Except String Task :=
  if t.task_id = "" then .error "task_id cannot be empty" else .ok t

/-- The dependency rebuild of `Task.with_override`:
`tuple(sorted(new_deps))` where `new_deps` is `set(self.dependencies)` minus
the removals, union the additions. -/
def overrideDeps (dependencies_add dependencies_remove : Option (List String))
    (ds : List String) : List String :=
  let base := sortedDedup ds
  let afterRemove :=
    match dependencies_remove with
    | some rem => base.filter (fun d => !(rem.contains d))
    | none => base
  match dependencies_add with
  | some add => sortedDedup (afterRemove ++ add)
  | none => afterRemove

/-- `Task.with_override`: build a new `Task`; dependencies are rebuilt by
`overrideDeps`, the remaining governance fields are replaced only when the
override argument `is not None`. -/
def Task.with_override (t : Task)
    (tier : Option Tier) (gate_profile : Option GateProfile)
    (acceptance_owner : Option String) (evidence_required : Option (List String))
    (dependencies_add : Option (List String))
    (dependencies_remove : Option (List String))
    (sprint_override : Option Int) : Task :=
  { t with
    dependencies := overrideDeps dependencies_add dependencies_remove t.dependencies
    sprint := match sprint_override with
      | some s => some s
      | none => t.sprint
    tier := match tier with
      | some x => x
      | none => t.tier
    gate_profile := match gate_profile with
      | some x => x
      | none => t.gate_profile
    acceptance_owner := match acceptance_owner with
      | some x => some x
      | none => t.acceptance_owner
    evidence_required := match evidence_required with
      | some x => x
      | none => t.evidence_required }

/-! ### Dependency graph (`domain/dependency_graph.py`)

The Python class keeps three insertion-ordered dicts `_adjacency`, `_sprints`
and `_cross_sprint_allowed` over the same key set (the only writer,
`add_task`, updates all three together).  The embedding fuses them into one
insertion-ordered list of nodes. -/

/-- One graph node: the `_adjacency[task_id]`, `_sprints[task_id]` and
`_cross_sprint_allowed[task_id]` entries for a task id. -/
structure GNode where
  id : String
  deps : List String
  sprint : Option Int
  cross_sprint_allowed : Bool
deriving DecidableEq

/-- `CrossSprintViolation` dataclass. -/
structure CrossSprintViolation where
  task_id : String
  task_sprint : Int
  dependency_id : String
  dependency_sprint : Int
  is_allowed : Bool := false
  reason : String := ""
deriving DecidableEq

structure DependencyGraph where
  nodes : List GNode
deriving DecidableEq

/-- `add_task`: dict assignment — an existing key keeps its position, a fresh
key is appended. -/
def DependencyGraph.add_task (g : DependencyGraph) (task_id : String)
    (dependencies : List String) (sprint : Option Int := none)
    (cross_sprint_allowed : Bool := false) : DependencyGraph :=
  let n : GNode := ⟨task_id, dependencies, sprint, cross_sprint_allowed⟩
  if g.nodes.any (fun m => m.id = task_id) then
    ⟨g.nodes.map (fun m => if m.id = task_id then n else m)⟩
  else
    ⟨g.nodes ++ [n]⟩

/-- The dict key sequence (`for node in self._adjacency`). -/
def DependencyGraph.ids (g : DependencyGraph) : List String := g.nodes.map (·.id)

/-- `task_id in self._adjacency`. -/
def DependencyGraph.hasNode (g : DependencyGraph) (task_id : String) : Bool :=
  g.nodes.any (fun m => m.id = task_id)

def DependencyGraph.findNode? (g : DependencyGraph) (task_id : String) : Option GNode :=
  g.nodes.find? (fun m => m.id = task_id)

/-- `get_dependencies`: `self._adjacency.get(task_id, [])`. -/
def DependencyGraph.get_dependencies (g : DependencyGraph) (task_id : String) : List String :=
  match g.findNode? task_id with
  | some n => n.deps
  | none => []

/-- `get_sprint` / `self._sprints.get(task_id)` (absent key and stored `None`
both give `none`). -/
def DependencyGraph.get_sprint (g : DependencyGraph) (task_id : String) : Option Int :=
  (g.findNode? task_id).bind (·.sprint)

/-- `self._cross_sprint_allowed.get(task_id, False)`. -/
def DependencyGraph.allowedOf (g : DependencyGraph) (task_id : String) : Bool :=
  match g.findNode? task_id with
  | some n => n.cross_sprint_allowed
  | none => false

/-- Graphs reachable through `add_task` have one node per id; every theorem
about a graph assumes this invariant. -/
@[reducible] def DependencyGraph.WF (g : DependencyGraph) : Prop := g.ids.Nodup

/-- `DependencyGraph.from_tasks`. -/
def DependencyGraph.from_tasks (tasks : List Task) : DependencyGraph :=
  tasks.foldl
    (fun g t => g.add_task t.task_id t.dependencies t.sprint t.cross_sprint_allowed)
    ⟨[]⟩

/-- An edge of the subgraph induced by the known nodes: `a` depends on `b` and
both are known. -/
def DependencyGraph.Edge (g : DependencyGraph) (a b : String) : Prop :=
  g.hasNode a = true ∧ g.hasNode b = true ∧ b ∈ g.get_dependencies a

/-- The known-node subgraph has a (directed) cycle. -/
def DependencyGraph.HasCycle (g : DependencyGraph) : Prop :=
  ∃ n, Relation.TransGen g.Edge n n

/-- The violations contributed by one source task
(`detect_cross_sprint_violations` loop body). -/
def DependencyGraph.violationsForNode (g : DependencyGraph) (scope_sprint : Option Int)
    (node : GNode) : List CrossSprintViolation :=
  match node.sprint with
  | none => []
  | some task_sprint =>
    if (match scope_sprint with
        | some s => decide (task_sprint = s)
        | none => true) then
      node.deps.filterMap (fun dep_id =>
        match g.get_sprint dep_id with
        | none => none
        | some dep_sprint =>
          if task_sprint < dep_sprint then
            some ⟨node.id, task_sprint, dep_id, dep_sprint, g.allowedOf node.id, ""⟩
          else none)
    else []

/-- `detect_cross_sprint_violations`. -/
def DependencyGraph.detect_cross_sprint_violations (g : DependencyGraph)
    (scope_sprint : Option Int := none) : List CrossSprintViolation :=
  g.nodes.flatMap (g.violationsForNode scope_sprint)

/-- `find_unresolved_dependencies`. -/
def DependencyGraph.find_unresolved_dependencies (g : DependencyGraph) :
    List (String × String) :=
  g.nodes.flatMap (fun node =>
    (node.deps.filter (fun dep => !(g.hasNode dep))).map (fun dep => (node.id, dep)))

/-- `compute_fanout`: start every known task at 0, then bump the counter of
every known dependency occurrence. -/
def DependencyGraph.compute_fanout (g : DependencyGraph) : List (String × Nat) :=
  g.nodes.foldl
    (fun fanout node =>
      node.deps.foldl
        (fun fanout dep =>
          if alHasKey fanout dep then alModify fanout dep (· + 1) else fanout)
        fanout)
    (g.ids.map (fun task_id => (task_id, 0)))

/-! #### Cycle detection (three-colour DFS) -/

def WHITE : Nat := 0
def GRAY : Nat := 1
def BLACK : Nat := 2

/-- Mutable state of `detect_cycles`: the `color` dict and the accumulated
`cycles` list. -/
structure DfsState where
  color : List (String × Nat)
  cycles : List (List String)
deriving DecidableEq

/-- `color[node]` (the dict always holds every known node, so the `WHITE`
default of the embedding is never consulted on the reachable states). -/
def colorOf (st : DfsState) (node : String) : Nat :=
  (alLookup st.color node).getD WHITE

/-- The inner recursive `dfs(node, path)` of `detect_cycles`, with explicit
fuel.  On a `GRAY` hit the cycle `path[path.index(node):] + [node]` is
recorded; a `WHITE` node is coloured `GRAY`, its known dependencies are
visited with `path + [node]` (Python passes `path.copy()` to each child), and
the node is finally coloured `BLACK`. -/
def dfsVisit (g : DependencyGraph) : Nat → String → List String → DfsState → DfsState
  | 0, _, _, st => st
  | fuel + 1, node, path, st =>
    let c := colorOf st node
    if c = GRAY then
      { st with cycles := st.cycles ++ [path.drop (path.indexOf node) ++ [node]] }
    else if c = BLACK then st
    else
      let st1 : DfsState := { st with color := alModify st.color node (fun _ => GRAY) }
      let path1 := path ++ [node]
      let st2 := (g.get_dependencies node).foldl
        (fun acc dep => if g.hasNode dep then dfsVisit g fuel dep path1 acc else acc)
        st1
      { st2 with color := alModify st2.color node (fun _ => BLACK) }

/-- Deduplication pass of `detect_cycles`: two traces are the same cycle when
their node sets (dropping the repeated closing node) are equal. -/
def dedupCycles (cycles : List (List String)) : List (List String) :=
  (cycles.foldl
    (fun (acc : List (List String) × List (List String)) cycle =>
      let cset := cycle.dropLast
      if acc.2.any (fun seen => seen.all (cset.contains ·) && cset.all (seen.contains ·)) then
        acc
      else (acc.1 ++ [cycle], acc.2 ++ [cset]))
    ([], [])).1

/-- Fuel sufficient for the DFS: the Python recursion never nests deeper than
one frame per node plus the terminal frame. -/
def DependencyGraph.dfsFuel (g : DependencyGraph) : Nat := g.nodes.length + 1

/-- `detect_cycles`. -/
def DependencyGraph.detect_cycles (g : DependencyGraph) : List (List String) :=
  let init : DfsState := ⟨g.ids.map (fun node => (node, WHITE)), []⟩
  let final := g.ids.foldl
    (fun st node => if colorOf st node = WHITE then dfsVisit g g.dfsFuel node [] st else st)
    init
  dedupCycles final.cycles

/-! #### Topological sort (Kahn) -/

/-- Build the `dependents` and `in_degree` dicts of `topological_sort`:
for every known dependency occurrence, the dependent task is appended to the
dependency's `dependents` list and the task's in-degree is incremented. -/
def kahnInit (g : DependencyGraph) : List (String × List String) × List (String × Int) :=
  g.nodes.foldl
    (fun acc task =>
      task.deps.foldl
        (fun (acc : List (String × List String) × List (String × Int)) dep =>
          if alHasKey acc.1 dep then
            (alModify acc.1 dep (· ++ [task.id]), alModify acc.2 task.id (· + 1))
          else acc)
        acc)
    (g.ids.map (fun n => (n, [])), g.ids.map (fun n => (n, (0 : Int))))

/-- The `while queue` loop of `topological_sort` (FIFO pop, append to
`result`, decrement every dependent, push those reaching exactly zero). -/
def kahnLoop (dependents : List (String × List String)) :
    Nat → List String → List String → List (String × Int) → List String
  | 0, _, result, _ => result
  | _ + 1, [], result, _ => result
  | fuel + 1, node :: rest, result, in_degree =>
    let step := (((alLookup dependents node).getD []).foldl
      (fun (acc : List (String × Int) × List String) dependent =>
        let indeg := alModify acc.1 dependent (· - 1)
        if (alLookup indeg dependent).getD 0 = 0 then (indeg, acc.2 ++ [dependent])
        else (indeg, acc.2))
      (in_degree, rest))
    kahnLoop dependents fuel step.2 (result ++ [node]) step.1

/-- `topological_sort`: raise `CycleError(cycles[0])` when `detect_cycles` is
non-empty (the error value is the carried cycle), otherwise run Kahn's
algorithm seeded with the zero-in-degree nodes. -/
def DependencyGraph.topological_sort (g : DependencyGraph) :
    Except (List String) (List String) :=
  match g.detect_cycles with
  | c :: _ => .error c
  | [] =>
    let init := kahnInit g
    let queue := (init.2.filter (fun p => p.2 = 0)).map (·.1)
    .ok (kahnLoop init.1 (g.nodes.length + 1) queue [] init.2)

/-! #### Specification helpers for cycle detection and topological sorting -/

/-- The key list of the colour dict. -/
def stKeys (st : DfsState) : List String := st.color.map Prod.fst

/-- Number of known nodes still coloured `WHITE`. -/
def DependencyGraph.whiteCount (g : DependencyGraph) (st : DfsState) : Nat :=
  (g.ids.filter (fun x => colorOf st x = WHITE)).length

/-- While no cycle has been recorded, the `BLACK` nodes carry a topological
order: every known dependency of a black node turned black strictly earlier. -/
def TopoOK (g : DependencyGraph) (st : DfsState) : Prop :=
  st.cycles = [] → ∃ L : List String, L.Nodup
    ∧ (∀ x, x ∈ L ↔ colorOf st x = BLACK)
    ∧ ∀ a ∈ L, ∀ b, g.Edge a b → b ∈ L ∧ L.indexOf b < L.indexOf a

/-- Invariant of the DFS state relative to the current path: the colour dict
keys are the known nodes, the `GRAY` nodes are exactly the path, the path is
duplicate-free and follows edges, and `TopoOK` holds. -/
structure DfsInv (g : DependencyGraph) (path : List String) (st : DfsState) : Prop where
  keys : stKeys st = g.ids
  gray : ∀ x, colorOf st x = GRAY ↔ x ∈ path
  pathNodup : path.Nodup
  chain : List.Chain' g.Edge path
  topo : TopoOK g st
  vals : ∀ x, colorOf st x = WHITE ∨ colorOf st x = GRAY ∨ colorOf st x = BLACK

/-- Guarantees of one `dfs(node, path)` call. -/
structure DfsPost (g : DependencyGraph) (node : String) (path : List String)
    (st st' : DfsState) : Prop where
  keys : stKeys st' = stKeys st
  gray : ∀ x, colorOf st' x = GRAY ↔ x ∈ path
  blackMono : ∀ x, colorOf st x = BLACK → colorOf st' x = BLACK
  whiteMono : ∀ x, colorOf st' x = WHITE → colorOf st x = WHITE
  nodeBlack : colorOf st node ≠ GRAY → colorOf st' node = BLACK
  cyclesExt : ∃ ext, st'.cycles = st.cycles ++ ext
  cyclesReal : ∀ c ∈ st'.cycles, c ∈ st.cycles ∨ g.HasCycle
  grayHit : colorOf st node = GRAY → st.cycles.length < st'.cycles.length
  topo : TopoOK g st'
  vals : ∀ x, colorOf st' x = WHITE ∨ colorOf st' x = GRAY ∨ colorOf st' x = BLACK

/-- Guarantees of the children loop of one `dfs` call. -/
structure DfsFoldPost (g : DependencyGraph) (deps path1 : List String)
    (st st' : DfsState) : Prop where
  keys : stKeys st' = stKeys st
  gray : ∀ x, colorOf st' x = GRAY ↔ x ∈ path1
  blackMono : ∀ x, colorOf st x = BLACK → colorOf st' x = BLACK
  whiteMono : ∀ x, colorOf st' x = WHITE → colorOf st x = WHITE
  cyclesExt : ∃ ext, st'.cycles = st.cycles ++ ext
  cyclesReal : ∀ c ∈ st'.cycles, c ∈ st.cycles ∨ g.HasCycle
  depsBlack : st'.cycles = [] → ∀ d ∈ deps, g.hasNode d = true → colorOf st' d = BLACK
  topo : TopoOK g st'

/-- The dependents of `d` in `topological_sort`: each task id once per
occurrence of `d` in its dependency list, in node order. -/
def DependencyGraph.depList (g : DependencyGraph) (x : String) : List String :=
  g.nodes.flatMap (fun n =>
    List.replicate ((n.deps.filter (fun d => g.hasNode d)).count x) n.id)

/-- Initial in-degree of a task: its known dependency occurrences. -/
def DependencyGraph.indeg0 (g : DependencyGraph) (t : String) : Nat :=
  ((g.get_dependencies t).filter (fun d => g.hasNode d)).length

/-- Known dependency occurrences of `t` not yet emitted to `result`. -/
def DependencyGraph.pend (g : DependencyGraph) (result : List String) (t : String) :
    Nat :=
  ((g.get_dependencies t).filter
    (fun d => g.hasNode d && !(result.contains d))).length

/-- Invariant of the Kahn loop of `topological_sort`. -/
structure KahnInv (g : DependencyGraph) (queue result : List String)
    (in_degree : List (String × Int)) : Prop where
  keysDeg : in_degree.map Prod.fst = g.ids
  degVal : ∀ t ∈ g.ids, alLookup in_degree t = some ((g.pend result t : Int))
  nodup : (result ++ queue).Nodup
  subIds : ∀ x ∈ result ++ queue, x ∈ g.ids
  queueZero : ∀ t ∈ queue, g.pend result t = 0
  resultZero : ∀ t ∈ result, g.pend result t = 0
  freshPos : ∀ t ∈ g.ids, t ∉ result ++ queue → 0 < g.pend result t
  resultTopo : ∀ a ∈ result, ∀ b, g.Edge a b → b ∈ result
      ∧ result.indexOf b < result.indexOf a

/-! ### Validation rules (`domain/validation_rules.py`) -/

/-- `RuleSeverity` enumeration (`error` = CI must fail, `warning` = review
queue, `info` = informational). -/
inductive RuleSeverity
  | ERROR | WARNING | INFO
deriving DecidableEq

/-- One value of the free-form `metadata` dict of a `ValidationResult`
(the creators only store strings, ints, string lists and string-to-string
dicts). -/
inductive MetaVal
  | str (v : String)
  | int (v : Int)
  | strList (v : List String)
  | strPairs (v : List (String × String))
deriving DecidableEq

/-- `ValidationResult` frozen dataclass. -/
structure ValidationResult where
  rule_id : String
  severity : RuleSeverity
  message : String
  tasks : List String := []
  fix_suggestion : String := ""
  priority : String := "medium"
  metadata : List (String × MetaVal) := []
deriving DecidableEq

def ValidationResult.is_error (r : ValidationResult) : Bool :=
  r.severity = RuleSeverity.ERROR

def RULE_NO_CYCLES : String := "NO_CYCLES"
def RULE_NO_CROSS_SPRINT_UNRESOLVED : String := "NO_CROSS_SPRINT_UNRESOLVED"
def RULE_DEPS_RESOLVE : String := "DEPS_RESOLVE"
def RULE_TIER_A_GATES_REQUIRED : String := "TIER_A_GATES_REQUIRED"
def RULE_TIER_A_OWNER_REQUIRED : String := "TIER_A_OWNER_REQUIRED"
def RULE_TIER_A_EVIDENCE_REQUIRED : String := "TIER_A_EVIDENCE_REQUIRED"
def RULE_TIER_A_ACCEPTANCE_REQUIRED : String := "TIER_A_ACCEPTANCE_REQUIRED"
def RULE_TASK_ID_UNIQUE : String := "TASK_ID_UNIQUE"
def RULE_PHANTOM_COMPLETION : String := "PHANTOM_COMPLETION"
def RULE_INVALID_ARTIFACT_PATH : String := "INVALID_ARTIFACT_PATH"
def RULE_MISSING_VALIDATION : String := "MISSING_VALIDATION"
def RULE_TIER_B_MISSING_GATES : String := "TIER_B_MISSING_GATES"
def RULE_HIGH_FANOUT : String := "HIGH_FANOUT"
def RULE_WAIVER_EXPIRING : String := "WAIVER_EXPIRING"
def RULE_ARTIFACT_PATH_SUGGESTION : String := "ARTIFACT_PATH_SUGGESTION"

def create_cycle_error (cycle : List String) : ValidationResult :=
  { rule_id := RULE_NO_CYCLES
    severity := .ERROR
    message := "Dependency cycle detected: " ++ String.intercalate " -> " cycle
    tasks := cycle.dropLast
    fix_suggestion := "Add override_deps_remove in plan-overrides.yaml to break cycle"
    priority := "critical" }

def create_cross_sprint_error (task_id : String) (task_sprint : Int)
    (dep_id : String) (dep_sprint : Int) : ValidationResult :=
  { rule_id := RULE_NO_CROSS_SPRINT_UNRESOLVED
    severity := .ERROR
    message := "Cross-sprint dependency: " ++ task_id ++ " (Sprint " ++ toString task_sprint
      ++ ") depends on " ++ dep_id ++ " (Sprint " ++ toString dep_sprint ++ ")"
    tasks := [task_id, dep_id]
    fix_suggestion := "Add sprint_override or override_deps_remove in plan-overrides.yaml, or set cross_sprint_allowed=Y"
    priority := "high" }

def create_unresolved_dep_error (task_id dep : String) : ValidationResult :=
  { rule_id := RULE_DEPS_RESOLVE
    severity := .ERROR
    message := "Task " ++ task_id ++ " has unresolved dependency: " ++ dep
    tasks := [task_id]
    fix_suggestion := "Fix typo in dependency or add missing task to Sprint_plan.csv"
    priority := "high" }

def create_tier_a_missing_gates_error (task_id : String) : ValidationResult :=
  { rule_id := RULE_TIER_A_GATES_REQUIRED
    severity := .ERROR
    message := "Tier A task " ++ task_id ++ " missing gate_profile"
    tasks := [task_id]
    fix_suggestion := "Add gate_profile to task in plan-overrides.yaml"
    priority := "high" }

def create_tier_a_missing_owner_error (task_id : String) : ValidationResult :=
  { rule_id := RULE_TIER_A_OWNER_REQUIRED
    severity := .ERROR
    message := "Tier A task " ++ task_id ++ " missing acceptance_owner"
    tasks := [task_id]
    fix_suggestion := "Add acceptance_owner to task in plan-overrides.yaml"
    priority := "high" }

def create_tier_a_missing_evidence_error (task_id : String) : ValidationResult :=
  { rule_id := RULE_TIER_A_EVIDENCE_REQUIRED
    severity := .ERROR
    message := "Tier A task " ++ task_id ++ " missing evidence_required"
    tasks := [task_id]
    fix_suggestion := "Add evidence_required list to task in plan-overrides.yaml"
    priority := "high" }

def create_tier_a_missing_acceptance_error (task_id : String) : ValidationResult :=
  { rule_id := RULE_TIER_A_ACCEPTANCE_REQUIRED
    severity := .ERROR
    message := "Tier A task " ++ task_id ++ " missing acceptance_criteria"
    tasks := [task_id]
    fix_suggestion := "Add Acceptance Criteria column value in Sprint_plan.csv"
    priority := "high" }

def create_duplicate_id_error (task_id : String) (count : Nat) : ValidationResult :=
  { rule_id := RULE_TASK_ID_UNIQUE
    severity := .ERROR
    message := "Task ID " ++ task_id ++ " appears " ++ toString count ++ " times (must be unique)"
    tasks := [task_id]
    fix_suggestion := "Rename duplicate task IDs in Sprint_plan.csv"
    priority := "critical" }

def create_high_fanout_warning (task_id : String) (fanout : Nat) : ValidationResult :=
  { rule_id := RULE_HIGH_FANOUT
    severity := .INFO
    message := "Task " ++ task_id ++ " has " ++ toString fanout ++ " direct dependents (high fan-out)"
    tasks := [task_id]
    priority := "high"
    metadata := [("fanout", .int fanout)] }

def create_missing_validation_warning (task_id sectionName : String) : ValidationResult :=
  { rule_id := RULE_MISSING_VALIDATION
    severity := .WARNING
    message := "Task " ++ task_id ++ " has no validation commands in validation.yaml"
    tasks := [task_id]
    priority := "medium"
    metadata := [("section", .str sectionName)] }

def create_phantom_completion_error (task_id : String) (missing_artifacts : List String)
    (suggestions : Option (List (String × String))) : ValidationResult :=
  let artifact_list := String.intercalate ", " (missing_artifacts.take 3)
  let artifact_list := if missing_artifacts.length > 3 then
      artifact_list ++ " (+" ++ toString (missing_artifacts.length - 3) ++ " more)"
    else artifact_list
  let fix_suggestion := match suggestions with
    | some sug =>
      "Possible path corrections: "
        ++ String.intercalate "; "
          ((sug.take 2).map (fun p => "'" ++ p.1 ++ "' might be at '" ++ p.2 ++ "'"))
        ++ ". Update Sprint_plan.csv or plan-overrides.yaml"
    | none => "Either create the missing artifacts or revert task status to In Progress"
  { rule_id := RULE_PHANTOM_COMPLETION
    severity := .ERROR
    message := "PHANTOM COMPLETION: Task " ++ task_id
      ++ " marked Completed but missing artifacts: " ++ artifact_list
    tasks := [task_id]
    fix_suggestion := fix_suggestion
    priority := "critical"
    metadata := [("missing_artifacts", .strList missing_artifacts),
                 ("missing_count", .int missing_artifacts.length),
                 ("suggestions", .strPairs (match suggestions with | some s => s | none => []))] }

def create_invalid_artifact_path_error (task_id invalid_path reason : String) :
    ValidationResult :=
  { rule_id := RULE_INVALID_ARTIFACT_PATH
    severity := .ERROR
    message := "INVALID ARTIFACT PATH: Task " ++ task_id ++ " has non-path artifact: '"
      ++ pyTake invalid_path 50 ++ "...' (" ++ reason ++ ")"
    tasks := [task_id]
    fix_suggestion := "Replace prose descriptions with actual file paths in Sprint_plan.csv 'Artifacts To Track' column"
    priority := "critical"
    metadata := [("invalid_path", .str invalid_path), ("reason", .str reason)] }

def create_artifact_suggestion_warning (task_id expected_path suggested_path : String) :
    ValidationResult :=
  { rule_id := RULE_ARTIFACT_PATH_SUGGESTION
    severity := .WARNING
    message := "Task " ++ task_id ++ ": artifact '" ++ expected_path
      ++ "' not found, but similar file exists at '" ++ suggested_path ++ "'"
    tasks := [task_id]
    fix_suggestion := "Update Sprint_plan.csv or plan-overrides.yaml to use '" ++ suggested_path ++ "'"
    priority := "medium"
    metadata := [("expected_path", .str expected_path), ("suggested_path", .str suggested_path)] }

/-- `is_valid_artifact_path`: prose-versus-path heuristics; returns
`(is_valid, reason)`.  `Char.isAlphanum` stands for the ASCII fragment of
Python `str.isalnum`. -/
def is_valid_artifact_path (path0 : String) : Bool × String :=
  let path := pyStrip path0
  if path = "" then (false, "empty path")
  else if (pySplit path).length > 4 && pyHasChar path ' '
      && !(pyHasChar path '/') && !(pyHasChar path '\\') then
    (false, "looks like prose (multiple words, no path separators)")
  else
    let lower := pyLower path
    if ["a ", "an ", "the ", "all ", "no ", "each ", "every ", "this ", "that "].any
        (fun p => pyStartsWith lower p) then
      (false, "starts with article/determiner")
    else
      match [" is ", " are ", " was ", " were ", " has ", " have ", " had ",
             " running ", " configured ", " enabled ", " installed ", " stored ",
             " verified ", " completed ", " generated ", " created "].find?
          (fun pat => strContainsSub lower pat) with
      | some pat => (false, "contains verb phrase '" ++ pyStrip pat ++ "'")
      | none =>
        let has_path_separator := pyHasChar path '/' || pyHasChar path '\\'
        let has_extension := if pyHasChar path '/' then
            pyHasChar ((pySplitOnChar '/' path).getLastD "") '.'
          else pyHasChar path '.'
        let has_glob := pyHasChar path '*'
        let starts_valid := (pyFront path).isAlphanum || pyStartsWith path "."
          || pyStartsWith path "./" || pyStartsWith path "../" || pyStartsWith path "/"
        if !starts_valid then (false, "doesn't start with valid path character")
        else if !has_path_separator && !has_extension && !has_glob && path.length > 30 then
          (false, "too long for single directory name")
        else (true, "valid")

/-- Python `s.lstrip("/")`. -/
def lstripSlash (s : String) : String := String.mk (s.toList.dropWhile (· = '/'))

/-- Python `s.rstrip(cs)`. -/
def rstripChars (s : String) (cs : List Char) : String :=
  String.mk ((s.toList.reverse.dropWhile (cs.contains ·)).reverse)

/-- The `path_variations` table of `find_similar_paths`. -/
def path_variations : List (String × String) :=
  [("artifacts/misc/", ""),
   ("artifacts/", ""),
   ("packages/ai/", "apps/ai-worker/"),
   ("packages/api/", "apps/api/"),
   ("packages/api/src/", "apps/api/src/"),
   ("apps/web/components/", "apps/web/src/components/"),
   ("apps/web/components/", "packages/ui/src/components/"),
   ("apps/web/components/ui/", "packages/ui/src/components/"),
   ("artifacts/misc/prisma/", "packages/db/prisma/"),
   ("artifacts/misc/", "docs/")]

/-- The variation loop of `find_similar_paths`; the `Bool` records the early
`return suggestions` taken when `max_suggestions` is reached. -/
def findSimilarLoop (fsExists : String → Bool) (missing_path filename : String)
    (max_suggestions : Nat) :
    List (String × String) → List String → List String × Bool
  | [], suggestions => (suggestions, false)
  | pv :: rest, suggestions =>
    if strContainsSub missing_path pv.1 then
      let alternative0 := pyReplace missing_path pv.1 pv.2
      let alternative := if alternative0 = "" then filename else alternative0
      let check_path := if pyHasChar alternative '*' then
          rstripChars ((pySplitOnChar '*' alternative).headD "") ['/']
        else lstripSlash alternative
      if fsExists check_path && !(suggestions.contains alternative) then
        let s2 := suggestions ++ [alternative]
        if s2.length ≥ max_suggestions then (s2, true)
        else findSimilarLoop fsExists missing_path filename max_suggestions rest s2
      else findSimilarLoop fsExists missing_path filename max_suggestions rest suggestions
    else findSimilarLoop fsExists missing_path filename max_suggestions rest suggestions

/-- `find_similar_paths` (the filesystem enters as the oracle `fsExists`,
standing for `(project_root / arg).exists()`). -/
def find_similar_paths (fsExists : String → Bool) (missing_path : String)
    (max_suggestions : Nat := 3) : List String :=
  let filename :=
    if pyHasChar missing_path '/' then
      let f := (pySplitOnChar '/' missing_path).getLastD ""
      if pyHasChar f '*' then pyReplace f "*" "" else f
    else missing_path
  if filename = "" || filename = "*" then []
  else
    let res := findSimilarLoop fsExists missing_path filename max_suggestions
      path_variations []
    if res.2 then res.1
    else if strContainsSub missing_path "artifacts/misc/"
        || strContainsSub missing_path "artifacts/" then
      if fsExists filename && !(res.1.contains filename) then res.1 ++ [filename]
      else res.1
    else res.1

/-! ### Overrides (`adapters/yaml_loader.py`) and the lint use case
(`application/lint_plan.py`) -/

/-- `TaskOverride` dataclass. -/
structure TaskOverride where
  task_id : String
  tier : Option String := none
  gate_profile : List String := []
  acceptance_owner : Option String := none
  acceptance_criteria : List String := []
  evidence_required : List String := []
  override_deps_add : List String := []
  override_deps_remove : List String := []
  sprint_override : Option Int := none
  exception_policy : Option String := none
  debt_allowed : Bool := false
  waiver_expiry : Option String := none
  notes : Option String := none
deriving DecidableEq

/-- `LintPlanResult` (its `review_queue` and `summary` fields are pure output
formatting referenced by no claim and are omitted from the embedding). -/
structure LintPlanResult where
  errors : List ValidationResult := []
  warnings : List ValidationResult := []
deriving DecidableEq

/-- `has_errors`: any hard failure recorded. -/
def LintPlanResult.has_errors (r : LintPlanResult) : Bool :=
  decide (r.errors.length > 0)

/-- `exit_code`: `1` when `has_errors()`, else `0`. -/
def LintPlanResult.exit_code (r : LintPlanResult) : Nat :=
  if r.has_errors then 1 else 0

/-- `LintPlanUseCase` dataclass.  `validation_rules` is a dict of which only
key membership is consulted, so only its key list is kept; `project_root`
(a path or `None`) is kept as the filesystem-existence oracle it induces. -/
structure LintPlanUseCase where
  tasks : List Task
  overrides : List (String × TaskOverride) := []
  validation_rules : List String := []
  sprint_scope : Option Int := none
  fanout_threshold : Nat := 3
  project_root : Option (String → Bool) := none

/-- `self.overrides.get(task_id)`. -/
def LintPlanUseCase.overrideFor (uc : LintPlanUseCase) (task_id : String) :
    Option TaskOverride :=
  alLookup uc.overrides task_id

/-- `_apply_override`: convert the raw override fields (with Python
truthiness on the string/list fields) and delegate to `Task.with_override`. -/
def applyOverrideTo (task : Task) (override : TaskOverride) : Task :=
  let tier := match override.tier with
    | some s => if s = "" then none else some (Tier.from_string s)
    | none => none
  let gate_profile := match override.gate_profile with
    | [] => none
    | gp :: _ => some (GateProfile.from_string gp)
  let evidence_required :=
    if override.evidence_required.isEmpty then none else some override.evidence_required
  let dependencies_add :=
    if override.override_deps_add.isEmpty then none else some override.override_deps_add
  let dependencies_remove :=
    if override.override_deps_remove.isEmpty then none else some override.override_deps_remove
  task.with_override tier gate_profile override.acceptance_owner evidence_required
    dependencies_add dependencies_remove override.sprint_override

/-- `_apply_overrides`. -/
def LintPlanUseCase.applyOverrides (uc : LintPlanUseCase) : List Task :=
  uc.tasks.map (fun task =>
    match uc.overrideFor task.task_id with
    | none => task
    | some o => applyOverrideTo task o)

/-- `_get_scoped_tasks`. -/
def LintPlanUseCase.scopedTasks (uc : LintPlanUseCase) (tasks : List Task) : List Task :=
  match uc.sprint_scope with
  | none => tasks
  | some s => tasks.filter (fun (t : Task) => t.sprint == some s)

/-- `_check_cycles`: all cycles, filtered (under a sprint scope) to cycles
touching a task whose *base* (pre-override) sprint equals the scope. -/
def LintPlanUseCase.checkCycles (uc : LintPlanUseCase) (graph : DependencyGraph) :
    List ValidationResult :=
  let cycles := graph.detect_cycles
  let cycles := match uc.sprint_scope with
    | none => cycles
    | some s =>
      let scoped_task_ids :=
        (uc.tasks.filter (fun (t : Task) => t.sprint == some s)).map Task.task_id
      cycles.filter (fun cycle => cycle.any (scoped_task_ids.contains ·))
  cycles.map create_cycle_error

/-- `_check_cross_sprint`: only the violations with `is_allowed = False`
become errors. -/
def LintPlanUseCase.checkCrossSprint (uc : LintPlanUseCase) (graph : DependencyGraph) :
    List ValidationResult :=
  (graph.detect_cross_sprint_violations uc.sprint_scope).filterMap (fun v =>
    if v.is_allowed then none
    else some (create_cross_sprint_error v.task_id v.task_sprint v.dependency_id
      v.dependency_sprint))

/-- `_check_unresolved_deps`. -/
def LintPlanUseCase.checkUnresolvedDeps (_uc : LintPlanUseCase)
    (graph : DependencyGraph) : List ValidationResult :=
  graph.find_unresolved_dependencies.map (fun p => create_unresolved_dep_error p.1 p.2)

/-- `_tier_a_requirement_errors`: each of the four values counts as present
when it is on the (overridden) task or supplied by the override record. -/
def tierARequirementErrors (override : Option TaskOverride) (task : Task) :
    List ValidationResult :=
  let has_gates := (task.gate_profile != GateProfile.NONE)
    || (match override with | some o => !o.gate_profile.isEmpty | none => false)
  let has_owner := optStrTruthy task.acceptance_owner
    || (match override with | some o => optStrTruthy o.acceptance_owner | none => false)
  let has_evidence := !task.evidence_required.isEmpty
    || (match override with | some o => !o.evidence_required.isEmpty | none => false)
  let has_acceptance := (task.acceptance_criteria != "")
    || (match override with | some o => !o.acceptance_criteria.isEmpty | none => false)
  (if !has_gates then [create_tier_a_missing_gates_error task.task_id] else [])
    ++ (if !has_owner then [create_tier_a_missing_owner_error task.task_id] else [])
    ++ (if !has_evidence then [create_tier_a_missing_evidence_error task.task_id] else [])
    ++ (if !has_acceptance then [create_tier_a_missing_acceptance_error task.task_id] else [])

/-- `_check_tier_a_requirements`. -/
def LintPlanUseCase.checkTierA (uc : LintPlanUseCase) (tasks : List Task) :
    List ValidationResult :=
  tasks.flatMap (fun task =>
    if task.tier = Tier.A then tierARequirementErrors (uc.overrideFor task.task_id) task
    else [])

/-- First-occurrence order of a list of ids (the iteration order of a Python
`Counter` built from it). -/
def firstOccurrences : List String → List String → List String
  | [], _ => []
  | x :: xs, seen =>
    if seen.contains x then firstOccurrences xs seen
    else x :: firstOccurrences xs (seen ++ [x])

/-- `_check_unique_ids` over the raw (pre-override) task list. -/
def LintPlanUseCase.checkUniqueIds (uc : LintPlanUseCase) : List ValidationResult :=
  let ids := uc.tasks.map (·.task_id)
  (firstOccurrences ids []).filterMap (fun task_id =>
    let count := ids.count task_id
    if count > 1 then some (create_duplicate_id_error task_id count) else none)

/-- `_extend_unique`. -/
def extendUnique (existing extra : List String) : List String :=
  extra.foldl (fun acc item => if acc.contains item then acc else acc ++ [item]) existing

/-- `_collect_phantom_expected_artifacts`: CSV artifacts, then override
evidence, then task evidence, deduplicated in encounter order. -/
def LintPlanUseCase.collectPhantomExpected (uc : LintPlanUseCase) (task : Task) :
    List String :=
  let expected := task.artifacts_expected
  let expected := match uc.overrideFor task.task_id with
    | some o => if o.evidence_required.isEmpty then expected
        else extendUnique expected o.evidence_required
    | none => expected
  extendUnique expected task.evidence_required

/-- `_normalize_artifact_paths`. -/
def normalizeArtifactPaths (artifact_paths : List String) : List String :=
  (artifact_paths.map pyStrip).filter (· ≠ "")

/-- `_split_valid_artifacts`: prose-looking strings become
`INVALID_ARTIFACT_PATH` errors, the rest go on to the existence check. -/
def splitValidArtifacts (task_id : String) (artifact_paths : List String) :
    List ValidationResult × List String :=
  artifact_paths.foldl
    (fun acc artifact_path =>
      if (is_valid_artifact_path artifact_path).1 then (acc.1, acc.2 ++ [artifact_path])
      else (acc.1 ++ [create_invalid_artifact_path_error task_id artifact_path
        (is_valid_artifact_path artifact_path).2], acc.2))
    ([], [])

/-- `_artifact_exists`: glob patterns resolve by existence of the directory
part before the first `*`. -/
def artifactExists (fsExists : String → Bool) (artifact_path : String) : Bool :=
  if pyHasChar artifact_path '*' then
    fsExists (rstripChars ((pySplitOnChar '*' artifact_path).headD "") ['/', '\\'])
  else fsExists artifact_path

/-- `_find_missing_artifacts`. -/
def findMissingArtifacts (fsExists : String → Bool) (artifact_paths : List String) :
    List String × List (String × String) :=
  artifact_paths.foldl
    (fun acc artifact_path =>
      if artifactExists fsExists artifact_path then acc
      else
        match find_similar_paths fsExists artifact_path 1 with
        | s :: _ => (acc.1 ++ [artifact_path], acc.2 ++ [(artifact_path, s)])
        | [] => (acc.1 ++ [artifact_path], acc.2))
    ([], [])

/-- `_phantom_completion_errors_for_task`. -/
def LintPlanUseCase.phantomErrorsForTask (uc : LintPlanUseCase)
    (fsExists : String → Bool) (task : Task) : List ValidationResult :=
  let expected := uc.collectPhantomExpected task
  let normalized := normalizeArtifactPaths expected
  let split := splitValidArtifacts task.task_id normalized
  let ms := findMissingArtifacts fsExists split.2
  split.1 ++
    (if ms.1.isEmpty then []
     else [create_phantom_completion_error task.task_id ms.1
       (if ms.2.isEmpty then none else some ms.2)])

/-- `_check_phantom_completions` (skipped entirely without a project root). -/
def LintPlanUseCase.checkPhantomCompletions (uc : LintPlanUseCase)
    (tasks : List Task) : List ValidationResult :=
  match uc.project_root with
  | none => []
  | some fsExists =>
    tasks.flatMap (fun task =>
      if task.status = TaskStatus.COMPLETED then uc.phantomErrorsForTask fsExists task
      else [])

/-- `_artifact_path_warnings_for_task`. -/
def LintPlanUseCase.artifactPathWarningsForTask (uc : LintPlanUseCase)
    (fsExists : String → Bool) (task : Task) : List ValidationResult :=
  let all_artifacts := task.artifacts_expected ++
    (match uc.overrideFor task.task_id with
     | some o => if o.evidence_required.isEmpty then [] else o.evidence_required
     | none => [])
  (normalizeArtifactPaths all_artifacts).filterMap (fun artifact_path =>
    if !(is_valid_artifact_path artifact_path).1 then none
    else if pyHasChar artifact_path '*' then none
    else if fsExists artifact_path then none
    else
      match find_similar_paths fsExists artifact_path 1 with
      | s :: _ => some (create_artifact_suggestion_warning task.task_id artifact_path s)
      | [] => none)

/-- `_check_artifact_paths`. -/
def LintPlanUseCase.checkArtifactPaths (uc : LintPlanUseCase) (tasks : List Task) :
    List ValidationResult :=
  match uc.project_root with
  | none => []
  | some fsExists => tasks.flatMap (uc.artifactPathWarningsForTask fsExists)

/-- `_check_tier_b_gates`. -/
def LintPlanUseCase.checkTierBGates (uc : LintPlanUseCase) (tasks : List Task) :
    List ValidationResult :=
  tasks.filterMap (fun task =>
    if task.tier ≠ Tier.B then none
    else
      let override := uc.overrideFor task.task_id
      let has_gates := (task.gate_profile != GateProfile.NONE)
        || (match override with | some o => !o.gate_profile.isEmpty | none => false)
      if has_gates then none
      else some { rule_id := RULE_TIER_B_MISSING_GATES
                  severity := .WARNING
                  message := "Tier B task " ++ task.task_id ++ " missing gate_profile"
                  tasks := [task.task_id]
                  priority := "medium" })

/-- `_check_high_fanout`.  Python iterates the set of scoped task ids in
unspecified order; the embedding fixes first-occurrence order. -/
def LintPlanUseCase.checkHighFanout (uc : LintPlanUseCase) (graph : DependencyGraph)
    (tasks : List Task) : List ValidationResult :=
  let fanout := graph.compute_fanout
  (firstOccurrences (tasks.map (·.task_id)) []).filterMap (fun task_id =>
    let count := (alLookup fanout task_id).getD 0
    if count ≥ uc.fanout_threshold then some (create_high_fanout_warning task_id count)
    else none)

/-- `_check_validation_coverage`. -/
def LintPlanUseCase.checkValidationCoverage (uc : LintPlanUseCase) (tasks : List Task) :
    List ValidationResult :=
  tasks.filterMap (fun task =>
    if uc.validation_rules.contains task.task_id then none
    else some (create_missing_validation_warning task.task_id task.section_))

/-- `_waiver_expiry_warning`.  `daysUntil` is the oracle for
`(datetime.fromisoformat(...) - now).days`; `none` is the `ValueError`
branch, which returns `None` (no finding). -/
def waiverExpiryWarning (daysUntil : String → Option Int) (task_id waiver_expiry : String) :
    Option ValidationResult :=
  match daysUntil waiver_expiry with
  | none => none
  | some days_until =>
    if days_until > 30 then none
    else
      some { rule_id := RULE_WAIVER_EXPIRING
             severity := if days_until ≤ 0 then .ERROR else .WARNING
             message := "Task " ++ task_id ++ " waiver expires in "
               ++ toString days_until ++ " days"
             tasks := [task_id]
             priority := if days_until ≤ 0 then "critical" else "high"
             metadata := [("days_until_expiry", .int days_until)] }

/-- `_check_waivers`. -/
def LintPlanUseCase.checkWaivers (uc : LintPlanUseCase)
    (daysUntil : String → Option Int) (tasks : List Task) : List ValidationResult :=
  tasks.filterMap (fun task =>
    match uc.overrideFor task.task_id with
    | none => none
    | some override =>
      match override.waiver_expiry with
      | none => none
      | some we => if we = "" then none else waiverExpiryWarning daysUntil task.task_id we)

/-- `execute`: apply overrides, build the graph, scope the tasks, run the six
hard checks into `errors` and the five soft checks into `warnings`.
(The review queue and the summary are derived output omitted here.) -/
def LintPlanUseCase.execute (uc : LintPlanUseCase) (daysUntil : String → Option Int) :
    LintPlanResult :=
  let tasks := uc.applyOverrides
  let graph := DependencyGraph.from_tasks tasks
  let scoped_tasks := uc.scopedTasks tasks
  { errors :=
      uc.checkCycles graph
        ++ uc.checkCrossSprint graph
        ++ uc.checkUnresolvedDeps graph
        ++ uc.checkTierA scoped_tasks
        ++ uc.checkUniqueIds
        ++ uc.checkPhantomCompletions scoped_tasks
    warnings :=
      uc.checkTierBGates scoped_tasks
        ++ uc.checkHighFanout graph scoped_tasks
        ++ uc.checkValidationCoverage scoped_tasks
        ++ uc.checkWaivers daysUntil scoped_tasks
        ++ uc.checkArtifactPaths scoped_tasks }

/-- The effective (overridden) task checked by the linter: the elementwise
body of `_apply_overrides`. -/
def LintPlanUseCase.effTask (uc : LintPlanUseCase) (task : Task) : Task :=
  match uc.overrideFor task.task_id with
  | none => task
  | some o => applyOverrideTo task o

/-- The four Tier-A rule identifiers. -/
def tierARuleIds : List String :=
  [RULE_TIER_A_GATES_REQUIRED, RULE_TIER_A_OWNER_REQUIRED,
   RULE_TIER_A_EVIDENCE_REQUIRED, RULE_TIER_A_ACCEPTANCE_REQUIRED]

/-- The four Tier-A errors for one task id, in emission order. -/
def tierAFour (tid : String) : List ValidationResult :=
  [create_tier_a_missing_gates_error tid,
   create_tier_a_missing_owner_error tid,
   create_tier_a_missing_evidence_error tid,
   create_tier_a_missing_acceptance_error tid]

/-! ### Concrete instances used by counterexamples and witnesses -/

/-- Graph with the two overlapping cycles `V -> A -> W -> V` and
`V -> B -> W -> V` (insertion order `V, A, B, W`). -/
def c2Graph : DependencyGraph :=
  ((((⟨[]⟩ : DependencyGraph).add_task "V" ["A", "B"]).add_task "A"
    ["W"]).add_task "B" ["W"]).add_task "W" ["V"]

/-- Graph in which task `A` lists the same dependency `B` twice. -/
def c7Graph : DependencyGraph :=
  ((⟨[]⟩ : DependencyGraph).add_task "A" ["B", "B"]).add_task "B" []

/-- A lint run whose only finding is an already-expired waiver:
one well-formed task, an override with a `waiver_expiry`, and a date oracle
reporting the expiry 100 days in the past. -/
def c1UC : LintPlanUseCase :=
  { tasks := [{ task_id := "T1" }]
    overrides := [("T1", { task_id := "T1", waiver_expiry := some "2020-01-01" })] }

def c1Days : String → Option Int := fun _ => some (-100)

/-- A lint run whose single override carries an unparseable waiver expiry. -/
def c10UC : LintPlanUseCase :=
  { tasks := [{ task_id := "T1" }]
    overrides := [("T1", { task_id := "T1", waiver_expiry := some "not-a-date" })] }

/-- Two-node graph with one cross-sprint edge `X (sprint 1) -> Y (sprint 2)`. -/
def c4Graph : DependencyGraph :=
  ((⟨[]⟩ : DependencyGraph).add_task "X" ["Y"] (some 1) false).add_task "Y" []
    (some 2) true

/-- A two-node acyclic graph: `A` depends on `B`. -/
def c3Graph : DependencyGraph :=
  ((⟨[]⟩ : DependencyGraph).add_task "A" ["B"]).add_task "B" []

/-- A completed task declaring one prose artifact and one path artifact. -/
def c9Task : Task :=
  { task_id := "T9", status := .COMPLETED,
    artifacts_expected := ["the server is running fine now", "docs/x.md"] }

def c9UC : LintPlanUseCase :=
  { tasks := [c9Task], project_root := some (fun _ => false) }

/-- The `missing_artifacts` metadata list of a `PHANTOM_COMPLETION` result. -/
def phantomMissingOf (r : ValidationResult) : List String :=
  match alLookup r.metadata "missing_artifacts" with
  | some (MetaVal.strList l) => l
  | _ => []

/-- A Tier-A task missing all four governance values. -/
def c6Task : Task :=
  { task_id := "T6", tier := .A }

def c6UC : LintPlanUseCase :=
  { tasks := [c6Task] }

/-! ## Lemmas and theorems -/

lemma mem_insertSorted {y x : String} : ∀ {l : List String},
    y ∈ insertSorted x l ↔ y = x ∨ y ∈ l := by
  intro l
  induction l with
  | nil => simp [insertSorted]
  | cons z zs ih =>
    show y ∈ (if x = z then z :: zs else if x < z then x :: z :: zs
      else z :: insertSorted x zs) ↔ _
    by_cases h1 : x = z
    · rw [if_pos h1]
      subst h1
      simp only [List.mem_cons]
      tauto
    · rw [if_neg h1]
      by_cases h2 : x < z
      · rw [if_pos h2]
        simp [List.mem_cons]
      · rw [if_neg h2]
        simp only [List.mem_cons, ih]
        tauto

lemma sorted_insertSorted {x : String} : ∀ {l : List String},
    l.Sorted (· < ·) → (insertSorted x l).Sorted (· < ·) := by
  intro l
  induction l with
  | nil => intro _; simp [insertSorted]
  | cons z zs ih =>
    intro hs
    rw [List.sorted_cons] at hs
    show List.Sorted (· < ·) (if x = z then z :: zs else if x < z then x :: z :: zs
      else z :: insertSorted x zs)
    by_cases h1 : x = z
    · rw [if_pos h1]
      rw [List.sorted_cons]
      exact hs
    · rw [if_neg h1]
      by_cases h2 : x < z
      · rw [if_pos h2]
        rw [List.sorted_cons]
        refine ⟨?_, ?_⟩
        · intro b hb
          rcases List.mem_cons.mp hb with rfl | hb
          · exact h2
          · exact lt_trans h2 (hs.1 b hb)
        · rw [List.sorted_cons]
          exact hs
      · have hzx : z < x := lt_of_le_of_ne (le_of_not_lt h2) (Ne.symm h1)
        rw [if_neg h2]
        rw [List.sorted_cons]
        refine ⟨?_, ih hs.2⟩
        intro b hb
        rcases mem_insertSorted.mp hb with rfl | hb
        · exact hzx
        · exact hs.1 b hb

lemma sortedDedup_cons (x : String) (xs : List String) :
    sortedDedup (x :: xs) = insertSorted x (sortedDedup xs) := rfl

lemma sortedDedup_sorted (xs : List String) : (sortedDedup xs).Sorted (· < ·) := by
  induction xs with
  | nil => simp [sortedDedup]
  | cons x xs ih =>
    rw [sortedDedup_cons]
    exact sorted_insertSorted ih

lemma mem_sortedDedup {y : String} : ∀ {xs : List String}, y ∈ sortedDedup xs ↔ y ∈ xs := by
  intro xs
  induction xs with
  | nil => simp [sortedDedup]
  | cons x xs ih => simp [sortedDedup_cons, mem_insertSorted, ih]

lemma sorted_lt_eq_of_mem_iff : ∀ {l1 l2 : List String}, l1.Sorted (· < ·) →
    l2.Sorted (· < ·) → (∀ x, x ∈ l1 ↔ x ∈ l2) → l1 = l2 := by
  intro l1
  induction l1 with
  | nil =>
    intro l2 _ _ hm
    cases l2 with
    | nil => rfl
    | cons y ys => exact absurd ((hm y).mpr (List.mem_cons_self y ys)) (List.not_mem_nil y)
  | cons x xs ih =>
    intro l2 h1 h2 hm
    cases l2 with
    | nil => exact absurd ((hm x).mp (List.mem_cons_self x xs)) (List.not_mem_nil x)
    | cons y ys =>
      rw [List.sorted_cons] at h1 h2
      have hxy : x = y := by
        rcases List.mem_cons.mp ((hm x).mp (List.mem_cons_self x xs)) with h | h
        · exact h
        · have hyx : y < x := h2.1 x h
          rcases List.mem_cons.mp ((hm y).mpr (List.mem_cons_self y ys)) with h' | h'
          · rw [h'] at hyx
            exact absurd hyx (lt_irrefl x)
          · exact absurd (lt_trans hyx (h1.1 y h')) (lt_irrefl y)
      subst hxy
      congr 1
      refine ih h1.2 h2.2 ?_
      intro z
      constructor
      · intro hz
        rcases List.mem_cons.mp ((hm z).mp (List.mem_cons_of_mem x hz)) with h | h
        · rw [h] at hz
          exact absurd (h1.1 x hz) (lt_irrefl x)
        · exact h
      · intro hz
        rcases List.mem_cons.mp ((hm z).mpr (List.mem_cons_of_mem x hz)) with h | h
        · rw [h] at hz
          exact absurd (h2.1 x hz) (lt_irrefl x)
        · exact h

lemma sortedDedup_eq_self {l : List String} (h : l.Sorted (· < ·)) :
    sortedDedup l = l :=
  sorted_lt_eq_of_mem_iff (sortedDedup_sorted l) h (fun _ => mem_sortedDedup)

lemma overrideDeps_sorted (add rem : Option (List String)) (l : List String) :
    (overrideDeps add rem l).Sorted (· < ·) := by
  cases add with
  | some a =>
    cases rem with
    | some r => exact sortedDedup_sorted _
    | none => exact sortedDedup_sorted _
  | none =>
    cases rem with
    | some r => exact List.Pairwise.filter _ (sortedDedup_sorted l)
    | none => exact sortedDedup_sorted l

lemma overrideDeps_idem (add rem : Option (List String)) (ds : List String) :
    overrideDeps add rem (overrideDeps add rem ds) = overrideDeps add rem ds := by
  refine sorted_lt_eq_of_mem_iff (overrideDeps_sorted add rem _)
    (overrideDeps_sorted add rem _) ?_
  intro x
  cases add <;> cases rem <;>
    simp [overrideDeps, mem_sortedDedup, List.mem_filter, List.mem_append] <;>
    tauto

/-- C5: `with_override` is pure (the base task is an immutable value the
function never touches) and idempotent: applying the same override arguments
to the result of a first application returns the same task — for the
tier/gate/owner/evidence/sprint replacements and for the remove-then-add set
rebuild of the dependencies. -/
theorem C5_with_override_idempotent (t : Task) (tier : Option Tier)
    (gate_profile : Option GateProfile) (acceptance_owner : Option String)
    (evidence_required : Option (List String))
    (dependencies_add dependencies_remove : Option (List String))
    (sprint_override : Option Int) :
    (t.with_override tier gate_profile acceptance_owner evidence_required
        dependencies_add dependencies_remove sprint_override).with_override
      tier gate_profile acceptance_owner evidence_required dependencies_add
      dependencies_remove sprint_override
    = t.with_override tier gate_profile acceptance_owner evidence_required
        dependencies_add dependencies_remove sprint_override := by
  cases tier <;> cases gate_profile <;> cases acceptance_owner <;>
    cases evidence_required <;> cases sprint_override <;>
    simp [Task.with_override, overrideDeps_idem]

/-- C8: enumerated-field parsing never fails — `TaskStatus.from_string`
returns `PLANNED` on unrecognized input and `COMPLETED` for `Done`,
`Tier.from_string` returns `C` on unrecognized input, `GateProfile.from_string`
returns `NONE` on unrecognized input and `STRICT` for custom-named profiles —
and constructing a `Task` fails exactly on an empty `task_id`. -/
theorem C8_parsing_defaults_and_construction :
    (∀ s : String, pyUpper (pyStrip s) ∉ (["A", "B", "C"] : List String) →
      Tier.from_string s = Tier.C)
    ∧ TaskStatus.from_string "Done" = TaskStatus.COMPLETED
    ∧ (∀ s : String,
        pyLower (pyStrip s) ∉ (["planned", "in progress", "validating", "completed",
          "blocked", "failed", "backlog", "done"] : List String) →
        TaskStatus.from_string s = TaskStatus.PLANNED)
    ∧ (∀ s : String, pyStartsWith (pyLower (pyStrip s)) "custom:" = false →
        pyLower (pyStrip s) ∉ (["none", "basic", "standard", "strict"] : List String) →
        GateProfile.from_string s = GateProfile.NONE)
    ∧ (∀ s : String, pyStartsWith (pyLower (pyStrip s)) "custom:" = true →
        GateProfile.from_string s = GateProfile.STRICT)
    ∧ (∀ t : Task, (∃ e, Task.make t = Except.error e) ↔ t.task_id = "") := by
  refine ⟨?_, by decide, ?_, ?_, ?_, ?_⟩
  · intro s hs
    simp only [List.mem_cons, List.not_mem_nil, or_false, not_or] at hs
    by_cases h0 : s = ""
    · simp [Tier.from_string, h0]
    · simp [Tier.from_string, h0, hs.1, hs.2.1, hs.2.2]
  · intro s hs
    simp only [List.mem_cons, List.not_mem_nil, or_false, not_or] at hs
    by_cases h0 : s = ""
    · simp [TaskStatus.from_string, h0]
    · obtain ⟨n1, n2, n3, n4, n5, n6, n7, n8⟩ := hs
      simp [TaskStatus.from_string, h0, n1, n2, n3, n4, n5, n6, n7, n8]
  · intro s hcust hs
    simp only [List.mem_cons, List.not_mem_nil, or_false, not_or] at hs
    by_cases h0 : s = ""
    · simp [GateProfile.from_string, h0]
    · obtain ⟨n1, n2, n3, n4⟩ := hs
      simp [GateProfile.from_string, h0, hcust, n1, n2, n3, n4]
  · intro s hcust
    have h0 : s ≠ "" := by
      intro h
      rw [h] at hcust
      exact absurd hcust (by decide)
    simp [GateProfile.from_string, h0, hcust]
  · intro t
    by_cases h : t.task_id = "" <;> simp [Task.make, h]

/-- Witness for C8 at concrete inputs. -/
theorem C8_witness :
    Tier.from_string "Platinum" = Tier.C
    ∧ TaskStatus.from_string "Done" = TaskStatus.COMPLETED
    ∧ TaskStatus.from_string "odd status" = TaskStatus.PLANNED
    ∧ GateProfile.from_string "fancy" = GateProfile.NONE
    ∧ GateProfile.from_string "custom:mine" = GateProfile.STRICT
    ∧ ((∃ e, Task.make { task_id := "" } = Except.error e) ↔ ("" : String) = "")
    ∧ ((∃ e, Task.make { task_id := "T" } = Except.error e) ↔ ("T" : String) = "") := by
  have h := C8_parsing_defaults_and_construction
  exact ⟨h.1 "Platinum" (by decide), h.2.1, h.2.2.1 "odd status" (by decide),
    h.2.2.2.1 "fancy" (by decide) (by decide), h.2.2.2.2.1 "custom:mine" (by decide),
    h.2.2.2.2.2 { task_id := "" }, h.2.2.2.2.2 { task_id := "T" }⟩

/-- The tasks tuple of any result produced by `_waiver_expiry_warning` is the
singleton of the task id it was called with. -/
lemma waiverExpiryWarning_tasks {du : String → Option Int} {id we : String}
    {r : ValidationResult} (h : waiverExpiryWarning du id we = some r) :
    r.tasks = [id] := by
  rw [waiverExpiryWarning] at h
  rcases hd : du we with _ | d
  · rw [hd] at h
    exact absurd h (by simp)
  · rw [hd] at h
    dsimp only at h
    by_cases h30 : d > 30
    · rw [if_pos h30] at h
      exact absurd h (by simp)
    · rw [if_neg h30] at h
      have he := Option.some.inj h
      rw [← he]

/-- C10: a waiver-expiry string the date oracle cannot parse (the
`ValueError` branch of `datetime.fromisoformat`) produces no finding at all:
`_waiver_expiry_warning` returns `None` and `_check_waivers` emits no result
naming the task (the embedding is total, so no exception escapes either). -/
theorem C10_unparseable_waiver_skipped
    (uc : LintPlanUseCase) (daysUntil : String → Option Int)
    (tasks : List Task) (tid s : String) (o : TaskOverride)
    (hov : uc.overrideFor tid = some o)
    (hexp : o.waiver_expiry = some s)
    (hparse : daysUntil s = none) :
    waiverExpiryWarning daysUntil tid s = none
    ∧ ∀ r ∈ uc.checkWaivers daysUntil tasks, tid ∉ r.tasks := by
  constructor
  · simp [waiverExpiryWarning, hparse]
  · intro r hr
    rw [LintPlanUseCase.checkWaivers, List.mem_filterMap] at hr
    obtain ⟨task, _, hsome⟩ := hr
    rcases h1 : uc.overrideFor task.task_id with _ | o'
    · rw [h1] at hsome
      simp at hsome
    · rw [h1] at hsome
      dsimp only at hsome
      rcases h2 : o'.waiver_expiry with _ | we
      · rw [h2] at hsome
        simp at hsome
      · rw [h2] at hsome
        dsimp only at hsome
        by_cases hwe : we = ""
        · rw [if_pos hwe] at hsome
          simp at hsome
        · rw [if_neg hwe] at hsome
          have htasks := waiverExpiryWarning_tasks hsome
          rw [htasks, List.mem_singleton]
          intro hmem
          rw [← hmem] at h1
          rw [hov] at h1
          have ho := Option.some.inj h1
          rw [← ho, hexp] at h2
          have hswe := Option.some.inj h2
          rw [← hswe] at hsome
          rw [← hmem, waiverExpiryWarning, hparse] at hsome
          simp at hsome

/-- Witness for C10 at a concrete run. -/
theorem C10_witness :
    waiverExpiryWarning (fun _ => none) "T1" "not-a-date" = none
    ∧ ∀ r ∈ c10UC.checkWaivers (fun _ => none) c10UC.tasks, "T1" ∉ r.tasks :=
  C10_unparseable_waiver_skipped c10UC (fun _ => none) c10UC.tasks "T1" "not-a-date"
    { task_id := "T1", waiver_expiry := some "not-a-date" } (by decide) rfl rfl

/-- C1 (failing evaluation): a run whose only finding is an already-expired
waiver produces an ERROR-severity `WAIVER_EXPIRING` result, but `_check_waivers`
feeds the warnings list, so `errors` stays empty and the exit code is 0 —
against the claim that any ERROR-severity result fails the run. -/
theorem C1_expired_waiver_exits_zero :
    (c1UC.execute c1Days).errors = []
    ∧ (c1UC.execute c1Days).exit_code = 0
    ∧ ∃ r ∈ (c1UC.execute c1Days).warnings,
        r.severity = RuleSeverity.ERROR ∧ r.rule_id = RULE_WAIVER_EXPIRING := by
  exact ⟨by decide, by decide, by decide⟩

/-- C2 (failing evaluation): `c2Graph` contains the two cycles
`V -> A -> W -> V` and `V -> B -> W -> V` (different node sets), yet
`detect_cycles` returns only the first: once `W` is BLACK the trace through
`B` is never closed. -/
theorem C2_detect_cycles_misses_second_cycle :
    c2Graph.detect_cycles = [["V", "A", "W", "V"]]
    ∧ "B" ∈ c2Graph.get_dependencies "V"
    ∧ "W" ∈ c2Graph.get_dependencies "B"
    ∧ "V" ∈ c2Graph.get_dependencies "W"
    ∧ ∀ c ∈ c2Graph.detect_cycles, "B" ∉ c := by
  exact ⟨by decide, by decide, by decide, by decide, by decide⟩

/-! ### Association-list lemmas -/

lemma alLookup_cons {α : Type} (p : String × α) (ps : List (String × α)) (x : String) :
    alLookup (p :: ps) x = if p.1 = x then some p.2 else alLookup ps x := by
  by_cases h : p.1 = x
  · simp [alLookup, List.find?_cons, h]
  · simp [alLookup, List.find?_cons, h]

lemma alModify_cons {α : Type} (p : String × α) (ps : List (String × α))
    (k : String) (f : α → α) :
    alModify (p :: ps) k f
      = (if p.1 = k then (p.1, f p.2) else p) :: alModify ps k f := rfl

lemma alModify_keys {α : Type} (al : List (String × α)) (k : String) (f : α → α) :
    (alModify al k f).map Prod.fst = al.map Prod.fst := by
  induction al with
  | nil => rfl
  | cons p ps ih =>
    rw [alModify_cons]
    by_cases h : p.1 = k <;> simp [h, ih]

lemma alModify_of_not_mem {α : Type} {al : List (String × α)} {k : String}
    (f : α → α) (h : k ∉ al.map Prod.fst) : alModify al k f = al := by
  induction al with
  | nil => rfl
  | cons p ps ih =>
    simp only [List.map_cons, List.mem_cons, not_or] at h
    rw [alModify_cons, if_neg (fun hh => h.1 hh.symm), ih h.2]

lemma alLookup_modify {α : Type} (al : List (String × α)) (k x : String) (f : α → α) :
    alLookup (alModify al k f) x =
      if x = k then (alLookup al k).map f else alLookup al x := by
  induction al with
  | nil => by_cases h : x = k <;> simp [alModify, alLookup, h]
  | cons p ps ih =>
    rw [alModify_cons]
    by_cases hpk : p.1 = k <;> by_cases hxk : x = k
    · have hpx : p.1 = x := hpk.trans hxk.symm
      simp [alLookup_cons, hpk, hxk, hpx]
    · have hpx : ¬ p.1 = x := fun h => hxk (h.symm.trans hpk)
      have hkx : ¬ k = x := fun h => hxk h.symm
      simp [alLookup_cons, hpk, hxk, hpx, hkx, ih]
    · subst hxk
      have hpx : ¬ p.1 = x := hpk
      simp [alLookup_cons, hpk, hpx, ih]
    · by_cases hpx : p.1 = x <;> simp [alLookup_cons, hpk, hxk, hpx, ih]

lemma alHasKey_iff {α : Type} (al : List (String × α)) (k : String) :
    alHasKey al k = true ↔ k ∈ al.map Prod.fst := by
  simp only [alHasKey, List.any_eq_true, decide_eq_true_eq, List.mem_map]

lemma hasNode_iff_mem_ids (g : DependencyGraph) (d : String) :
    g.hasNode d = true ↔ d ∈ g.ids := by
  simp only [DependencyGraph.hasNode, DependencyGraph.ids, List.any_eq_true,
    decide_eq_true_eq, List.mem_map]

lemma alLookup_const_init {α : Type} (ids : List String) (c : α) (x : String) :
    alLookup (ids.map (fun i => (i, c))) x = if x ∈ ids then some c else none := by
  induction ids with
  | nil => simp [alLookup]
  | cons i is ih =>
    rw [List.map_cons, alLookup_cons]
    by_cases h : i = x
    · simp [h]
    · rw [if_neg h, ih]
      by_cases h2 : x ∈ is
      · simp [h2, List.mem_cons]
      · simp [h2, List.mem_cons, Ne.symm h]

/-! ### Fan-out lemmas (C7) -/

lemma alModify_snd_sum (fan : List (String × Nat)) (k : String)
    (hnodup : (fan.map Prod.fst).Nodup) (hk : k ∈ fan.map Prod.fst) :
    ((alModify fan k (· + 1)).map Prod.snd).sum = (fan.map Prod.snd).sum + 1 := by
  induction fan with
  | nil => simp at hk
  | cons p ps ih =>
    rw [List.map_cons, List.nodup_cons] at hnodup
    rw [alModify_cons]
    by_cases h : p.1 = k
    · have hnot : k ∉ ps.map Prod.fst := h ▸ hnodup.1
      rw [if_pos h, alModify_of_not_mem _ hnot]
      simp only [List.map_cons, List.sum_cons]
      omega
    · have hk' : k ∈ ps.map Prod.fst := by
        rw [List.map_cons] at hk
        rcases List.mem_cons.mp hk with h1 | h1
        · exact absurd h1.symm h
        · exact h1
      rw [if_neg h]
      simp only [List.map_cons, List.sum_cons, ih hnodup.2 hk']
      omega

lemma option_map_add_zero (o : Option Nat) : o.map (· + 0) = o := by
  cases o <;> simp

lemma map_fst_pair_init {α : Type} (c : α) (l : List String) :
    (l.map (fun i => (i, c))).map Prod.fst = l := by
  induction l with
  | nil => rfl
  | cons i is ih => simp [ih]

lemma map_snd_pair_init_sum (l : List String) :
    ((l.map (fun i => (i, (0 : Nat)))).map Prod.snd).sum = 0 := by
  induction l with
  | nil => rfl
  | cons i is ih => simpa using ih

lemma option_map_map_add (o : Option Nat) (a b c : Nat) (h : a + b = c) :
    (o.map (· + a)).map (· + b) = o.map (· + c) := by
  cases o with
  | none => rfl
  | some v =>
    simp only [Option.map_some']
    congr 1
    omega

lemma fanout_inner (g : DependencyGraph) (deps : List String) :
    ∀ (fan : List (String × Nat)), fan.map Prod.fst = g.ids →
      (fan.map Prod.fst).Nodup →
    (deps.foldl
        (fun fanout dep =>
          if alHasKey fanout dep then alModify fanout dep (· + 1) else fanout)
        fan).map Prod.fst = g.ids
    ∧ (∀ x, alLookup (deps.foldl
        (fun fanout dep =>
          if alHasKey fanout dep then alModify fanout dep (· + 1) else fanout) fan) x
        = (alLookup fan x).map (· + (deps.filter (fun d => g.hasNode d)).count x))
    ∧ ((deps.foldl
        (fun fanout dep =>
          if alHasKey fanout dep then alModify fanout dep (· + 1) else fanout)
        fan).map Prod.snd).sum
        = (fan.map Prod.snd).sum + (deps.filter (fun d => g.hasNode d)).length := by
  induction deps with
  | nil =>
    intro fan hkeys _
    exact ⟨hkeys, fun x => (option_map_add_zero (alLookup fan x)).symm,
      (Nat.add_zero _).symm⟩
  | cons d ds ih =>
    intro fan hkeys hnodup
    have hcond : alHasKey fan d = g.hasNode d := by
      rw [Bool.eq_iff_iff, alHasKey_iff, hkeys, hasNode_iff_mem_ids]
    rw [List.foldl_cons, hcond]
    cases hh : g.hasNode d
    · rw [if_neg (by simp)]
      have h3 := ih fan hkeys hnodup
      refine ⟨h3.1, fun x => ?_, ?_⟩
      · rw [h3.2.1 x]
        simp [List.filter_cons, hh]
      · rw [h3.2.2]
        simp [List.filter_cons, hh]
    · rw [if_pos rfl]
      have hkeys1 : (alModify fan d (· + 1)).map Prod.fst = g.ids := by
        rw [alModify_keys]
        exact hkeys
      have hnodup1 : ((alModify fan d (· + 1)).map Prod.fst).Nodup := by
        rw [alModify_keys, hkeys]
        rw [hkeys] at hnodup
        exact hnodup
      have h3 := ih (alModify fan d (· + 1)) hkeys1 hnodup1
      have hfc : List.filter (fun d2 => g.hasNode d2) (d :: ds)
          = d :: List.filter (fun d2 => g.hasNode d2) ds := by
        simp [List.filter_cons, hh]
      refine ⟨h3.1, fun x => ?_, ?_⟩
      · rw [h3.2.1 x, alLookup_modify]
        by_cases hx : x = d
        · rw [hx, if_pos rfl, hfc]
          have hcc : List.count d (d :: List.filter (fun d2 => g.hasNode d2) ds)
              = List.count d (List.filter (fun d2 => g.hasNode d2) ds) + 1 := by
            simp [List.count_cons]
          rw [hcc]
          exact option_map_map_add _ 1 _ _ (by omega)
        · rw [if_neg hx, hfc]
          have hdx : (d == x) = false := beq_eq_false_iff_ne.mpr (fun h => hx h.symm)
          have hcc : List.count x (d :: List.filter (fun d2 => g.hasNode d2) ds)
              = List.count x (List.filter (fun d2 => g.hasNode d2) ds) := by
            simp [List.count_cons, hdx]
          rw [hcc]
      · rw [h3.2.2]
        have hkmem : d ∈ fan.map Prod.fst := by
          rw [hkeys]
          exact (hasNode_iff_mem_ids g d).mp hh
        rw [alModify_snd_sum fan d hnodup hkmem, hfc]
        simp only [List.length_cons]
        omega

lemma fanout_outer (g : DependencyGraph) (ns : List GNode) :
    ∀ (fan : List (String × Nat)), fan.map Prod.fst = g.ids →
      (fan.map Prod.fst).Nodup →
    (ns.foldl (fun fanout node => node.deps.foldl
        (fun fanout dep =>
          if alHasKey fanout dep then alModify fanout dep (· + 1) else fanout)
        fanout) fan).map Prod.fst = g.ids
    ∧ (∀ x, alLookup (ns.foldl (fun fanout node => node.deps.foldl
        (fun fanout dep =>
          if alHasKey fanout dep then alModify fanout dep (· + 1) else fanout)
        fanout) fan) x
        = (alLookup fan x).map
          (· + (ns.map (fun t => (t.deps.filter (fun d => g.hasNode d)).count x)).sum))
    ∧ ((ns.foldl (fun fanout node => node.deps.foldl
        (fun fanout dep =>
          if alHasKey fanout dep then alModify fanout dep (· + 1) else fanout)
        fanout) fan).map Prod.snd).sum
        = (fan.map Prod.snd).sum
          + (ns.map (fun t => (t.deps.filter (fun d => g.hasNode d)).length)).sum := by
  induction ns with
  | nil =>
    intro fan hkeys _
    exact ⟨hkeys, fun x => (option_map_add_zero (alLookup fan x)).symm,
      (Nat.add_zero _).symm⟩
  | cons n rest ih =>
    intro fan hkeys hnodup
    rw [List.foldl_cons]
    have hinner := fanout_inner g n.deps fan hkeys hnodup
    have hnodup1 : ((n.deps.foldl
        (fun fanout dep =>
          if alHasKey fanout dep then alModify fanout dep (· + 1) else fanout)
        fan).map Prod.fst).Nodup := by
      rw [hinner.1]
      rw [hkeys] at hnodup
      exact hnodup
    have hrest := ih _ hinner.1 hnodup1
    refine ⟨hrest.1, fun x => ?_, ?_⟩
    · rw [hrest.2.1 x, hinner.2.1 x]
      simp only [List.map_cons, List.sum_cons]
      exact option_map_map_add _ _ _ _ rfl
    · rw [hrest.2.2, hinner.2.2]
      simp only [List.map_cons, List.sum_cons]
      omega

/-- C7 (amended): `compute_fanout` is a pure function whose result keys are
exactly the known task ids, whose value at a node is the number of
dependency-list entries naming it across all tasks (counted with
multiplicity), and whose values sum to the total number of dependency
entries whose target is a known node. -/
theorem C7_fanout_entry_counts (g : DependencyGraph) (hg : g.WF) :
    (g.compute_fanout.map Prod.fst = g.ids)
    ∧ (∀ node ∈ g.nodes, alLookup g.compute_fanout node.id
        = some ((g.nodes.map (fun t => t.deps.count node.id)).sum))
    ∧ (g.compute_fanout.map Prod.snd).sum
        = (g.nodes.map (fun t => (t.deps.filter (fun d => g.hasNode d)).length)).sum := by
  have hinit_keys : ((g.ids.map (fun task_id => (task_id, (0 : Nat)))).map Prod.fst) = g.ids :=
    map_fst_pair_init 0 g.ids
  have hinit_nodup : (((g.ids.map (fun task_id => (task_id, (0 : Nat)))).map Prod.fst)).Nodup := by
    rw [hinit_keys]
    exact hg
  have h := fanout_outer g g.nodes _ hinit_keys hinit_nodup
  refine ⟨h.1, fun node hn => ?_, ?_⟩
  · have hlook : alLookup g.compute_fanout node.id
        = (alLookup (g.ids.map (fun task_id => (task_id, (0 : Nat)))) node.id).map
          (· + (g.nodes.map
            (fun t => (t.deps.filter (fun d => g.hasNode d)).count node.id)).sum) :=
      h.2.1 node.id
    rw [hlook, alLookup_const_init]
    have hmem : node.id ∈ g.ids := List.mem_map_of_mem _ hn
    rw [if_pos hmem]
    have hcount : ∀ t ∈ g.nodes,
        (t.deps.filter (fun d => g.hasNode d)).count node.id = t.deps.count node.id := by
      intro t _
      exact List.count_filter ((hasNode_iff_mem_ids g node.id).mpr hmem)
    rw [List.map_congr_left hcount]
    simp
  · have hsum : (g.compute_fanout.map Prod.snd).sum
        = ((g.ids.map (fun task_id => (task_id, (0 : Nat)))).map Prod.snd).sum
          + (g.nodes.map (fun t => (t.deps.filter (fun d => g.hasNode d)).length)).sum :=
      h.2.2
    have h0 : ((g.ids.map (fun task_id => (task_id, (0 : Nat)))).map Prod.snd).sum = 0 :=
      map_snd_pair_init_sum g.ids
    rw [hsum, h0]
    omega

/-- C7 (counterexample): in `c7Graph` the task `A` lists the dependency `B`
twice; `compute_fanout` maps `B` to 2 although exactly one task (one direct
dependent) depends on `B`, so the fanout value is not the count of direct
dependents. -/
theorem C7_counterexample :
    alLookup c7Graph.compute_fanout "B" = some 2
    ∧ (c7Graph.nodes.filter (fun n => n.deps.contains "B")).length = 1
    ∧ alLookup c7Graph.compute_fanout "B"
        ≠ some ((c7Graph.nodes.filter (fun n => n.deps.contains "B")).length) := by
  exact ⟨by decide, by decide, by decide⟩

/-- Witness for C7 on a concrete well-formed graph. -/
theorem C7_witness :
    (c7Graph.compute_fanout.map Prod.fst = c7Graph.ids)
    ∧ (∀ node ∈ c7Graph.nodes, alLookup c7Graph.compute_fanout node.id
        = some ((c7Graph.nodes.map (fun t => t.deps.count node.id)).sum))
    ∧ (c7Graph.compute_fanout.map Prod.snd).sum
        = (c7Graph.nodes.map
            (fun t => (t.deps.filter (fun d => c7Graph.hasNode d)).length)).sum :=
  C7_fanout_entry_counts c7Graph (by decide)

/-! ### Cross-sprint lemmas (C4) -/

lemma find_id_of_mem : ∀ (l : List GNode), (l.map GNode.id).Nodup →
    ∀ {node : GNode}, node ∈ l → l.find? (fun m => m.id = node.id) = some node := by
  intro l
  induction l with
  | nil =>
    intro _ node h
    simp at h
  | cons p ps ih =>
    intro hnodup node hn
    rw [List.map_cons, List.nodup_cons] at hnodup
    rcases List.mem_cons.mp hn with rfl | h
    · simp [List.find?_cons]
    · have hne : ¬ (p.id = node.id) := by
        intro hq
        exact hnodup.1 (hq ▸ List.mem_map_of_mem GNode.id h)
      rw [List.find?_cons_of_neg _ (by simpa using hne)]
      exact ih hnodup.2 h

lemma findNode?_of_mem (g : DependencyGraph) (hg : g.WF) {node : GNode}
    (hn : node ∈ g.nodes) : g.findNode? node.id = some node :=
  find_id_of_mem g.nodes hg hn

lemma mem_violationsForNode_none {g : DependencyGraph} {node : GNode}
    {v : CrossSprintViolation} :
    v ∈ g.violationsForNode none node ↔
      ∃ ts ds dep, node.sprint = some ts ∧ dep ∈ node.deps ∧
        g.get_sprint dep = some ds ∧ ts < ds ∧
        v = ⟨node.id, ts, dep, ds, g.allowedOf node.id, ""⟩ := by
  unfold DependencyGraph.violationsForNode
  rcases hs : node.sprint with _ | ts
  · simp
  · dsimp only
    rw [if_pos rfl, List.mem_filterMap]
    constructor
    · rintro ⟨dep, hdep, hsome⟩
      rcases hg2 : g.get_sprint dep with _ | ds
      · rw [hg2] at hsome
        simp at hsome
      · rw [hg2] at hsome
        dsimp only at hsome
        by_cases hlt : ts < ds
        · rw [if_pos hlt] at hsome
          exact ⟨ts, ds, dep, rfl, hdep, hg2, hlt, (Option.some.inj hsome).symm⟩
        · rw [if_neg hlt] at hsome
          simp at hsome
    · rintro ⟨ts', ds, dep, hts, hdep, hds, hlt, hv⟩
      have hts2 : ts = ts' := Option.some.inj hts
      subst hts2
      refine ⟨dep, hdep, ?_⟩
      rw [hds]
      dsimp only
      rw [if_pos hlt, hv]

/-- C4: with no scope, `detect_cross_sprint_violations` reports a violation
for an edge `task -> dep` exactly when both sprints are defined and the
dependency's sprint is strictly later; the `is_allowed` field mirrors the
source task's `cross_sprint_allowed` flag, and allowed violations are still
returned (the characterisation has no is_allowed condition). -/
theorem C4_cross_sprint_violation_spec (g : DependencyGraph) (hg : g.WF)
    (node : GNode) (hn : node ∈ g.nodes) (d : String) (hd : d ∈ node.deps) :
    ((∃ v ∈ g.detect_cross_sprint_violations none,
        v.task_id = node.id ∧ v.dependency_id = d)
      ↔ ∃ n m : Int, node.sprint = some n ∧ g.get_sprint d = some m ∧ n < m)
    ∧ (∀ v ∈ g.detect_cross_sprint_violations none,
        v.task_id = node.id → v.is_allowed = node.cross_sprint_allowed) := by
  have hid_inj := List.inj_on_of_nodup_map (f := GNode.id) (l := g.nodes) hg
  have hallowed : g.allowedOf node.id = node.cross_sprint_allowed := by
    unfold DependencyGraph.allowedOf
    rw [findNode?_of_mem g hg hn]
  constructor
  · constructor
    · rintro ⟨v, hv, hvt, hvd⟩
      rw [DependencyGraph.detect_cross_sprint_violations, List.mem_flatMap] at hv
      obtain ⟨node', hn', hvmem⟩ := hv
      obtain ⟨ts, ds, dep, hts, hdep, hds, hlt, hveq⟩ :=
        mem_violationsForNode_none.mp hvmem
      have htask : v.task_id = node'.id := by rw [hveq]
      have hnn : node' = node := hid_inj hn' hn (htask.symm.trans hvt)
      subst hnn
      have hdd : v.dependency_id = dep := by rw [hveq]
      rw [hdd.symm.trans hvd] at hds
      exact ⟨ts, ds, hts, hds, hlt⟩
    · rintro ⟨n, m, hts, hds, hlt⟩
      refine ⟨⟨node.id, n, d, m, g.allowedOf node.id, ""⟩, ?_, rfl, rfl⟩
      rw [DependencyGraph.detect_cross_sprint_violations, List.mem_flatMap]
      exact ⟨node, hn, mem_violationsForNode_none.mpr ⟨n, m, d, hts, hd, hds, hlt, rfl⟩⟩
  · intro v hv hvt
    rw [DependencyGraph.detect_cross_sprint_violations, List.mem_flatMap] at hv
    obtain ⟨node', hn', hvmem⟩ := hv
    obtain ⟨ts, ds, dep, hts, hdep, hds, hlt, hveq⟩ :=
      mem_violationsForNode_none.mp hvmem
    have htask : v.task_id = node'.id := by rw [hveq]
    have hnn : node' = node := hid_inj hn' hn (htask.symm.trans hvt)
    subst hnn
    rw [hveq]
    exact hallowed

/-- Witness for C4 on the concrete edge `X -> Y` of `c4Graph`. -/
theorem C4_witness :
    ((∃ v ∈ c4Graph.detect_cross_sprint_violations none,
        v.task_id = "X" ∧ v.dependency_id = "Y")
      ↔ ∃ n m : Int, (some 1 : Option Int) = some n
          ∧ c4Graph.get_sprint "Y" = some m ∧ n < m)
    ∧ (∀ v ∈ c4Graph.detect_cross_sprint_violations none,
        v.task_id = "X" → v.is_allowed = false) :=
  C4_cross_sprint_violation_spec c4Graph (by decide)
    ⟨"X", ["Y"], some 1, false⟩ (by decide) "Y" (by decide)

/-! ### Artifact-pipeline lemmas (C9) -/

lemma split_fold (tid : String) : ∀ (paths : List String)
    (e : List ValidationResult) (v : List String),
    paths.foldl
      (fun acc artifact_path =>
        if (is_valid_artifact_path artifact_path).1 then (acc.1, acc.2 ++ [artifact_path])
        else (acc.1 ++ [create_invalid_artifact_path_error tid artifact_path
          (is_valid_artifact_path artifact_path).2], acc.2))
      (e, v)
    = (e ++ (paths.filter (fun p => !(is_valid_artifact_path p).1)).map
          (fun p => create_invalid_artifact_path_error tid p (is_valid_artifact_path p).2),
       v ++ paths.filter (fun p => (is_valid_artifact_path p).1)) := by
  intro paths
  induction paths with
  | nil =>
    intro e v
    simp
  | cons p ps ih =>
    intro e v
    rw [List.foldl_cons]
    by_cases h : (is_valid_artifact_path p).1 = true
    · rw [if_pos h, ih]
      simp [List.filter_cons, h]
    · rw [if_neg h, ih]
      simp only [Bool.not_eq_true] at h
      simp [List.filter_cons, h]

lemma splitValidArtifacts_eq (tid : String) (paths : List String) :
    splitValidArtifacts tid paths
      = ((paths.filter (fun p => !(is_valid_artifact_path p).1)).map
          (fun p => create_invalid_artifact_path_error tid p (is_valid_artifact_path p).2),
         paths.filter (fun p => (is_valid_artifact_path p).1)) := by
  unfold splitValidArtifacts
  simpa using split_fold tid paths [] []

lemma findMissing_fold_sub (fsE : String → Bool) : ∀ (paths : List String)
    (acc : List String × List (String × String)),
    ∀ a ∈ (paths.foldl
      (fun acc artifact_path =>
        if artifactExists fsE artifact_path then acc
        else
          match find_similar_paths fsE artifact_path 1 with
          | s :: _ => (acc.1 ++ [artifact_path], acc.2 ++ [(artifact_path, s)])
          | [] => (acc.1 ++ [artifact_path], acc.2)) acc).1,
      a ∈ acc.1 ∨ a ∈ paths := by
  intro paths
  induction paths with
  | nil =>
    intro acc a ha
    exact Or.inl ha
  | cons p ps ih =>
    intro acc a ha
    rw [List.foldl_cons] at ha
    rcases ih _ a ha with h | h
    · by_cases he : artifactExists fsE p = true
      · rw [if_pos he] at h
        exact Or.inl h
      · rw [if_neg he] at h
        rcases hs : find_similar_paths fsE p 1 with _ | ⟨s0, rest⟩ <;> rw [hs] at h <;>
          dsimp only at h <;>
          rcases List.mem_append.mp h with h2 | h2
        · exact Or.inl h2
        · exact Or.inr (List.mem_cons.mpr (Or.inl (List.mem_singleton.mp h2)))
        · exact Or.inl h2
        · exact Or.inr (List.mem_cons.mpr (Or.inl (List.mem_singleton.mp h2)))
    · exact Or.inr (List.mem_cons_of_mem p h)

lemma findMissingArtifacts_sub (fsE : String → Bool) (paths : List String) :
    ∀ a ∈ (findMissingArtifacts fsE paths).1, a ∈ paths := by
  intro a ha
  rcases findMissing_fold_sub fsE paths ([], []) a ha with h | h
  · simp at h
  · exact h

lemma create_invalid_rule_id (tid p r : String) :
    (create_invalid_artifact_path_error tid p r).rule_id
      = RULE_INVALID_ARTIFACT_PATH := rfl

lemma phantomMissingOf_create (tid : String) (missing : List String)
    (sug : Option (List (String × String))) :
    phantomMissingOf (create_phantom_completion_error tid missing sug) = missing := by
  rfl

/-- C9: for the phantom-completion pipeline of one task, every declared
artifact string the heuristics classify as prose is reported as an
`INVALID_ARTIFACT_PATH` error, and no prose-classified string can appear in
the `missing_artifacts` list of a `PHANTOM_COMPLETION` error of the same
task (the existence check runs only on the valid strings), so nothing is
double-reported. -/
theorem C9_prose_paths_not_double_reported (uc : LintPlanUseCase)
    (fsExists : String → Bool) (task : Task) :
    (∀ a ∈ normalizeArtifactPaths (uc.collectPhantomExpected task),
      (is_valid_artifact_path a).1 = false →
      create_invalid_artifact_path_error task.task_id a (is_valid_artifact_path a).2
        ∈ uc.phantomErrorsForTask fsExists task)
    ∧ (∀ r ∈ uc.phantomErrorsForTask fsExists task,
        r.rule_id = RULE_PHANTOM_COMPLETION →
        ∀ a, (is_valid_artifact_path a).1 = false → a ∉ phantomMissingOf r) := by
  simp only [LintPlanUseCase.phantomErrorsForTask, splitValidArtifacts_eq]
  constructor
  · intro a ha hinv
    refine List.mem_append_left _ (List.mem_map_of_mem _ (List.mem_filter.mpr ⟨ha, ?_⟩))
    simp [hinv]
  · intro r hr hrule a hinv hmem
    rcases List.mem_append.mp hr with h | h
    · obtain ⟨p0, _, hp0⟩ := List.mem_map.mp h
      rw [← hp0, create_invalid_rule_id] at hrule
      exact absurd hrule (by decide)
    · by_cases hemp : (findMissingArtifacts fsExists
          ((normalizeArtifactPaths (uc.collectPhantomExpected task)).filter
            (fun p => (is_valid_artifact_path p).1))).1.isEmpty = true
      · rw [if_pos hemp] at h
        simp at h
      · rw [if_neg hemp] at h
        rw [List.mem_singleton] at h
        subst h
        rw [phantomMissingOf_create] at hmem
        have hsub := findMissingArtifacts_sub fsExists _ a hmem
        rw [List.mem_filter, hinv] at hsub
        simp at hsub

/-- Witness for C9 on a concrete completed task with a prose artifact. -/
theorem C9_witness :
    create_invalid_artifact_path_error c9Task.task_id "the server is running fine now"
      (is_valid_artifact_path "the server is running fine now").2
      ∈ c9UC.phantomErrorsForTask (fun _ => false) c9Task :=
  (C9_prose_paths_not_double_reported c9UC (fun _ => false) c9Task).1
    "the server is running fine now" (by decide) (by decide)

/-! ### C6: Tier-A requirement errors -/

lemma effTask_task_id (uc : LintPlanUseCase) (t : Task) :
    (uc.effTask t).task_id = t.task_id := by
  unfold LintPlanUseCase.effTask
  cases uc.overrideFor t.task_id
  · rfl
  · rfl

lemma gates_error_rule_id (tid : String) :
    (create_tier_a_missing_gates_error tid).rule_id = RULE_TIER_A_GATES_REQUIRED := rfl

lemma owner_error_rule_id (tid : String) :
    (create_tier_a_missing_owner_error tid).rule_id = RULE_TIER_A_OWNER_REQUIRED := rfl

lemma evidence_error_rule_id (tid : String) :
    (create_tier_a_missing_evidence_error tid).rule_id = RULE_TIER_A_EVIDENCE_REQUIRED := rfl

lemma acceptance_error_rule_id (tid : String) :
    (create_tier_a_missing_acceptance_error tid).rule_id
      = RULE_TIER_A_ACCEPTANCE_REQUIRED := rfl

lemma gates_error_tasks (tid : String) :
    (create_tier_a_missing_gates_error tid).tasks = [tid] := rfl

lemma owner_error_tasks (tid : String) :
    (create_tier_a_missing_owner_error tid).tasks = [tid] := rfl

lemma evidence_error_tasks (tid : String) :
    (create_tier_a_missing_evidence_error tid).tasks = [tid] := rfl

lemma acceptance_error_tasks (tid : String) :
    (create_tier_a_missing_acceptance_error tid).tasks = [tid] := rfl

lemma isEmpty_false_of_ne_nil {α : Type} {l : List α} (h : l ≠ []) : l.isEmpty = false := by
  cases l
  · exact absurd rfl h
  · rfl

/-- Every Tier-A requirement error names exactly the offending task and
carries one of the four Tier-A rule ids. -/
lemma tierAReq_mem (ov : Option TaskOverride) (task : Task) :
    ∀ r ∈ tierARequirementErrors ov task,
      r.tasks = [task.task_id] ∧ tierARuleIds.contains r.rule_id = true := by
  intro r hr
  simp only [tierARequirementErrors, List.mem_append] at hr
  rcases hr with ((h | h) | h) | h
  · split at h
    next =>
      rw [List.mem_singleton.mp h]
      exact ⟨rfl, by rw [gates_error_rule_id]; decide⟩
    next => simp at h
  · split at h
    next =>
      rw [List.mem_singleton.mp h]
      exact ⟨rfl, by rw [owner_error_rule_id]; decide⟩
    next => simp at h
  · split at h
    next =>
      rw [List.mem_singleton.mp h]
      exact ⟨rfl, by rw [evidence_error_rule_id]; decide⟩
    next => simp at h
  · split at h
    next =>
      rw [List.mem_singleton.mp h]
      exact ⟨rfl, by rw [acceptance_error_rule_id]; decide⟩
    next => simp at h

/-- A task missing all four values (with an override supplying none of them)
gets exactly the four Tier-A errors, in emission order. -/
lemma tierAReq_all_four (ov : Option TaskOverride) (task : Task)
    (hgate : task.gate_profile = GateProfile.NONE)
    (howner : optStrTruthy task.acceptance_owner = false)
    (hev : task.evidence_required = [])
    (hacc : task.acceptance_criteria = "")
    (hov : match ov with
      | none => True
      | some o => o.gate_profile = [] ∧ optStrTruthy o.acceptance_owner = false
          ∧ o.evidence_required = [] ∧ o.acceptance_criteria = []) :
    tierARequirementErrors ov task = tierAFour task.task_id := by
  rcases ov with _ | o
  · simp [tierARequirementErrors, tierAFour, hgate, howner, hev, hacc]
  · obtain ⟨h1, h2, h3, h4⟩ := hov
    simp [tierARequirementErrors, tierAFour, hgate, howner, hev, hacc, h1, h2, h3, h4]

lemma filter_tierA_nil {l : List ValidationResult} {tid : String}
    (h : ∀ r ∈ l, tierARuleIds.contains r.rule_id = false) :
    l.filter (fun r => tierARuleIds.contains r.rule_id && r.tasks.contains tid) = [] := by
  rw [List.filter_eq_nil_iff]
  intro r hr
  rw [h r hr]
  simp

lemma checkCycles_filter_nil (uc : LintPlanUseCase) (g : DependencyGraph) (tid : String) :
    (uc.checkCycles g).filter
      (fun r => tierARuleIds.contains r.rule_id && r.tasks.contains tid) = [] := by
  apply filter_tierA_nil
  intro r hr
  simp only [LintPlanUseCase.checkCycles] at hr
  obtain ⟨c, _, hc⟩ := List.mem_map.mp hr
  rw [← hc]
  exact (by decide : tierARuleIds.contains RULE_NO_CYCLES = false)

lemma checkCrossSprint_filter_nil (uc : LintPlanUseCase) (g : DependencyGraph)
    (tid : String) :
    (uc.checkCrossSprint g).filter
      (fun r => tierARuleIds.contains r.rule_id && r.tasks.contains tid) = [] := by
  apply filter_tierA_nil
  intro r hr
  simp only [LintPlanUseCase.checkCrossSprint] at hr
  obtain ⟨v, _, hv⟩ := List.mem_filterMap.mp hr
  split at hv
  next => simp at hv
  next =>
    rw [← Option.some.inj hv]
    exact (by decide : tierARuleIds.contains RULE_NO_CROSS_SPRINT_UNRESOLVED = false)

lemma checkUnresolved_filter_nil (uc : LintPlanUseCase) (g : DependencyGraph)
    (tid : String) :
    (uc.checkUnresolvedDeps g).filter
      (fun r => tierARuleIds.contains r.rule_id && r.tasks.contains tid) = [] := by
  apply filter_tierA_nil
  intro r hr
  simp only [LintPlanUseCase.checkUnresolvedDeps] at hr
  obtain ⟨p, _, hp⟩ := List.mem_map.mp hr
  rw [← hp]
  exact (by decide : tierARuleIds.contains RULE_DEPS_RESOLVE = false)

lemma checkUniqueIds_filter_nil (uc : LintPlanUseCase) (tid : String) :
    (uc.checkUniqueIds).filter
      (fun r => tierARuleIds.contains r.rule_id && r.tasks.contains tid) = [] := by
  apply filter_tierA_nil
  intro r hr
  simp only [LintPlanUseCase.checkUniqueIds] at hr
  obtain ⟨x, _, hx⟩ := List.mem_filterMap.mp hr
  split at hx
  next =>
    rw [← Option.some.inj hx]
    exact (by decide : tierARuleIds.contains RULE_TASK_ID_UNIQUE = false)
  next => simp at hx

lemma phantomErrors_rule_id (uc : LintPlanUseCase) (fsE : String → Bool) (task : Task) :
    ∀ r ∈ uc.phantomErrorsForTask fsE task, tierARuleIds.contains r.rule_id = false := by
  intro r hr
  simp only [LintPlanUseCase.phantomErrorsForTask, splitValidArtifacts_eq] at hr
  rcases List.mem_append.mp hr with h | h
  · obtain ⟨p0, _, hp0⟩ := List.mem_map.mp h
    rw [← hp0]
    exact (by decide : tierARuleIds.contains RULE_INVALID_ARTIFACT_PATH = false)
  · split at h
    next => simp at h
    next =>
      rw [List.mem_singleton.mp h]
      exact (by decide : tierARuleIds.contains RULE_PHANTOM_COMPLETION = false)

lemma checkPhantom_filter_nil (uc : LintPlanUseCase) (tasks : List Task) (tid : String) :
    (uc.checkPhantomCompletions tasks).filter
      (fun r => tierARuleIds.contains r.rule_id && r.tasks.contains tid) = [] := by
  apply filter_tierA_nil
  intro r hr
  unfold LintPlanUseCase.checkPhantomCompletions at hr
  split at hr
  next => simp at hr
  next fsE heq =>
    obtain ⟨task, _, hmem⟩ := List.mem_flatMap.mp hr
    split at hmem
    next => exact phantomErrors_rule_id uc fsE task r hmem
    next => simp at hmem

lemma checkTierA_filter_absent (uc : LintPlanUseCase) (tid : String) :
    ∀ l : List Task, (∀ x ∈ l, x.task_id ≠ tid) →
      (uc.checkTierA l).filter
        (fun r => tierARuleIds.contains r.rule_id && r.tasks.contains tid) = [] := by
  intro l hl
  rw [List.filter_eq_nil_iff]
  intro r hr
  simp only [LintPlanUseCase.checkTierA] at hr
  obtain ⟨task, htask, hmem⟩ := List.mem_flatMap.mp hr
  split at hmem
  next =>
    have htasks := (tierAReq_mem _ _ r hmem).1
    simp [htasks]
    intro _ h'
    exact (hl task htask) h'.symm
  next => simp at hmem

lemma tierA_payload_filter_nil (uc : LintPlanUseCase) (tid : String) (x : Task)
    (hx : x.task_id ≠ tid) :
    (if x.tier = Tier.A then tierARequirementErrors (uc.overrideFor x.task_id) x
      else []).filter
      (fun r => tierARuleIds.contains r.rule_id && r.tasks.contains tid) = [] := by
  by_cases ht : x.tier = Tier.A
  · rw [if_pos ht, List.filter_eq_nil_iff]
    intro r hr
    have htasks := (tierAReq_mem _ _ r hr).1
    simp [htasks]
    intro _ h'
    exact hx h'.symm
  · rw [if_neg ht]
    rfl

lemma four_filter (tid : String) :
    (tierAFour tid).filter
      (fun r => tierARuleIds.contains r.rule_id && r.tasks.contains tid)
      = tierAFour tid := by
  have h1 : tierARuleIds.contains RULE_TIER_A_GATES_REQUIRED = true := by decide
  have h2 : tierARuleIds.contains RULE_TIER_A_OWNER_REQUIRED = true := by decide
  have h3 : tierARuleIds.contains RULE_TIER_A_EVIDENCE_REQUIRED = true := by decide
  have h4 : tierARuleIds.contains RULE_TIER_A_ACCEPTANCE_REQUIRED = true := by decide
  rw [List.filter_eq_self]
  intro r hr
  simp only [tierAFour, List.mem_cons, List.not_mem_nil, or_false] at hr
  rcases hr with rfl | rfl | rfl | rfl
  · simp [gates_error_rule_id, gates_error_tasks, h1, List.contains_cons]
    decide
  · simp [owner_error_rule_id, owner_error_tasks, h2, List.contains_cons]
    decide
  · simp [evidence_error_rule_id, evidence_error_tasks, h3, List.contains_cons]
    decide
  · simp [acceptance_error_rule_id, acceptance_error_tasks, h4, List.contains_cons]
    decide

/-- In a list with a unique occurrence of an id, all tasks carrying that id
coincide. -/
lemma count_one_unique {l : List Task} {tid : String}
    (hc : (l.map Task.task_id).count tid = 1) :
    ∀ y ∈ l, ∀ z ∈ l, y.task_id = tid → z.task_id = tid → y = z := by
  induction l with
  | nil =>
    intro y hy
    simp at hy
  | cons x xs ih =>
    intro y hy z hz hyid hzid
    rw [List.map_cons, List.count_cons] at hc
    by_cases hx : x.task_id = tid
    · have h0 : (xs.map Task.task_id).count tid = 0 := by
        rw [hx] at hc
        simp at hc
        exact hc
      have hnone : ∀ w ∈ xs, w.task_id ≠ tid := by
        intro w hw hwid
        have hmem : tid ∈ xs.map Task.task_id := by
          rw [← hwid]
          exact List.mem_map_of_mem _ hw
        rw [← List.count_pos_iff] at hmem
        omega
      have hy' : y = x := by
        rcases List.mem_cons.mp hy with h | h
        · exact h
        · exact absurd hyid (hnone y h)
      have hz' : z = x := by
        rcases List.mem_cons.mp hz with h | h
        · exact h
        · exact absurd hzid (hnone z h)
      rw [hy', hz']
    · have h1 : (xs.map Task.task_id).count tid = 1 := by
        simp [hx] at hc
        exact hc
      have hy' : y ∈ xs := by
        rcases List.mem_cons.mp hy with h | h
        · rw [h] at hyid
          exact absurd hyid hx
        · exact h
      have hz' : z ∈ xs := by
        rcases List.mem_cons.mp hz with h | h
        · rw [h] at hzid
          exact absurd hzid hx
        · exact h
      exact ih h1 y hy' z hz' hyid hzid

/-- The Tier-A check on a list with a unique task carrying the id, that task
being Tier A and missing all four values, contributes exactly the four
errors. -/
lemma checkTierA_filter_unique (uc : LintPlanUseCase) (tid : String) (t' : Task)
    (htid : t'.task_id = tid) (htier : t'.tier = Tier.A)
    (hfour : tierARequirementErrors (uc.overrideFor tid) t' = tierAFour tid) :
    ∀ l : List Task, t' ∈ l →
      (l.map Task.task_id).count tid = 1 →
      (∀ x ∈ l, x.task_id = tid → x = t') →
      (uc.checkTierA l).filter
        (fun r => tierARuleIds.contains r.rule_id && r.tasks.contains tid)
        = tierAFour tid := by
  intro l
  induction l with
  | nil =>
    intro hmem
    simp at hmem
  | cons x xs ih =>
    intro hmem hcount hl
    have hflat : uc.checkTierA (x :: xs)
        = (if x.tier = Tier.A then tierARequirementErrors (uc.overrideFor x.task_id) x
            else [])
          ++ uc.checkTierA xs := by
      simp only [LintPlanUseCase.checkTierA, List.flatMap_cons]
    rw [hflat, List.filter_append]
    by_cases hx : x.task_id = tid
    · have hxe : x = t' := hl x (List.mem_cons_self x xs) hx
      have hc0 : (xs.map Task.task_id).count tid = 0 := by
        rw [List.map_cons, List.count_cons, hx] at hcount
        simp at hcount
        exact hcount
      have hnone : ∀ y ∈ xs, y.task_id ≠ tid := by
        intro y hy hyid
        have hmem' : tid ∈ xs.map Task.task_id := by
          rw [← hyid]
          exact List.mem_map_of_mem _ hy
        rw [← List.count_pos_iff] at hmem'
        omega
      rw [checkTierA_filter_absent uc tid xs hnone, hxe, if_pos htier, htid, hfour,
        four_filter]
      simp
    · rw [tierA_payload_filter_nil uc tid x hx]
      have hmem' : t' ∈ xs := by
        rcases List.mem_cons.mp hmem with h | h
        · subst h
          exact absurd htid hx
        · exact h
      have hcount' : (xs.map Task.task_id).count tid = 1 := by
        rw [List.map_cons, List.count_cons] at hcount
        simp [hx] at hcount
        exact hcount
      have hl' : ∀ y ∈ xs, y.task_id = tid → y = t' :=
        fun y hy => hl y (List.mem_cons_of_mem _ hy)
      rw [ih hmem' hcount' hl']
      rfl

/-- C6: in any lint run containing a (uniquely-named, in-scope) task whose
effective (overridden) version is Tier A with no gate profile, no acceptance
owner, no evidence items and empty acceptance criteria, and whose override
supplies none of those four values, the error list contains exactly the four
Tier-A error results (gates, owner, evidence, acceptance), each naming that
task; and each of the four checks emits no error whenever the corresponding
value is present on the task or supplied by its override. -/
theorem C6_tier_a_missing_four_errors (uc : LintPlanUseCase)
    (daysUntil : String → Option Int) (t : Task) (ht : t ∈ uc.tasks)
    (hcount : (uc.tasks.map Task.task_id).count t.task_id = 1)
    (hscope : match uc.sprint_scope with
      | none => True
      | some s => (uc.effTask t).sprint = some s)
    (htier : (uc.effTask t).tier = Tier.A)
    (hgate : (uc.effTask t).gate_profile = GateProfile.NONE)
    (howner : optStrTruthy (uc.effTask t).acceptance_owner = false)
    (hev : (uc.effTask t).evidence_required = [])
    (hacc : (uc.effTask t).acceptance_criteria = "")
    (hov : match uc.overrideFor t.task_id with
      | none => True
      | some o => o.gate_profile = [] ∧ optStrTruthy o.acceptance_owner = false
          ∧ o.evidence_required = [] ∧ o.acceptance_criteria = []) :
    ((uc.execute daysUntil).errors.filter
        (fun r => tierARuleIds.contains r.rule_id && r.tasks.contains t.task_id))
      = tierAFour t.task_id
    ∧ (∀ (task : Task) (ov : Option TaskOverride),
        ((task.gate_profile ≠ GateProfile.NONE
            ∨ ∃ o, ov = some o ∧ o.gate_profile ≠ []) →
          ∀ r ∈ tierARequirementErrors ov task,
            r.rule_id ≠ RULE_TIER_A_GATES_REQUIRED)
        ∧ ((optStrTruthy task.acceptance_owner = true
            ∨ ∃ o, ov = some o ∧ optStrTruthy o.acceptance_owner = true) →
          ∀ r ∈ tierARequirementErrors ov task,
            r.rule_id ≠ RULE_TIER_A_OWNER_REQUIRED)
        ∧ ((task.evidence_required ≠ []
            ∨ ∃ o, ov = some o ∧ o.evidence_required ≠ []) →
          ∀ r ∈ tierARequirementErrors ov task,
            r.rule_id ≠ RULE_TIER_A_EVIDENCE_REQUIRED)
        ∧ ((task.acceptance_criteria ≠ ""
            ∨ ∃ o, ov = some o ∧ o.acceptance_criteria ≠ []) →
          ∀ r ∈ tierARequirementErrors ov task,
            r.rule_id ≠ RULE_TIER_A_ACCEPTANCE_REQUIRED)) := by
  constructor
  · have hfour : tierARequirementErrors (uc.overrideFor t.task_id) (uc.effTask t)
        = tierAFour t.task_id := by
      have h := tierAReq_all_four (uc.overrideFor t.task_id) (uc.effTask t) hgate howner
        hev hacc hov
      rw [effTask_task_id] at h
      exact h
    have hmemA : uc.effTask t ∈ uc.applyOverrides := by
      have h1 : uc.applyOverrides = uc.tasks.map uc.effTask := rfl
      rw [h1]
      exact List.mem_map_of_mem _ ht
    have hmemS : uc.effTask t ∈ uc.scopedTasks uc.applyOverrides := by
      rcases hs : uc.sprint_scope with _ | s
      · have heq : uc.scopedTasks uc.applyOverrides = uc.applyOverrides := by
          unfold LintPlanUseCase.scopedTasks
          rw [hs]
        rw [heq]
        exact hmemA
      · have heq : uc.scopedTasks uc.applyOverrides
            = uc.applyOverrides.filter (fun (x : Task) => x.sprint == some s) := by
          unfold LintPlanUseCase.scopedTasks
          rw [hs]
        rw [hs] at hscope
        dsimp only at hscope
        rw [heq]
        refine List.mem_filter.mpr ⟨hmemA, ?_⟩
        rw [hscope]
        simp
    have hcntA : (uc.applyOverrides.map Task.task_id).count t.task_id = 1 := by
      have heq : uc.applyOverrides.map Task.task_id = uc.tasks.map Task.task_id := by
        have h1 : uc.applyOverrides = uc.tasks.map uc.effTask := rfl
        rw [h1, List.map_map]
        exact List.map_congr_left (fun x _ => effTask_task_id uc x)
      rw [heq]
      exact hcount
    have hsub : (uc.scopedTasks uc.applyOverrides).Sublist uc.applyOverrides := by
      rcases hs : uc.sprint_scope with _ | s
      · have heq : uc.scopedTasks uc.applyOverrides = uc.applyOverrides := by
          unfold LintPlanUseCase.scopedTasks
          rw [hs]
        rw [heq]
      · have heq : uc.scopedTasks uc.applyOverrides
            = uc.applyOverrides.filter (fun (x : Task) => x.sprint == some s) := by
          unfold LintPlanUseCase.scopedTasks
          rw [hs]
        rw [heq]
        exact List.filter_sublist _
    have hcntS : ((uc.scopedTasks uc.applyOverrides).map Task.task_id).count t.task_id
        = 1 := by
      have hle := List.Sublist.count_le (List.Sublist.map Task.task_id hsub) t.task_id
      rw [hcntA] at hle
      have hge : 0 < ((uc.scopedTasks uc.applyOverrides).map Task.task_id).count
          t.task_id := by
        rw [List.count_pos_iff, ← effTask_task_id uc t]
        exact List.mem_map_of_mem _ hmemS
      omega
    have huniq : ∀ x ∈ uc.scopedTasks uc.applyOverrides,
        x.task_id = t.task_id → x = uc.effTask t := by
      intro x hx hxid
      have hxA : x ∈ uc.applyOverrides := hsub.subset hx
      have h1 : uc.applyOverrides = uc.tasks.map uc.effTask := rfl
      rw [h1] at hxA
      obtain ⟨y, hy, hyx⟩ := List.mem_map.mp hxA
      have hyid : y.task_id = t.task_id := by
        rw [← effTask_task_id uc y, hyx, hxid]
      have hyt : y = t := count_one_unique hcount y hy t ht hyid rfl
      rw [← hyx, hyt]
    have herr : (uc.execute daysUntil).errors
        = uc.checkCycles (DependencyGraph.from_tasks uc.applyOverrides)
          ++ uc.checkCrossSprint (DependencyGraph.from_tasks uc.applyOverrides)
          ++ uc.checkUnresolvedDeps (DependencyGraph.from_tasks uc.applyOverrides)
          ++ uc.checkTierA (uc.scopedTasks uc.applyOverrides)
          ++ uc.checkUniqueIds
          ++ uc.checkPhantomCompletions (uc.scopedTasks uc.applyOverrides) := rfl
    rw [herr]
    simp only [List.filter_append]
    rw [checkCycles_filter_nil, checkCrossSprint_filter_nil, checkUnresolved_filter_nil,
      checkUniqueIds_filter_nil, checkPhantom_filter_nil,
      checkTierA_filter_unique uc t.task_id (uc.effTask t) (effTask_task_id uc t) htier
        hfour (uc.scopedTasks uc.applyOverrides) hmemS hcntS huniq]
    simp
  · intro task ov
    refine ⟨?_, ?_, ?_, ?_⟩
    · intro hpres r hr
      simp only [tierARequirementErrors, List.mem_append] at hr
      rcases hr with ((h | h) | h) | h
      · split at h
        next hc =>
          rcases hpres with hp | ⟨o, rfl, hp⟩ <;> simp [hp] at hc
        next => simp at h
      · split at h
        next =>
          rw [List.mem_singleton.mp h]
          exact (by decide :
            RULE_TIER_A_OWNER_REQUIRED ≠ RULE_TIER_A_GATES_REQUIRED)
        next => simp at h
      · split at h
        next =>
          rw [List.mem_singleton.mp h]
          exact (by decide :
            RULE_TIER_A_EVIDENCE_REQUIRED ≠ RULE_TIER_A_GATES_REQUIRED)
        next => simp at h
      · split at h
        next =>
          rw [List.mem_singleton.mp h]
          exact (by decide :
            RULE_TIER_A_ACCEPTANCE_REQUIRED ≠ RULE_TIER_A_GATES_REQUIRED)
        next => simp at h
    · intro hpres r hr
      simp only [tierARequirementErrors, List.mem_append] at hr
      rcases hr with ((h | h) | h) | h
      · split at h
        next =>
          rw [List.mem_singleton.mp h]
          exact (by decide :
            RULE_TIER_A_GATES_REQUIRED ≠ RULE_TIER_A_OWNER_REQUIRED)
        next => simp at h
      · split at h
        next hc =>
          rcases hpres with hp | ⟨o, rfl, hp⟩ <;> simp [hp] at hc
        next => simp at h
      · split at h
        next =>
          rw [List.mem_singleton.mp h]
          exact (by decide :
            RULE_TIER_A_EVIDENCE_REQUIRED ≠ RULE_TIER_A_OWNER_REQUIRED)
        next => simp at h
      · split at h
        next =>
          rw [List.mem_singleton.mp h]
          exact (by decide :
            RULE_TIER_A_ACCEPTANCE_REQUIRED ≠ RULE_TIER_A_OWNER_REQUIRED)
        next => simp at h
    · intro hpres r hr
      simp only [tierARequirementErrors, List.mem_append] at hr
      rcases hr with ((h | h) | h) | h
      · split at h
        next =>
          rw [List.mem_singleton.mp h]
          exact (by decide :
            RULE_TIER_A_GATES_REQUIRED ≠ RULE_TIER_A_EVIDENCE_REQUIRED)
        next => simp at h
      · split at h
        next =>
          rw [List.mem_singleton.mp h]
          exact (by decide :
            RULE_TIER_A_OWNER_REQUIRED ≠ RULE_TIER_A_EVIDENCE_REQUIRED)
        next => simp at h
      · split at h
        next hc =>
          rcases hpres with hp | ⟨o, rfl, hp⟩ <;>
            simp [isEmpty_false_of_ne_nil hp] at hc
        next => simp at h
      · split at h
        next =>
          rw [List.mem_singleton.mp h]
          exact (by decide :
            RULE_TIER_A_ACCEPTANCE_REQUIRED ≠ RULE_TIER_A_EVIDENCE_REQUIRED)
        next => simp at h
    · intro hpres r hr
      simp only [tierARequirementErrors, List.mem_append] at hr
      rcases hr with ((h | h) | h) | h
      · split at h
        next =>
          rw [List.mem_singleton.mp h]
          exact (by decide :
            RULE_TIER_A_GATES_REQUIRED ≠ RULE_TIER_A_ACCEPTANCE_REQUIRED)
        next => simp at h
      · split at h
        next =>
          rw [List.mem_singleton.mp h]
          exact (by decide :
            RULE_TIER_A_OWNER_REQUIRED ≠ RULE_TIER_A_ACCEPTANCE_REQUIRED)
        next => simp at h
      · split at h
        next =>
          rw [List.mem_singleton.mp h]
          exact (by decide :
            RULE_TIER_A_EVIDENCE_REQUIRED ≠ RULE_TIER_A_ACCEPTANCE_REQUIRED)
        next => simp at h
      · split at h
        next hc =>
          rcases hpres with hp | ⟨o, rfl, hp⟩
          · simp [hp] at hc
          · simp [isEmpty_false_of_ne_nil hp] at hc
        next => simp at h

/-- Witness for C6 on a one-task plan with a bare Tier-A task. -/
theorem C6_witness :
    ((c6UC.execute (fun _ => none)).errors.filter
        (fun r => tierARuleIds.contains r.rule_id && r.tasks.contains "T6"))
      = tierAFour "T6" :=
  (C6_tier_a_missing_four_errors c6UC (fun _ => none) c6Task (by decide) (by decide)
    True.intro (by decide) (by decide) (by decide) (by decide) rfl True.intro).1

/-! ### Cycle-detection and topological-sort lemmas (C3) -/

lemma alLookup_some_of_mem_keys {α : Type} : ∀ (al : List (String × α)) (k : String),
    k ∈ al.map Prod.fst → ∃ v, alLookup al k = some v := by
  intro al
  induction al with
  | nil =>
    intro k hk
    simp at hk
  | cons p ps ih =>
    intro k hk
    rw [alLookup_cons]
    by_cases h : p.1 = k
    · exact ⟨p.2, by rw [if_pos h]⟩
    · rw [if_neg h]
      apply ih
      rcases List.mem_cons.mp hk with h1 | h1
      · exact absurd h1.symm h
      · exact h1

lemma colorOf_modify (cl : List (String × Nat)) (cys cys2 : List (List String))
    (k x : String) (c : Nat) (hk : k ∈ cl.map Prod.fst) :
    colorOf ⟨alModify cl k (fun _ => c), cys2⟩ x
      = if x = k then c else colorOf ⟨cl, cys⟩ x := by
  unfold colorOf
  dsimp only
  rw [alLookup_modify]
  by_cases hx : x = k
  · rw [if_pos hx, if_pos hx]
    obtain ⟨v, hv⟩ := alLookup_some_of_mem_keys cl k hk
    rw [hv]
    rfl
  · rw [if_neg hx, if_neg hx]

lemma chain_snoc {g : DependencyGraph} {l : List String} {b c : String}
    (h : List.Chain' g.Edge (l ++ [b])) (he : g.Edge b c) :
    List.Chain' g.Edge ((l ++ [b]) ++ [c]) := by
  rw [List.chain'_append]
  refine ⟨h, List.chain'_singleton c, ?_⟩
  intro x hx y hy
  rw [List.getLast?_concat] at hx
  simp at hx hy
  rw [← hx, ← hy]
  exact he

lemma chain_transGen (g : DependencyGraph) :
    ∀ (l : List String) (a b : String),
      List.Chain' g.Edge (a :: (l ++ [b])) → Relation.TransGen g.Edge a b := by
  intro l
  induction l with
  | nil =>
    intro a b h
    rw [List.nil_append] at h
    exact Relation.TransGen.single (List.chain'_cons.mp h).1
  | cons x xs ih =>
    intro a b h
    rw [List.cons_append] at h
    have h1 := List.chain'_cons.mp h
    exact Relation.TransGen.head h1.1 (ih x b h1.2)

lemma countP_lt_of_strict {α : Type} {p q : α → Bool} :
    ∀ (l : List α), (∀ x ∈ l, p x = true → q x = true) →
      ∀ a ∈ l, q a = true → p a = false → l.countP p < l.countP q := by
  intro l
  induction l with
  | nil =>
    intro _ a ha
    simp at ha
  | cons x xs ih =>
    intro himp a ha hqa hpa
    rw [List.countP_cons, List.countP_cons]
    have hmono := List.countP_mono_left
      (fun y hy => himp y (List.mem_cons_of_mem _ hy)) (l := xs)
    rcases List.mem_cons.mp ha with h | h
    · subst h
      rw [hpa, hqa]
      rw [if_neg (by decide), if_pos rfl]
      omega
    · have hlt := ih (fun y hy => himp y (List.mem_cons_of_mem _ hy)) a h hqa hpa
      have hx : (if p x = true then 1 else 0) ≤ (if q x = true then 1 else 0) := by
        by_cases hpx : p x = true
        · rw [if_pos hpx, if_pos (himp x (List.mem_cons_self _ _) hpx)]
        · rw [if_neg hpx]
          omega
      omega

lemma whiteCount_le_of_mono (g : DependencyGraph) {st st' : DfsState}
    (h : ∀ x, colorOf st' x = WHITE → colorOf st x = WHITE) :
    g.whiteCount st' ≤ g.whiteCount st := by
  unfold DependencyGraph.whiteCount
  rw [← List.countP_eq_length_filter, ← List.countP_eq_length_filter]
  exact List.countP_mono_left (fun x _ hx =>
    decide_eq_true (h x (of_decide_eq_true hx)))

lemma whiteCount_lt (g : DependencyGraph) {st st' : DfsState}
    (hmono : ∀ x, colorOf st' x = WHITE → colorOf st x = WHITE)
    {a : String} (ha : a ∈ g.ids) (hw : colorOf st a = WHITE)
    (hw' : ¬ colorOf st' a = WHITE) :
    g.whiteCount st' < g.whiteCount st := by
  unfold DependencyGraph.whiteCount
  rw [← List.countP_eq_length_filter, ← List.countP_eq_length_filter]
  exact countP_lt_of_strict g.ids
    (fun x _ hx => decide_eq_true (hmono x (of_decide_eq_true hx)))
    a ha (decide_eq_true hw) (decide_eq_false hw')

lemma whiteCount_le_ids (g : DependencyGraph) (st : DfsState) :
    g.whiteCount st ≤ g.ids.length :=
  List.length_filter_le _ _

lemma foldl_fst_ext {α : Type}
    {f : List (List String) × List (List String) → α
      → List (List String) × List (List String)}
    (hf : ∀ b a, ∃ e, (f b a).1 = b.1 ++ e) :
    ∀ (l : List α) (b), ∃ ext, (l.foldl f b).1 = b.1 ++ ext := by
  intro l
  induction l with
  | nil =>
    intro b
    exact ⟨[], by simp⟩
  | cons a l ih =>
    intro b
    rw [List.foldl_cons]
    obtain ⟨e1, he1⟩ := hf b a
    obtain ⟨e2, he2⟩ := ih (f b a)
    exact ⟨e1 ++ e2, by rw [he2, he1, List.append_assoc]⟩

lemma dedupCycles_eq_nil_iff (cs : List (List String)) :
    dedupCycles cs = [] ↔ cs = [] := by
  cases cs with
  | nil => simp [dedupCycles]
  | cons c rest =>
    unfold dedupCycles
    rw [List.foldl_cons]
    have hstep : ∀ (b : List (List String) × List (List String)) (a : List String),
        ∃ e, ((fun (acc : List (List String) × List (List String)) cycle =>
          let cset := cycle.dropLast
          if acc.2.any (fun seen =>
              seen.all (cset.contains ·) && cset.all (seen.contains ·)) then
            acc
          else (acc.1 ++ [cycle], acc.2 ++ [cset])) b a).1 = b.1 ++ e := by
      intro b a
      dsimp only
      by_cases hc : (b.2.any fun seen =>
          (seen.all fun x => a.dropLast.contains x)
            && a.dropLast.all fun x => seen.contains x) = true
      · refine ⟨[], ?_⟩
        rw [if_pos hc]
        simp
      · refine ⟨[a], ?_⟩
        rw [if_neg hc]
    obtain ⟨ext, hext⟩ := foldl_fst_ext hstep rest ([c], [c.dropLast])
    constructor
    · intro h
      exfalso
      have h' : (List.foldl (fun (acc : List (List String) × List (List String)) cycle =>
          let cset := cycle.dropLast
          if acc.2.any (fun seen =>
              seen.all (cset.contains ·) && cset.all (seen.contains ·)) then
            acc
          else (acc.1 ++ [cycle], acc.2 ++ [cset])) ([c], [c.dropLast]) rest).1 = [] := h
      rw [hext] at h'
      simp at h'
    · intro h
      simp at h

/-- The central DFS lemma: one `dfs` call preserves the invariant, restores
the grey set, blackens its node (unless entered on a grey node, in which case
exactly one genuine cycle is recorded), and keeps the black nodes
topologically ordered while no cycle has been recorded. -/
lemma dfs_spec (g : DependencyGraph) :
    ∀ fuel node path st, g.hasNode node = true →
      List.Chain' g.Edge (path ++ [node]) →
      DfsInv g path st →
      g.whiteCount st + 1 ≤ fuel →
      DfsPost g node path st (dfsVisit g fuel node path st) := by
  intro fuel
  induction fuel with
  | zero =>
    intro node path st _ _ _ hfuel
    omega
  | succ fuel ih =>
    intro node path st hnode hchain hinv hfuel
    by_cases hc1 : colorOf st node = GRAY
    · simp only [dfsVisit]
      rw [if_pos hc1]
      refine ⟨rfl, hinv.gray, fun x h => h, fun x h => h, fun hne => absurd hc1 hne,
        ⟨[path.drop (path.indexOf node) ++ [node]], rfl⟩, ?_, fun _ => by simp, ?_,
        hinv.vals⟩
      · intro cc hcc
        rcases List.mem_append.mp hcc with h | h
        · exact Or.inl h
        · right
          have hmem : node ∈ path := (hinv.gray node).mp hc1
          have hidx : path.indexOf node < path.length := List.indexOf_lt_length.mpr hmem
          have hdrop : path.drop (path.indexOf node)
              = node :: path.drop (path.indexOf node + 1) := by
            rw [List.drop_eq_getElem_cons hidx, List.getElem_indexOf hidx]
          have hch : List.Chain' g.Edge ((path ++ [node]).drop (path.indexOf node)) :=
            hchain.drop _
          have hd2 : (path ++ [node]).drop (path.indexOf node)
              = path.drop (path.indexOf node) ++ [node] :=
            List.drop_append_of_le_length (le_of_lt hidx)
          rw [hd2, hdrop, List.cons_append] at hch
          exact ⟨node, chain_transGen g _ node node hch⟩
      · intro h
        simp at h
    · by_cases hc2 : colorOf st node = BLACK
      · simp only [dfsVisit]
        rw [if_neg hc1, if_pos hc2]
        exact ⟨rfl, hinv.gray, fun x h => h, fun x h => h, fun _ => hc2, ⟨[], by simp⟩,
          fun c h => Or.inl h, fun h => absurd h hc1, hinv.topo, hinv.vals⟩
      · -- the node is white: colour it grey, visit the children, blacken it
        have hwhite : colorOf st node = WHITE := by
          rcases hinv.vals node with h | h | h
          · exact h
          · exact absurd h hc1
          · exact absurd h hc2
        simp only [dfsVisit]
        rw [if_neg hc1, if_neg hc2]
        have hnodeIds : node ∈ g.ids := (hasNode_iff_mem_ids g node).mp hnode
        have hnodePath : node ∉ path := fun h => hc1 ((hinv.gray node).mpr h)
        set st1 : DfsState := { st with color := alModify st.color node (fun _ => GRAY) }
          with hst1def
        have hnodeKeys : node ∈ st.color.map Prod.fst := by
          have : st.color.map Prod.fst = g.ids := hinv.keys
          rw [this]
          exact hnodeIds
        have hcol1 : ∀ x, colorOf st1 x = if x = node then GRAY else colorOf st x := by
          intro x
          rw [hst1def]
          exact colorOf_modify st.color st.cycles st.cycles node x GRAY hnodeKeys
        have hgray1 : ∀ x, colorOf st1 x = GRAY ↔ x ∈ path ++ [node] := by
          intro x
          rw [hcol1 x]
          by_cases hx : x = node
          · rw [if_pos hx]
            simp [hx]
          · rw [if_neg hx]
            rw [List.mem_append, List.mem_singleton]
            constructor
            · intro h
              exact Or.inl ((hinv.gray x).mp h)
            · intro h
              rcases h with h | h
              · exact (hinv.gray x).mpr h
              · exact absurd h hx
        have hnodup1 : (path ++ [node]).Nodup := by
          rw [List.nodup_append]
          exact ⟨hinv.pathNodup, List.nodup_singleton node,
            fun a ha hb => hnodePath (List.mem_singleton.mp hb ▸ ha)⟩
        have htopo1 : TopoOK g st1 := by
          intro h
          obtain ⟨L, hn, hiff, hord⟩ := hinv.topo h
          refine ⟨L, hn, ?_, hord⟩
          intro x
          rw [hcol1 x]
          by_cases hx : x = node
          · rw [if_pos hx]
            subst hx
            constructor
            · intro hxl
              exact absurd ((hiff _).mp hxl) hc2
            · intro hB
              exact absurd hB (by decide)
          · rw [if_neg hx]
            exact hiff x
        have hvals1 : ∀ x, colorOf st1 x = WHITE ∨ colorOf st1 x = GRAY
            ∨ colorOf st1 x = BLACK := by
          intro x
          rw [hcol1 x]
          by_cases hx : x = node
          · rw [if_pos hx]
            right; left; rfl
          · rw [if_neg hx]
            exact hinv.vals x
        have hkeys1 : stKeys st1 = g.ids := by
          rw [hst1def]
          show (alModify st.color node (fun _ => GRAY)).map Prod.fst = g.ids
          rw [alModify_keys]
          exact hinv.keys
        have hinv1 : DfsInv g (path ++ [node]) st1 :=
          ⟨hkeys1, hgray1, hnodup1, hchain, htopo1, hvals1⟩
        have hwlt : g.whiteCount st1 < g.whiteCount st := by
          apply whiteCount_lt g ?_ hnodeIds hwhite ?_
          · intro x h
            rw [hcol1 x] at h
            by_cases hx : x = node
            · rw [if_pos hx] at h
              exact absurd h (by decide)
            · rw [if_neg hx] at h
              exact h
          · rw [hcol1 node, if_pos rfl]
            decide
        have hfuel1 : g.whiteCount st1 + 1 ≤ fuel := by omega
        have hcyc1 : st1.cycles = st.cycles := by rw [hst1def]
        -- the children fold
        have hfold : ∀ (ds : List String), (∀ d ∈ ds, d ∈ g.get_dependencies node) →
            ∀ (acc : DfsState), DfsInv g (path ++ [node]) acc →
              g.whiteCount acc + 1 ≤ fuel →
              DfsFoldPost g ds (path ++ [node]) acc
                (ds.foldl (fun acc dep =>
                  if g.hasNode dep = true then dfsVisit g fuel dep (path ++ [node]) acc
                  else acc) acc)
              ∧ DfsInv g (path ++ [node])
                (ds.foldl (fun acc dep =>
                  if g.hasNode dep = true then dfsVisit g fuel dep (path ++ [node]) acc
                  else acc) acc)
              ∧ g.whiteCount (ds.foldl (fun acc dep =>
                  if g.hasNode dep = true then dfsVisit g fuel dep (path ++ [node]) acc
                  else acc) acc) ≤ g.whiteCount acc := by
          intro ds
          induction ds with
          | nil =>
            intro _ acc hacc _
            rw [List.foldl_nil]
            exact ⟨⟨rfl, hacc.gray, fun x h => h, fun x h => h, ⟨[], by simp⟩,
              fun c h => Or.inl h, fun _ d hd => absurd hd (List.not_mem_nil d),
              hacc.topo⟩, hacc, le_refl _⟩
          | cons d ds ihd =>
            intro hds acc hacc hfacc
            rw [List.foldl_cons]
            by_cases hd : g.hasNode d = true
            · rw [if_pos hd]
              have hchain_d : List.Chain' g.Edge ((path ++ [node]) ++ [d]) :=
                chain_snoc hchain ⟨hnode, hd, hds d (List.mem_cons_self d ds)⟩
              have hpost := ih d (path ++ [node]) acc hd hchain_d hacc hfacc
              have hinv' : DfsInv g (path ++ [node])
                  (dfsVisit g fuel d (path ++ [node]) acc) :=
                ⟨hpost.keys.trans hacc.keys, hpost.gray, hacc.pathNodup, hacc.chain,
                  hpost.topo, hpost.vals⟩
              have hwle := whiteCount_le_of_mono g hpost.whiteMono
              have hfuel' : g.whiteCount (dfsVisit g fuel d (path ++ [node]) acc) + 1
                  ≤ fuel := by omega
              have hrest := ihd (fun x hx => hds x (List.mem_cons_of_mem _ hx)) _
                hinv' hfuel'
              refine ⟨⟨hrest.1.keys.trans hpost.keys, hrest.1.gray,
                fun x h => hrest.1.blackMono x (hpost.blackMono x h),
                fun x h => hpost.whiteMono x (hrest.1.whiteMono x h), ?_, ?_, ?_,
                hrest.1.topo⟩, hrest.2.1, ?_⟩
              · obtain ⟨e1, he1⟩ := hpost.cyclesExt
                obtain ⟨e2, he2⟩ := hrest.1.cyclesExt
                exact ⟨e1 ++ e2, by rw [he2, he1, List.append_assoc]⟩
              · intro c hc
                rcases hrest.1.cyclesReal c hc with h | h
                · exact hpost.cyclesReal c h
                · exact Or.inr h
              · intro hnil x hx hknown
                rcases List.mem_cons.mp hx with hh | hh
                · subst hh
                  obtain ⟨e2, he2⟩ := hrest.1.cyclesExt
                  have hnil' : (dfsVisit g fuel x (path ++ [node]) acc).cycles = [] := by
                    rw [he2] at hnil
                    exact (List.append_eq_nil.mp hnil).1
                  have hng : colorOf acc x ≠ GRAY := by
                    intro hg
                    have hlt := hpost.grayHit hg
                    rw [hnil'] at hlt
                    simp at hlt
                  exact hrest.1.blackMono x (hpost.nodeBlack hng)
                · exact hrest.1.depsBlack hnil x hh hknown
              · have := hrest.2.2
                omega
            · rw [if_neg hd]
              have hrest := ihd (fun x hx => hds x (List.mem_cons_of_mem _ hx)) acc
                hacc hfacc
              refine ⟨⟨hrest.1.keys, hrest.1.gray, hrest.1.blackMono,
                hrest.1.whiteMono, hrest.1.cyclesExt, hrest.1.cyclesReal, ?_,
                hrest.1.topo⟩, hrest.2.1, hrest.2.2⟩
              intro hnil x hx hknown
              rcases List.mem_cons.mp hx with hh | hh
              · rw [hh] at hknown
                exact absurd hknown hd
              · exact hrest.1.depsBlack hnil x hh hknown
        have h2 := hfold (g.get_dependencies node) (fun d hd => hd) st1 hinv1 hfuel1
        set st2 : DfsState := (g.get_dependencies node).foldl (fun acc dep =>
            if g.hasNode dep = true then dfsVisit g fuel dep (path ++ [node]) acc
            else acc) st1 with hst2def
        have hkeys2 : stKeys st2 = g.ids := h2.2.1.keys
        have hnodeKeys2 : node ∈ st2.color.map Prod.fst := by
          have : st2.color.map Prod.fst = g.ids := hkeys2
          rw [this]
          exact hnodeIds
        have hcol3 : ∀ x, colorOf ⟨alModify st2.color node (fun _ => BLACK), st2.cycles⟩ x
            = if x = node then BLACK else colorOf st2 x := by
          intro x
          exact colorOf_modify st2.color st2.cycles st2.cycles node x BLACK hnodeKeys2
        have hnodeGray2 : colorOf st2 node = GRAY :=
          (h2.1.gray node).mpr (List.mem_append_right path (List.mem_singleton.mpr rfl))
        refine ⟨?_, ?_, ?_, ?_, ?_, ?_, ?_, fun h => absurd h hc1, ?_, ?_⟩
        · show (alModify st2.color node (fun _ => BLACK)).map Prod.fst = stKeys st
          rw [alModify_keys]
          exact hkeys2.trans hinv.keys.symm
        · intro x
          rw [hcol3 x]
          by_cases hx : x = node
          · rw [if_pos hx]
            subst hx
            constructor
            · intro h
              exact absurd h (by decide)
            · intro h
              exact absurd h hnodePath
          · rw [if_neg hx]
            rw [h2.1.gray x, List.mem_append, List.mem_singleton]
            constructor
            · intro h
              rcases h with h | h
              · exact h
              · exact absurd h hx
            · exact Or.inl
        · intro x h
          have hxn : x ≠ node := fun hh => hc2 (hh ▸ h)
          rw [hcol3 x, if_neg hxn]
          apply h2.1.blackMono
          rw [hcol1 x, if_neg hxn]
          exact h
        · intro x h
          rw [hcol3 x] at h
          by_cases hx : x = node
          · rw [if_pos hx] at h
            exact absurd h (by decide)
          · rw [if_neg hx] at h
            have := h2.1.whiteMono x h
            rw [hcol1 x, if_neg hx] at this
            exact this
        · intro _
          rw [hcol3 node, if_pos rfl]
        · obtain ⟨e, he⟩ := h2.1.cyclesExt
          rw [hcyc1] at he
          exact ⟨e, he⟩
        · intro c hc
          rcases h2.1.cyclesReal c hc with h | h
          · rw [hcyc1] at h
            exact Or.inl h
          · exact Or.inr h
        · intro hnil
          have hnil2 : st2.cycles = [] := hnil
          obtain ⟨L, hLnodup, hLiff, hLord⟩ := h2.2.1.topo hnil2
          have hnodeL : node ∉ L := by
            intro h
            have := (hLiff node).mp h
            rw [hnodeGray2] at this
            exact absurd this (by decide)
          refine ⟨L ++ [node], ?_, ?_, ?_⟩
          · rw [List.nodup_append]
            exact ⟨hLnodup, List.nodup_singleton node,
              fun a ha hb => hnodeL (List.mem_singleton.mp hb ▸ ha)⟩
          · intro x
            rw [hcol3 x]
            by_cases hx : x = node
            · subst hx
              rw [if_pos rfl]
              simp
            · rw [if_neg hx]
              rw [List.mem_append, List.mem_singleton]
              constructor
              · intro h
                rcases h with h | h
                · exact (hLiff x).mp h
                · exact absurd h hx
              · intro h
                exact Or.inl ((hLiff x).mpr h)
          · intro a ha b hab
            rcases List.mem_append.mp ha with haL | haN
            · obtain ⟨hbL, hblt⟩ := hLord a haL b hab
              refine ⟨List.mem_append_left _ hbL, ?_⟩
              rw [List.indexOf_append_of_mem hbL, List.indexOf_append_of_mem haL]
              exact hblt
            · rw [List.mem_singleton] at haN
              subst haN
              have hbblack : colorOf st2 b = BLACK :=
                h2.1.depsBlack hnil2 b hab.2.2 hab.2.1
              have hbL : b ∈ L := (hLiff b).mpr hbblack
              refine ⟨List.mem_append_left _ hbL, ?_⟩
              rw [List.indexOf_append_of_mem hbL,
                List.indexOf_append_of_not_mem hnodeL]
              have h1 := List.indexOf_lt_length.mpr hbL
              have h0 : List.indexOf a [a] = 0 := by simp
              omega
        · intro x
          rw [hcol3 x]
          by_cases hx : x = node
          · rw [if_pos hx]
            right; right; rfl
          · rw [if_neg hx]
            exact h2.2.1.vals x

/-- The outer loop of `detect_cycles`: the invariant is preserved and every
processed node ends `BLACK`. -/
lemma dfs_outer (g : DependencyGraph) :
    ∀ (ns : List String), (∀ x ∈ ns, g.hasNode x = true) →
      ∀ st, DfsInv g [] st →
      DfsInv g [] (ns.foldl (fun st node =>
          if colorOf st node = WHITE then dfsVisit g g.dfsFuel node [] st else st) st)
      ∧ (∀ x, colorOf st x = BLACK → colorOf (ns.foldl (fun st node =>
          if colorOf st node = WHITE then dfsVisit g g.dfsFuel node [] st else st) st) x
            = BLACK)
      ∧ (∀ c ∈ (ns.foldl (fun st node =>
          if colorOf st node = WHITE then dfsVisit g g.dfsFuel node [] st else st)
            st).cycles, c ∈ st.cycles ∨ g.HasCycle)
      ∧ (∀ x ∈ ns, colorOf (ns.foldl (fun st node =>
          if colorOf st node = WHITE then dfsVisit g g.dfsFuel node [] st else st) st) x
            = BLACK) := by
  intro ns
  induction ns with
  | nil =>
    intro _ st hst
    rw [List.foldl_nil]
    exact ⟨hst, fun x h => h, fun c h => Or.inl h,
      fun x hx => absurd hx (List.not_mem_nil x)⟩
  | cons n ns ihn =>
    intro hns st hst
    rw [List.foldl_cons]
    by_cases hw : colorOf st n = WHITE
    · rw [if_pos hw]
      have hn := hns n (List.mem_cons_self n ns)
      have hchain : List.Chain' g.Edge ([] ++ [n]) := by simp
      have hfuel : g.whiteCount st + 1 ≤ g.dfsFuel := by
        have h1 := whiteCount_le_ids g st
        have hlen : g.ids.length = g.nodes.length := by
          unfold DependencyGraph.ids
          simp
        unfold DependencyGraph.dfsFuel
        omega
      have hpost := dfs_spec g g.dfsFuel n [] st hn hchain hst hfuel
      have hinv' : DfsInv g [] (dfsVisit g g.dfsFuel n [] st) :=
        ⟨hpost.keys.trans hst.keys, hpost.gray, hst.pathNodup, hst.chain, hpost.topo,
          hpost.vals⟩
      have hrest := ihn (fun x hx => hns x (List.mem_cons_of_mem _ hx)) _ hinv'
      refine ⟨hrest.1, fun x h => hrest.2.1 x (hpost.blackMono x h), ?_, ?_⟩
      · intro c hc
        rcases hrest.2.2.1 c hc with h | h
        · exact hpost.cyclesReal c h
        · exact Or.inr h
      · intro x hx
        rcases List.mem_cons.mp hx with hh | hh
        · subst hh
          exact hrest.2.1 x
            (hpost.nodeBlack (fun hg => absurd (hw.symm.trans hg) (by decide)))
        · exact hrest.2.2.2 x hh
    · rw [if_neg hw]
      have hrest := ihn (fun x hx => hns x (List.mem_cons_of_mem _ hx)) st hst
      refine ⟨hrest.1, hrest.2.1, hrest.2.2.1, ?_⟩
      intro x hx
      rcases List.mem_cons.mp hx with hh | hh
      · subst hh
        have hb : colorOf st x = BLACK := by
          rcases hst.vals x with h | h | h
          · exact absurd h hw
          · exact absurd ((hst.gray x).mp h) (List.not_mem_nil x)
          · exact h
        exact hrest.2.1 x hb
      · exact hrest.2.2.2 x hh

/-- `detect_cycles` soundness and completeness: an empty result certifies
acyclicity, a non-empty one exhibits a cycle. -/
lemma detect_cycles_main (g : DependencyGraph) :
    (g.detect_cycles = [] → ¬ g.HasCycle)
    ∧ (g.detect_cycles ≠ [] → g.HasCycle) := by
  set st0 : DfsState := ⟨g.ids.map (fun node => (node, WHITE)), []⟩ with hst0
  have hcol0 : ∀ x, colorOf st0 x = WHITE := by
    intro x
    show (alLookup (g.ids.map (fun node => (node, WHITE))) x).getD WHITE = WHITE
    rw [alLookup_const_init]
    by_cases h : x ∈ g.ids
    · rw [if_pos h]
      rfl
    · rw [if_neg h]
      rfl
  have hinv0 : DfsInv g [] st0 := by
    refine ⟨map_fst_pair_init WHITE g.ids, ?_, List.nodup_nil, List.chain'_nil, ?_, ?_⟩
    · intro x
      rw [hcol0 x]
      constructor
      · intro h
        exact absurd h (by decide)
      · intro h
        exact absurd h (List.not_mem_nil x)
    · intro _
      refine ⟨[], List.nodup_nil, ?_, fun a ha => absurd ha (List.not_mem_nil a)⟩
      intro x
      rw [hcol0 x]
      constructor
      · intro h
        exact absurd h (List.not_mem_nil x)
      · intro h
        exact absurd h (by decide)
    · intro x
      left
      exact hcol0 x
  have houter := dfs_outer g g.ids (fun x hx => (hasNode_iff_mem_ids g x).mpr hx)
    st0 hinv0
  set final : DfsState := g.ids.foldl (fun st node =>
      if colorOf st node = WHITE then dfsVisit g g.dfsFuel node [] st else st) st0
    with hfinal
  have hdc : g.detect_cycles = dedupCycles final.cycles := rfl
  constructor
  · intro h
    rw [hdc] at h
    have hnil : final.cycles = [] := (dedupCycles_eq_nil_iff final.cycles).mp h
    obtain ⟨L, hLnodup, hLiff, hLord⟩ := houter.1.topo hnil
    rintro ⟨n, htg⟩
    have haux : ∀ a b, Relation.TransGen g.Edge a b
        → a ∈ L ∧ b ∈ L ∧ L.indexOf b < L.indexOf a := by
      intro a b htr
      induction htr with
      | single hab =>
        rename_i b'
        have haL : a ∈ L := (hLiff a).mpr (houter.2.2.2 a
          ((hasNode_iff_mem_ids g a).mp hab.1))
        obtain ⟨hbL, hlt⟩ := hLord a haL b' hab
        exact ⟨haL, hbL, hlt⟩
      | tail hab hbc ihab =>
        rename_i b' c'
        obtain ⟨hbL, hlt⟩ := hLord b' ihab.2.1 c' hbc
        exact ⟨ihab.1, hbL, lt_trans hlt ihab.2.2⟩
    have := haux n n htg
    omega
  · intro h
    rw [hdc] at h
    have hne : final.cycles ≠ [] := by
      intro hh
      exact h ((dedupCycles_eq_nil_iff final.cycles).mpr hh)
    obtain ⟨c, hc⟩ := List.exists_mem_of_ne_nil final.cycles hne
    rcases houter.2.2.1 c hc with hmem | hcyc
    · exact absurd hmem (List.not_mem_nil c)
    · exact hcyc

/-! ### Kahn initialisation lemmas (C3) -/

lemma option_map_append_nil (o : Option (List String)) :
    o.map (· ++ ([] : List String)) = o := by
  cases o <;> simp

lemma option_map_add_zero_int (o : Option Int) : o.map (· + (0 : Int)) = o := by
  cases o <;> simp

lemma al_eq_map_of_lookup {α : Type} : ∀ (al : List (String × α)) (ids : List String)
    (f : String → α), al.map Prod.fst = ids → ids.Nodup →
    (∀ t ∈ ids, alLookup al t = some (f t)) → al = ids.map (fun t => (t, f t)) := by
  intro al
  induction al with
  | nil =>
    intro ids f hkeys _ _
    rw [← hkeys]
    rfl
  | cons p ps ih =>
    intro ids f hkeys hnodup hval
    cases ids with
    | nil => simp at hkeys
    | cons i is =>
      rw [List.map_cons] at hkeys
      injection hkeys with h1 h2
      rw [List.nodup_cons] at hnodup
      have hvi := hval i (List.mem_cons_self i is)
      rw [alLookup_cons, if_pos h1] at hvi
      have hvs : ∀ t ∈ is, alLookup ps t = some (f t) := by
        intro t ht
        have hv := hval t (List.mem_cons_of_mem _ ht)
        rw [alLookup_cons] at hv
        have hne : ¬ p.1 = t := by
          rw [h1]
          intro hh
          rw [hh] at hnodup
          exact hnodup.1 ht
        rw [if_neg hne] at hv
        exact hv
      rw [List.map_cons, ih is f h2 hnodup.2 hvs]
      rcases p with ⟨pa, pb⟩
      dsimp only at h1 hvi
      rw [h1, Option.some.inj hvi]

lemma sum_ite_id (g : DependencyGraph) (t : String) (v : GNode → Int) :
    ∀ (l : List GNode), (l.map GNode.id).Nodup →
    ∀ {node : GNode}, node ∈ l → node.id = t →
    (l.map (fun n => if n.id = t then v n else 0)).sum = v node := by
  intro l
  induction l with
  | nil =>
    intro _ node hmem
    simp at hmem
  | cons x xs ih =>
    intro hnodup node hmem hid
    rw [List.map_cons] at hnodup
    rw [List.nodup_cons] at hnodup
    rw [List.map_cons, List.sum_cons]
    rcases List.mem_cons.mp hmem with hh | hh
    · subst hh
      rw [if_pos hid]
      have hzero : (xs.map (fun n => if n.id = t then v n else 0)).sum = 0 := by
        apply List.sum_eq_zero
        intro y hy
        obtain ⟨m, hm, hmy⟩ := List.mem_map.mp hy
        have hne : m.id ≠ t := by
          intro hmt
          apply hnodup.1
          rw [hid, ← hmt]
          exact List.mem_map_of_mem _ hm
        rw [← hmy, if_neg hne]
      rw [hzero]
      omega
    · have hne : x.id ≠ t := by
        intro hxt
        apply hnodup.1
        rw [hxt, ← hid]
        exact List.mem_map_of_mem _ hh
      rw [if_neg hne, ih hnodup.2 hh hid]
      omega

lemma kahn_inner (g : DependencyGraph) (tid : String) :
    ∀ (deps : List String)
      (a : List (String × List String) × List (String × Int)),
      a.1.map Prod.fst = g.ids → a.2.map Prod.fst = g.ids →
      ((deps.foldl (fun (acc : List (String × List String) × List (String × Int)) dep =>
        if alHasKey acc.1 dep then
          (alModify acc.1 dep (· ++ [tid]), alModify acc.2 tid (· + 1))
        else acc) a).1.map Prod.fst = g.ids)
      ∧ ((deps.foldl (fun (acc : List (String × List String) × List (String × Int)) dep =>
        if alHasKey acc.1 dep then
          (alModify acc.1 dep (· ++ [tid]), alModify acc.2 tid (· + 1))
        else acc) a).2.map Prod.fst = g.ids)
      ∧ (∀ x, alLookup (deps.foldl
          (fun (acc : List (String × List String) × List (String × Int)) dep =>
            if alHasKey acc.1 dep then
              (alModify acc.1 dep (· ++ [tid]), alModify acc.2 tid (· + 1))
            else acc) a).1 x
          = (alLookup a.1 x).map
              (· ++ List.replicate ((deps.filter (fun d => g.hasNode d)).count x) tid))
      ∧ (∀ t, alLookup (deps.foldl
          (fun (acc : List (String × List String) × List (String × Int)) dep =>
            if alHasKey acc.1 dep then
              (alModify acc.1 dep (· ++ [tid]), alModify acc.2 tid (· + 1))
            else acc) a).2 t
          = if t = tid then (alLookup a.2 t).map
              (· + (((deps.filter (fun d => g.hasNode d)).length : Nat) : Int))
            else alLookup a.2 t) := by
  intro deps
  induction deps with
  | nil =>
    intro a h1 h2
    rw [List.foldl_nil]
    refine ⟨h1, h2, fun x => ?_, fun t => ?_⟩
    · simp only [List.filter_nil, List.count_nil, List.replicate_zero]
      exact (option_map_append_nil _).symm
    · by_cases ht : t = tid
      · rw [if_pos ht]
        simp only [List.filter_nil, List.length_nil, Nat.cast_zero]
        exact (option_map_add_zero_int _).symm
      · rw [if_neg ht]
  | cons d ds ih =>
    intro a h1 h2
    have hcond : alHasKey a.1 d = g.hasNode d := by
      rw [Bool.eq_iff_iff, alHasKey_iff, h1, hasNode_iff_mem_ids]
    rw [List.foldl_cons, hcond]
    cases hh : g.hasNode d
    · rw [if_neg (by simp)]
      have h3 := ih a h1 h2
      refine ⟨h3.1, h3.2.1, fun x => ?_, fun t => ?_⟩
      · rw [h3.2.2.1 x]
        simp [List.filter_cons, hh]
      · rw [h3.2.2.2 t]
        simp [List.filter_cons, hh]
    · rw [if_pos rfl]
      have h1' : (alModify a.1 d (· ++ [tid])).map Prod.fst = g.ids := by
        rw [alModify_keys]
        exact h1
      have h2' : (alModify a.2 tid (· + 1)).map Prod.fst = g.ids := by
        rw [alModify_keys]
        exact h2
      have h3 := ih (alModify a.1 d (· ++ [tid]), alModify a.2 tid (· + 1)) h1' h2'
      have hfc : List.filter (fun d2 => g.hasNode d2) (d :: ds)
          = d :: List.filter (fun d2 => g.hasNode d2) ds := by
        simp [List.filter_cons, hh]
      refine ⟨h3.1, h3.2.1, fun x => ?_, fun t => ?_⟩
      · rw [h3.2.2.1 x]
        dsimp only
        rw [alLookup_modify, hfc]
        by_cases hx : x = d
        · rw [if_pos hx]
          subst hx
          have hcc : List.count x (x :: List.filter (fun d2 => g.hasNode d2) ds)
              = List.count x (List.filter (fun d2 => g.hasNode d2) ds) + 1 := by
            simp [List.count_cons]
          rw [hcc]
          cases alLookup a.1 x with
          | none => rfl
          | some l =>
            simp only [Option.map_some']
            congr 1
            rw [List.append_assoc]
            congr 1
        · rw [if_neg hx]
          have hdx : (d == x) = false := beq_eq_false_iff_ne.mpr (fun h => hx h.symm)
          have hcc : List.count x (d :: List.filter (fun d2 => g.hasNode d2) ds)
              = List.count x (List.filter (fun d2 => g.hasNode d2) ds) := by
            simp [List.count_cons, hdx]
          rw [hcc]
      · rw [h3.2.2.2 t]
        dsimp only
        by_cases ht : t = tid
        · rw [if_pos ht, if_pos ht]
          subst ht
          rw [alLookup_modify, if_pos rfl, hfc]
          cases alLookup a.2 t with
          | none => rfl
          | some v =>
            simp only [Option.map_some', List.length_cons]
            congr 1
            push_cast
            ring
        · rw [if_neg ht, if_neg ht]
          rw [alLookup_modify, if_neg ht]

lemma kahn_outer (g : DependencyGraph) :
    ∀ (ns : List GNode) (a : List (String × List String) × List (String × Int)),
      a.1.map Prod.fst = g.ids → a.2.map Prod.fst = g.ids →
      ((ns.foldl (fun acc task =>
        task.deps.foldl
          (fun (acc : List (String × List String) × List (String × Int)) dep =>
            if alHasKey acc.1 dep then
              (alModify acc.1 dep (· ++ [task.id]), alModify acc.2 task.id (· + 1))
            else acc)
          acc) a).1.map Prod.fst = g.ids)
      ∧ ((ns.foldl (fun acc task =>
        task.deps.foldl
          (fun (acc : List (String × List String) × List (String × Int)) dep =>
            if alHasKey acc.1 dep then
              (alModify acc.1 dep (· ++ [task.id]), alModify acc.2 task.id (· + 1))
            else acc)
          acc) a).2.map Prod.fst = g.ids)
      ∧ (∀ x, alLookup (ns.foldl (fun acc task =>
        task.deps.foldl
          (fun (acc : List (String × List String) × List (String × Int)) dep =>
            if alHasKey acc.1 dep then
              (alModify acc.1 dep (· ++ [task.id]), alModify acc.2 task.id (· + 1))
            else acc)
          acc) a).1 x
          = (alLookup a.1 x).map (· ++ ns.flatMap (fun n =>
              List.replicate ((n.deps.filter (fun d => g.hasNode d)).count x) n.id)))
      ∧ (∀ t, alLookup (ns.foldl (fun acc task =>
        task.deps.foldl
          (fun (acc : List (String × List String) × List (String × Int)) dep =>
            if alHasKey acc.1 dep then
              (alModify acc.1 dep (· ++ [task.id]), alModify acc.2 task.id (· + 1))
            else acc)
          acc) a).2 t
          = (alLookup a.2 t).map (· + ((ns.map (fun n =>
              if n.id = t then (((n.deps.filter (fun d => g.hasNode d)).length : Nat) : Int)
              else 0)).sum))) := by
  intro ns
  induction ns with
  | nil =>
    intro a h1 h2
    rw [List.foldl_nil]
    refine ⟨h1, h2, fun x => ?_, fun t => ?_⟩
    · simp only [List.flatMap_nil]
      exact (option_map_append_nil _).symm
    · simp only [List.map_nil, List.sum_nil]
      exact (option_map_add_zero_int _).symm
  | cons n rest ih =>
    intro a h1 h2
    rw [List.foldl_cons]
    have hinner := kahn_inner g n.id n.deps a h1 h2
    have hrest := ih _ hinner.1 hinner.2.1
    refine ⟨hrest.1, hrest.2.1, fun x => ?_, fun t => ?_⟩
    · rw [hrest.2.2.1 x, hinner.2.2.1 x, List.flatMap_cons]
      cases alLookup a.1 x with
      | none => rfl
      | some l =>
        simp only [Option.map_some']
        congr 1
        rw [List.append_assoc]
    · rw [hrest.2.2.2 t, hinner.2.2.2 t, List.map_cons, List.sum_cons]
      by_cases ht : t = n.id
      · rw [if_pos ht, if_pos ht.symm]
        cases alLookup a.2 t with
        | none => rfl
        | some v =>
          simp only [Option.map_some']
          congr 1
          omega
      · rw [if_neg ht, if_neg (fun hh => ht hh.symm)]
        cases alLookup a.2 t with
        | none => rfl
        | some v =>
          simp only [Option.map_some']
          congr 1
          omega

lemma kahnInit_spec (g : DependencyGraph) (hwf : g.WF) :
    (kahnInit g).1.map Prod.fst = g.ids
    ∧ (kahnInit g).2.map Prod.fst = g.ids
    ∧ (∀ x, alLookup (kahnInit g).1 x
        = if x ∈ g.ids then some (g.depList x) else none)
    ∧ (∀ node ∈ g.nodes, alLookup (kahnInit g).2 node.id
        = some ((g.indeg0 node.id : Int))) := by
  have hk1 : (g.ids.map (fun n => (n, ([] : List String)))).map Prod.fst = g.ids :=
    map_fst_pair_init _ _
  have hk2 : (g.ids.map (fun n => (n, (0 : Int)))).map Prod.fst = g.ids :=
    map_fst_pair_init _ _
  have h := kahn_outer g g.nodes
    (g.ids.map (fun n => (n, [])), g.ids.map (fun n => (n, (0 : Int)))) hk1 hk2
  refine ⟨h.1, h.2.1, fun x => ?_, fun node hn => ?_⟩
  · have hl : alLookup (kahnInit g).1 x
        = (alLookup (g.ids.map (fun n => (n, ([] : List String)))) x).map
            (· ++ g.nodes.flatMap (fun n =>
              List.replicate ((n.deps.filter (fun d => g.hasNode d)).count x) n.id)) :=
      h.2.2.1 x
    rw [hl, alLookup_const_init]
    by_cases hx : x ∈ g.ids
    · rw [if_pos hx, if_pos hx]
      rfl
    · rw [if_neg hx, if_neg hx]
      rfl
  · have hl : alLookup (kahnInit g).2 node.id
        = (alLookup (g.ids.map (fun n => (n, (0 : Int)))) node.id).map
            (· + ((g.nodes.map (fun n =>
              if n.id = node.id
              then (((n.deps.filter (fun d => g.hasNode d)).length : Nat) : Int)
              else 0)).sum)) :=
      h.2.2.2 node.id
    rw [hl, alLookup_const_init]
    have hmem : node.id ∈ g.ids := List.mem_map_of_mem _ hn
    rw [if_pos hmem]
    have hsum := sum_ite_id g node.id
      (fun n => (((n.deps.filter (fun d => g.hasNode d)).length : Nat) : Int))
      g.nodes hwf hn rfl
    rw [hsum]
    have hdeps : g.get_dependencies node.id = node.deps := by
      unfold DependencyGraph.get_dependencies
      rw [findNode?_of_mem g hwf hn]
    simp only [Option.map_some']
    congr 1
    unfold DependencyGraph.indeg0
    rw [hdeps]
    omega

lemma contains_iff {l : List String} {a : String} : l.contains a = true ↔ a ∈ l := by
  induction l with
  | nil => simp
  | cons x xs ih =>
    rw [List.contains_cons]
    simp [ih]

lemma contains_eq_false_iff {l : List String} {a : String} :
    l.contains a = false ↔ a ∉ l := by
  constructor
  · intro h hmem
    rw [contains_iff.mpr hmem] at h
    exact absurd h (by decide)
  · intro h
    cases hb : l.contains a
    · rfl
    · exact absurd (contains_iff.mp hb) h

lemma pend_nil_eq_indeg0 (g : DependencyGraph) (t : String) :
    g.pend [] t = g.indeg0 t := by
  unfold DependencyGraph.pend DependencyGraph.indeg0
  congr 1
  apply List.filter_congr
  intro d _
  simp

lemma pend_eq_zero_iff (g : DependencyGraph) (result : List String) (t : String) :
    g.pend result t = 0
      ↔ ∀ d ∈ g.get_dependencies t, g.hasNode d = true → d ∈ result := by
  unfold DependencyGraph.pend
  rw [List.length_eq_zero, List.filter_eq_nil_iff]
  constructor
  · intro h d hd hknown
    by_contra hres
    apply h d hd
    rw [hknown, contains_eq_false_iff.mpr hres]
    rfl
  · intro h d hd hcond
    rw [Bool.and_eq_true] at hcond
    have hmem := h d hd hcond.1
    have := hcond.2
    rw [contains_iff.mpr hmem] at this
    exact absurd this (by decide)

lemma pend_mono_append (g : DependencyGraph) (result : List String) (node t : String) :
    g.pend (result ++ [node]) t ≤ g.pend result t := by
  unfold DependencyGraph.pend
  rw [← List.countP_eq_length_filter, ← List.countP_eq_length_filter]
  apply List.countP_mono_left
  intro d _ hd
  rw [Bool.and_eq_true] at hd
  rw [Bool.and_eq_true]
  refine ⟨hd.1, ?_⟩
  have h2 := hd.2
  cases hb : result.contains d
  · rfl
  · have := contains_iff.mp hb
    have hmem : d ∈ result ++ [node] := List.mem_append_left _ this
    rw [contains_iff.mpr hmem] at h2
    exact absurd h2 (by decide)

lemma filter_pend_shift (g : DependencyGraph) (result : List String) (node : String)
    (hnode : g.hasNode node = true) (hnr : node ∉ result) :
    ∀ (l : List String),
      (l.filter (fun d => g.hasNode d && !(result.contains d))).length
      = (l.filter (fun d => g.hasNode d && !((result ++ [node]).contains d))).length
        + l.count node := by
  intro l
  induction l with
  | nil => simp
  | cons d ds ih =>
    rw [List.filter_cons, List.filter_cons, List.count_cons]
    by_cases hd : d = node
    · subst hd
      have hc1 : result.contains d = false := contains_eq_false_iff.mpr hnr
      have hc2 : (result ++ [d]).contains d = true :=
        contains_iff.mpr (List.mem_append_right _ (List.mem_singleton.mpr rfl))
      have hp1 : (g.hasNode d && !(result.contains d)) = true := by
        rw [hnode, hc1]
        rfl
      have hp2 : ¬ ((g.hasNode d && !((result ++ [d]).contains d)) = true) := by
        rw [hc2]
        simp
      rw [if_pos hp1, if_neg hp2]
      rw [beq_self_eq_true]
      rw [if_pos rfl]
      simp only [List.length_cons]
      omega
    · have hceq : ((result ++ [node]).contains d) = (result.contains d) := by
        by_cases hdr : d ∈ result
        · rw [contains_iff.mpr hdr, contains_iff.mpr (List.mem_append_left _ hdr)]
        · have h2 : d ∉ result ++ [node] := by
            intro hmem
            rcases List.mem_append.mp hmem with h | h
            · exact hdr h
            · exact hd (List.mem_singleton.mp h)
          rw [contains_eq_false_iff.mpr hdr, contains_eq_false_iff.mpr h2]
      have hdx : (d == node) = false := beq_eq_false_iff_ne.mpr hd
      rw [hceq]
      by_cases hp : (g.hasNode d && !(result.contains d)) = true
      · rw [if_pos hp, if_pos hp]
        simp only [List.length_cons, hdx]
        rw [if_neg (by simp)]
        omega
      · rw [if_neg hp, if_neg hp]
        simp only [hdx]
        rw [if_neg (by simp)]
        omega

lemma pend_append (g : DependencyGraph) (result : List String) (node t : String)
    (hnode : g.hasNode node = true) (hnr : node ∉ result) :
    g.pend result t
      = g.pend (result ++ [node]) t + (g.get_dependencies t).count node := by
  unfold DependencyGraph.pend
  exact filter_pend_shift g result node hnode hnr (g.get_dependencies t)

lemma hasNode_of_deps_ne (g : DependencyGraph) (t : String)
    (h : g.get_dependencies t ≠ []) : g.hasNode t = true := by
  unfold DependencyGraph.get_dependencies at h
  unfold DependencyGraph.hasNode
  unfold DependencyGraph.findNode? at h
  cases hf : g.nodes.find? (fun m => m.id = t) with
  | none =>
    rw [hf] at h
    exact absurd rfl h
  | some n =>
    have hp := List.find?_some hf
    have hmem := List.mem_of_find?_eq_some hf
    rw [List.any_eq_true]
    exact ⟨n, hmem, hp⟩

lemma pend_pos_exists (g : DependencyGraph) (result : List String) (t : String)
    (h : 0 < g.pend result t) :
    ∃ d, d ∈ g.get_dependencies t ∧ g.hasNode d = true ∧ d ∉ result := by
  unfold DependencyGraph.pend at h
  have hne : (g.get_dependencies t).filter
      (fun d => g.hasNode d && !(result.contains d)) ≠ [] := by
    intro hh
    rw [hh] at h
    simp at h
  obtain ⟨d, hd⟩ := List.exists_mem_of_ne_nil _ hne
  have hmem := List.mem_of_mem_filter hd
  have hp := List.of_mem_filter hd
  rw [Bool.and_eq_true] at hp
  refine ⟨d, hmem, hp.1, ?_⟩
  intro hres
  have h2 := hp.2
  rw [contains_iff.mpr hres] at h2
  exact absurd h2 (by decide)

lemma pend_pos_known (g : DependencyGraph) (result : List String) (t : String)
    (h : 0 < g.pend result t) : g.hasNode t = true := by
  apply hasNode_of_deps_ne
  intro hh
  obtain ⟨d, hd, _⟩ := pend_pos_exists g result t h
  rw [hh] at hd
  exact absurd hd (List.not_mem_nil d)

lemma depList_subset_ids (g : DependencyGraph) (node : String) :
    ∀ x ∈ g.depList node, x ∈ g.ids := by
  intro x hx
  unfold DependencyGraph.depList at hx
  obtain ⟨n, hn, hxr⟩ := List.mem_flatMap.mp hx
  rw [List.eq_of_mem_replicate hxr]
  exact List.mem_map_of_mem _ hn

lemma length_le_of_nodup_subset {l₁ l₂ : List String} (h1 : l₁.Nodup)
    (h : ∀ x ∈ l₁, x ∈ l₂) : l₁.length ≤ l₂.length :=
  (List.subperm_of_subset h1 h).length_le

lemma flatMap_replicate_count_zero (g : DependencyGraph) (node t : String) :
    ∀ (l : List GNode), (∀ n ∈ l, n.id ≠ t) →
      (l.flatMap (fun n =>
        List.replicate ((n.deps.filter (fun d => g.hasNode d)).count node) n.id)).count t
        = 0 := by
  intro l
  induction l with
  | nil =>
    intro _
    simp
  | cons x xs ih =>
    intro hl
    rw [List.flatMap_cons, List.count_append,
      ih (fun n hn => hl n (List.mem_cons_of_mem _ hn))]
    have hx : x.id ≠ t := hl x (List.mem_cons_self x xs)
    rw [List.count_replicate]
    simp [hx, Ne.symm hx]

lemma depList_count (g : DependencyGraph) (hwf : g.WF) (node : String)
    (hnode : g.hasNode node = true) :
    ∀ node0 ∈ g.nodes, (g.depList node).count node0.id = node0.deps.count node := by
  have haux : ∀ (l : List GNode), (l.map GNode.id).Nodup → ∀ node0 ∈ l,
      (l.flatMap (fun n =>
        List.replicate ((n.deps.filter (fun d => g.hasNode d)).count node) n.id)).count
          node0.id
      = (node0.deps.filter (fun d => g.hasNode d)).count node := by
    intro l
    induction l with
    | nil =>
      intro _ n0 h
      simp at h
    | cons x xs ih =>
      intro hnodup n0 hmem
      rw [List.map_cons, List.nodup_cons] at hnodup
      rw [List.flatMap_cons, List.count_append]
      rcases List.mem_cons.mp hmem with hh | hh
      · subst hh
        rw [flatMap_replicate_count_zero g node n0.id xs
          (fun n hn hid => hnodup.1 (hid ▸ List.mem_map_of_mem _ hn))]
        rw [List.count_replicate]
        simp
      · have hx : ¬ x.id = n0.id := by
          intro hid
          exact hnodup.1 (hid ▸ List.mem_map_of_mem _ hh)
        rw [ih hnodup.2 n0 hh, List.count_replicate]
        simp [hx, Ne.symm hx]
  intro node0 hmem
  unfold DependencyGraph.depList
  rw [haux g.nodes hwf node0 hmem]
  exact List.count_filter hnode

lemma kahn_step_fold (g : DependencyGraph) (result rest : List String) :
    ∀ (S : List String), (∀ x ∈ S, x ∈ g.ids) →
    ∀ (pc : String → Nat) (dg : List (String × Int)) (q : List String),
      dg.map Prod.fst = g.ids →
      (∀ t ∈ g.ids, alLookup dg t = some ((g.pend result t : Int) - (pc t : Int))) →
      (∃ extra, q = rest ++ extra ∧ extra.Nodup
        ∧ (∀ x, x ∈ extra ↔ x ∈ g.ids ∧ 0 < g.pend result x
            ∧ g.pend result x ≤ pc x)) →
      ((S.foldl (fun (acc : List (String × Int) × List String) dependent =>
          let indeg := alModify acc.1 dependent (· - 1)
          if (alLookup indeg dependent).getD 0 = 0 then (indeg, acc.2 ++ [dependent])
          else (indeg, acc.2)) (dg, q)).1.map Prod.fst = g.ids)
      ∧ (∀ t ∈ g.ids, alLookup (S.foldl
          (fun (acc : List (String × Int) × List String) dependent =>
            let indeg := alModify acc.1 dependent (· - 1)
            if (alLookup indeg dependent).getD 0 = 0 then (indeg, acc.2 ++ [dependent])
            else (indeg, acc.2)) (dg, q)).1 t
          = some ((g.pend result t : Int) - ((pc t + S.count t : Nat) : Int)))
      ∧ (∃ extra, (S.foldl (fun (acc : List (String × Int) × List String) dependent =>
          let indeg := alModify acc.1 dependent (· - 1)
          if (alLookup indeg dependent).getD 0 = 0 then (indeg, acc.2 ++ [dependent])
          else (indeg, acc.2)) (dg, q)).2 = rest ++ extra ∧ extra.Nodup
          ∧ (∀ x, x ∈ extra ↔ x ∈ g.ids ∧ 0 < g.pend result x
              ∧ g.pend result x ≤ pc x + S.count x)) := by
  intro S
  induction S with
  | nil =>
    intro _ pc dg q hkeys hval hq
    rw [List.foldl_nil]
    refine ⟨hkeys, fun t ht => ?_, ?_⟩
    · rw [hval t ht]
      simp
    · obtain ⟨extra, he1, he2, he3⟩ := hq
      refine ⟨extra, he1, he2, fun x => ?_⟩
      rw [he3 x]
      simp
  | cons e S ihS =>
    intro hS pc dg q hkeys hval hq
    have he : e ∈ g.ids := hS e (List.mem_cons_self e S)
    rw [List.foldl_cons]
    have hkeys1 : (alModify dg e (· - 1)).map Prod.fst = g.ids := by
      rw [alModify_keys]
      exact hkeys
    have hvalmod : ∀ t ∈ g.ids, alLookup (alModify dg e (· - 1)) t
        = some ((g.pend result t : Int) - (pc t : Int)
            - (if t = e then 1 else 0)) := by
      intro t ht
      rw [alLookup_modify]
      by_cases hte : t = e
      · subst hte
        rw [if_pos rfl, if_pos rfl, hval t ht]
        rfl
      · rw [if_neg hte, if_neg hte, hval t ht]
        simp
    have hcondval : (alLookup (alModify dg e (· - 1)) e).getD 0
        = (g.pend result e : Int) - (pc e : Int) - 1 := by
      rw [hvalmod e he, if_pos rfl]
      rfl
    have hcnt : ∀ t, (pc t + if t = e then 1 else 0) + S.count t
        = pc t + (e :: S).count t := by
      intro t
      rw [List.count_cons]
      by_cases hte : t = e
      · subst hte
        rw [if_pos rfl, beq_self_eq_true, if_pos rfl]
        omega
      · have hbe : (e == t) = false := beq_eq_false_iff_ne.mpr (fun h => hte h.symm)
        simp [hte, hbe]
    have hval' : ∀ t ∈ g.ids, alLookup (alModify dg e (· - 1)) t
        = some ((g.pend result t : Int)
            - ((pc t + if t = e then 1 else 0 : Nat) : Int)) := by
      intro t ht
      rw [hvalmod t ht]
      congr 1
      by_cases hte : t = e
      · rw [if_pos hte, if_pos hte]
        push_cast
        ring
      · rw [if_neg hte, if_neg hte]
        push_cast
        ring
    dsimp only
    by_cases hzero : (g.pend result e : Int) - (pc e : Int) - 1 = 0
    · rw [if_pos (by rw [hcondval]; exact hzero)]
      have hpe : g.pend result e = pc e + 1 := by omega
      obtain ⟨extra, hq1, hq2, hq3⟩ := hq
      have hee : e ∉ extra := by
        intro hmem
        have := (hq3 e).mp hmem
        omega
      have hq' : ∃ extra2, q ++ [e] = rest ++ extra2 ∧ extra2.Nodup
          ∧ (∀ x, x ∈ extra2 ↔ x ∈ g.ids ∧ 0 < g.pend result x
              ∧ g.pend result x ≤ pc x + if x = e then 1 else 0) := by
        refine ⟨extra ++ [e], by rw [hq1, List.append_assoc], ?_, ?_⟩
        · rw [List.nodup_append]
          exact ⟨hq2, List.nodup_singleton e,
            fun a ha hb => hee (List.mem_singleton.mp hb ▸ ha)⟩
        · intro x
          rw [List.mem_append, List.mem_singleton, hq3 x]
          by_cases hxe : x = e
          · subst hxe
            rw [if_pos rfl]
            constructor
            · intro _
              exact ⟨he, by omega, by omega⟩
            · intro _
              right
              rfl
          · rw [if_neg hxe]
            constructor
            · intro hh
              rcases hh with hh | hh
              · exact hh
              · exact absurd hh hxe
            · intro hh
              exact Or.inl hh
      have hih := ihS (fun x hx => hS x (List.mem_cons_of_mem _ hx))
        (fun t => pc t + if t = e then 1 else 0) (alModify dg e (· - 1)) (q ++ [e])
        hkeys1 hval' hq'
      refine ⟨hih.1, fun t ht => ?_, ?_⟩
      · rw [hih.2.1 t ht, ← hcnt t]
      · obtain ⟨extra2, h1, h2, h3⟩ := hih.2.2
        refine ⟨extra2, h1, h2, fun x => ?_⟩
        rw [h3 x]
        constructor
        · intro hh
          refine ⟨hh.1, hh.2.1, ?_⟩
          rw [← hcnt x]
          exact hh.2.2
        · intro hh
          refine ⟨hh.1, hh.2.1, ?_⟩
          have h4 := hh.2.2
          rw [← hcnt x] at h4
          exact h4
    · rw [if_neg (by rw [hcondval]; exact hzero)]
      have hpe : g.pend result e ≠ pc e + 1 := by
        intro hh
        apply hzero
        rw [hh]
        push_cast
        ring
      obtain ⟨extra, hq1, hq2, hq3⟩ := hq
      have hq' : ∃ extra2, q = rest ++ extra2 ∧ extra2.Nodup
          ∧ (∀ x, x ∈ extra2 ↔ x ∈ g.ids ∧ 0 < g.pend result x
              ∧ g.pend result x ≤ pc x + if x = e then 1 else 0) := by
        refine ⟨extra, hq1, hq2, fun x => ?_⟩
        rw [hq3 x]
        by_cases hxe : x = e
        · subst hxe
          rw [if_pos rfl]
          constructor
          · intro hh
            exact ⟨hh.1, hh.2.1, by have := hh.2.2; omega⟩
          · intro hh
            refine ⟨hh.1, hh.2.1, ?_⟩
            have h4 := hh.2.2
            have h5 := hh.2.1
            omega
        · rw [if_neg hxe]
          constructor
          · intro hh
            exact ⟨hh.1, hh.2.1, by have := hh.2.2; omega⟩
          · intro hh
            exact ⟨hh.1, hh.2.1, by have := hh.2.2; omega⟩
      have hih := ihS (fun x hx => hS x (List.mem_cons_of_mem _ hx))
        (fun t => pc t + if t = e then 1 else 0) (alModify dg e (· - 1)) q
        hkeys1 hval' hq'
      refine ⟨hih.1, fun t ht => ?_, ?_⟩
      · rw [hih.2.1 t ht, ← hcnt t]
      · obtain ⟨extra2, h1, h2, h3⟩ := hih.2.2
        refine ⟨extra2, h1, h2, fun x => ?_⟩
        rw [h3 x]
        constructor
        · intro hh
          refine ⟨hh.1, hh.2.1, ?_⟩
          rw [← hcnt x]
          exact hh.2.2
        · intro hh
          refine ⟨hh.1, hh.2.1, ?_⟩
          have h4 := hh.2.2
          rw [← hcnt x] at h4
          exact h4

/-- The Kahn loop preserves its invariant and drains the queue: with enough
fuel it ends with an empty queue, so the invariant holds of the final
result. -/
lemma kahnLoop_spec (g : DependencyGraph) (hwf : g.WF)
    (dependents : List (String × List String))
    (hdep : ∀ x ∈ g.ids, alLookup dependents x = some (g.depList x)) :
    ∀ fuel queue result in_degree,
      KahnInv g queue result in_degree →
      g.ids.length + 1 ≤ fuel + result.length →
      ∃ deg2, KahnInv g [] (kahnLoop dependents fuel queue result in_degree) deg2 := by
  intro fuel
  induction fuel with
  | zero =>
    intro queue result in_degree hinv harith
    exfalso
    have hle := length_le_of_nodup_subset hinv.nodup hinv.subIds
    rw [List.length_append] at hle
    omega
  | succ fuel ihf =>
    intro queue result in_degree hinv harith
    cases queue with
    | nil =>
      simp only [kahnLoop]
      exact ⟨in_degree, hinv⟩
    | cons node rest =>
      have hnodeIds : node ∈ g.ids :=
        hinv.subIds node (List.mem_append_right _ (List.mem_cons_self node rest))
      have hnodeRes : node ∉ result := by
        intro h
        have hnd := hinv.nodup
        rw [List.nodup_append] at hnd
        exact hnd.2.2 h (List.mem_cons_self node rest)
      have hnodeZero : g.pend result node = 0 :=
        hinv.queueZero node (List.mem_cons_self node rest)
      have hnodeKnown : g.hasNode node = true := (hasNode_iff_mem_ids g node).mpr hnodeIds
      have hdepn : alLookup dependents node = some (g.depList node) := hdep node hnodeIds
      simp only [kahnLoop]
      rw [hdepn]
      simp only [Option.getD_some]
      set F := (g.depList node).foldl
        (fun (acc : List (String × Int) × List String) dependent =>
          let indeg := alModify acc.1 dependent (· - 1)
          if (alLookup indeg dependent).getD 0 = 0 then (indeg, acc.2 ++ [dependent])
          else (indeg, acc.2)) (in_degree, rest) with hF
      have hfold := kahn_step_fold g result rest (g.depList node)
        (depList_subset_ids g node) (fun _ => 0) in_degree rest hinv.keysDeg
        (fun t ht => by rw [hinv.degVal t ht]; simp)
        ⟨[], by simp, List.nodup_nil, fun x => by
          constructor
          · intro h
            exact absurd h (List.not_mem_nil x)
          · rintro ⟨_, h1, h2⟩
            have h2a : g.pend result x ≤ 0 := h2
            omega⟩
      rw [← hF] at hfold
      obtain ⟨extra, hex1, hex2, hex3⟩ := hfold.2.2
      have hcount_eq : ∀ t ∈ g.ids,
          (g.depList node).count t = (g.get_dependencies t).count node := by
        intro t ht
        obtain ⟨n0, hn0, hid⟩ := List.mem_map.mp ht
        rw [← hid, depList_count g hwf node hnodeKnown n0 hn0]
        have hgd : g.get_dependencies n0.id = n0.deps := by
          unfold DependencyGraph.get_dependencies
          rw [findNode?_of_mem g hwf hn0]
        rw [hgd]
      have hpend' : ∀ t ∈ g.ids, g.pend result t
          = g.pend (result ++ [node]) t + (g.depList node).count t := by
        intro t ht
        rw [hcount_eq t ht]
        exact pend_append g result node t hnodeKnown hnodeRes
      have hinvNew : KahnInv g F.2 (result ++ [node]) F.1 := by
        refine ⟨hfold.1, ?_, ?_, ?_, ?_, ?_, ?_, ?_⟩
        · intro t ht
          rw [hfold.2.1 t ht]
          have hval2 : (some ((g.pend result t : Int)
              - ((0 + (g.depList node).count t : Nat) : Int)) : Option Int)
              = some ((g.pend (result ++ [node]) t : Int)) := by
            congr 1
            have hp := hpend' t ht
            omega
          exact hval2
        · rw [hex1]
          have hre : (result ++ [node]) ++ (rest ++ extra)
              = (result ++ node :: rest) ++ extra := by
            simp
          rw [hre, List.nodup_append]
          refine ⟨hinv.nodup, hex2, ?_⟩
          intro a ha hb
          have hpa := ((hex3 a).mp hb).2.1
          rcases List.mem_append.mp ha with h | h
          · have := hinv.resultZero a h
            omega
          · have := hinv.queueZero a h
            omega
        · intro x hx
          rcases List.mem_append.mp hx with h | h
          · rcases List.mem_append.mp h with h2 | h2
            · exact hinv.subIds x (List.mem_append_left _ h2)
            · rw [List.mem_singleton] at h2
              rw [h2]
              exact hnodeIds
          · rw [hex1] at h
            rcases List.mem_append.mp h with h2 | h2
            · exact hinv.subIds x
                (List.mem_append_right _ (List.mem_cons_of_mem _ h2))
            · exact ((hex3 x).mp h2).1
        · intro t ht
          rw [hex1] at ht
          have hmono := pend_mono_append g result node t
          rcases List.mem_append.mp ht with h | h
          · have := hinv.queueZero t (List.mem_cons_of_mem _ h)
            omega
          · obtain ⟨hid, hpos, hle⟩ := (hex3 t).mp h
            have hle2 : g.pend result t ≤ 0 + (g.depList node).count t := hle
            have := hpend' t hid
            omega
        · intro t ht
          have hmono := pend_mono_append g result node t
          rcases List.mem_append.mp ht with h | h
          · have := hinv.resultZero t h
            omega
          · rw [List.mem_singleton] at h
            rw [h]
            have hmono2 := pend_mono_append g result node node
            omega
        · intro t ht hnmem
          have h1 : t ∉ result :=
            fun h => hnmem (List.mem_append_left _ (List.mem_append_left _ h))
          have h2 : t ≠ node := fun h => hnmem (List.mem_append_left _
            (List.mem_append_right _ (by rw [h]; exact List.mem_singleton.mpr rfl)))
          have h3 : t ∉ rest ++ extra := by
            intro h
            apply hnmem
            apply List.mem_append_right
            rw [hex1]
            exact h
          have h4 : t ∉ rest := fun h => h3 (List.mem_append_left _ h)
          have h5 : t ∉ extra := fun h => h3 (List.mem_append_right _ h)
          have hold : 0 < g.pend result t := by
            apply hinv.freshPos t ht
            intro h
            rcases List.mem_append.mp h with h | h
            · exact h1 h
            · rcases List.mem_cons.mp h with h | h
              · exact h2 h
              · exact h4 h
          by_contra hle
          have hz : g.pend (result ++ [node]) t = 0 := by omega
          apply h5
          apply (hex3 t).mpr
          refine ⟨ht, hold, ?_⟩
          show g.pend result t ≤ 0 + (g.depList node).count t
          have := hpend' t ht
          omega
        · intro a ha b hedge
          rcases List.mem_append.mp ha with h | h
          · obtain ⟨hbR, hidx⟩ := hinv.resultTopo a h b hedge
            refine ⟨List.mem_append_left _ hbR, ?_⟩
            rw [List.indexOf_append_of_mem hbR, List.indexOf_append_of_mem h]
            exact hidx
          · rw [List.mem_singleton] at h
            subst h
            have hbR : b ∈ result := by
              have hz := (pend_eq_zero_iff g result a).mp hnodeZero
              exact hz b hedge.2.2 hedge.2.1
            refine ⟨List.mem_append_left _ hbR, ?_⟩
            rw [List.indexOf_append_of_mem hbR,
              List.indexOf_append_of_not_mem hnodeRes]
            have hlt := List.indexOf_lt_length.mpr hbR
            have h0 : List.indexOf a [a] = 0 := by simp
            omega
      have harith' : g.ids.length + 1 ≤ fuel + (result ++ [node]).length := by
        rw [List.length_append, List.length_singleton]
        omega
      exact ihf F.2 (result ++ [node]) F.1 hinvNew harith'

/-- At the end of the Kahn loop (empty queue), acyclicity forces every known
node into the result: a non-empty leftover set would contain an edge cycle. -/
lemma kahn_complete (g : DependencyGraph) (hnc : ¬ g.HasCycle)
    {result : List String} {deg : List (String × Int)}
    (hinv : KahnInv g [] result deg) : ∀ t ∈ g.ids, t ∈ result := by
  by_contra hcon
  push_neg at hcon
  obtain ⟨t0, ht0, ht0n⟩ := hcon
  set R := g.ids.filter (fun t => !(result.contains t)) with hR
  have hmemR : ∀ x, x ∈ R ↔ x ∈ g.ids ∧ x ∉ result := by
    intro x
    rw [hR, List.mem_filter]
    constructor
    · rintro ⟨h1, h2⟩
      refine ⟨h1, ?_⟩
      intro hm
      rw [contains_iff.mpr hm] at h2
      exact absurd h2 (by decide)
    · rintro ⟨h1, h2⟩
      refine ⟨h1, ?_⟩
      rw [contains_eq_false_iff.mpr h2]
      rfl
  have ht0R : t0 ∈ R := (hmemR t0).mpr ⟨ht0, ht0n⟩
  have hstep : ∀ x ∈ R, ∃ y, y ∈ R ∧ g.Edge x y := by
    intro x hx
    obtain ⟨hxid, hxres⟩ := (hmemR x).mp hx
    have hpos : 0 < g.pend result x := by
      apply hinv.freshPos x hxid
      rw [List.append_nil]
      exact hxres
    obtain ⟨d, hd1, hd2, hd3⟩ := pend_pos_exists g result x hpos
    refine ⟨d, (hmemR d).mpr ⟨(hasNode_iff_mem_ids g d).mp hd2, hd3⟩, ?_⟩
    exact ⟨(hasNode_iff_mem_ids g x).mpr hxid, hd2, hd1⟩
  let f : {x // x ∈ R} → {x // x ∈ R} :=
    fun p => ⟨Classical.choose (hstep p.1 p.2),
      (Classical.choose_spec (hstep p.1 p.2)).1⟩
  have hedge : ∀ p : {x // x ∈ R}, g.Edge p.1 (f p).1 :=
    fun p => (Classical.choose_spec (hstep p.1 p.2)).2
  let seq : Nat → {x // x ∈ R} := fun n => f^[n] ⟨t0, ht0R⟩
  have hseq_succ : ∀ n, seq (n + 1) = f (seq n) :=
    fun n => Function.iterate_succ_apply' f n _
  have htrans : ∀ i j, i < j → Relation.TransGen g.Edge (seq i).1 (seq j).1 := by
    intro i j hij
    induction j with
    | zero => omega
    | succ j ihj =>
      by_cases hji : i = j
      · subst hji
        rw [hseq_succ i]
        exact Relation.TransGen.single (hedge (seq i))
      · have hij' : i < j := by omega
        rw [hseq_succ j]
        exact Relation.TransGen.tail (ihj hij') (hedge (seq j))
  have hidx : ∀ n, R.indexOf (seq n).1 < R.length :=
    fun n => List.indexOf_lt_length.mpr (seq n).2
  have hcard : Fintype.card (Fin R.length) < Fintype.card (Fin (R.length + 1)) := by
    simp
  obtain ⟨i, j, hne, heq⟩ := Fintype.exists_ne_map_eq_of_card_lt
    (fun (i : Fin (R.length + 1)) => (⟨R.indexOf (seq i.1).1, hidx i.1⟩ : Fin R.length))
    hcard
  have hval : (seq i.1).1 = (seq j.1).1 := by
    have h1 : R.indexOf (seq i.1).1 = R.indexOf (seq j.1).1 := congrArg Fin.val heq
    have h2 := List.getElem_indexOf (hidx i.1)
    have h3 := List.getElem_indexOf (hidx j.1)
    rw [← h2, ← h3]
    simp only [h1]
  have hij : i.1 ≠ j.1 := fun h => hne (Fin.ext h)
  rcases Nat.lt_or_ge i.1 j.1 with hlt | hge
  · have htg := htrans i.1 j.1 hlt
    rw [hval] at htg
    exact hnc ⟨(seq j.1).1, htg⟩
  · have hlt : j.1 < i.1 := by omega
    have htg := htrans j.1 i.1 hlt
    rw [← hval] at htg
    exact hnc ⟨(seq i.1).1, htg⟩

/-- Full specification of `topological_sort`: it fails with exactly the first
detected cycle, and on success returns a permutation of the known nodes with
every known dependency placed before its dependents. -/
lemma topological_sort_spec (g : DependencyGraph) (hwf : g.WF) :
    (∀ c, g.topological_sort = .error c ↔ g.detect_cycles.head? = some c)
    ∧ (∀ order, g.topological_sort = .ok order →
        order.Perm g.ids ∧ ∀ a b, g.Edge a b → order.indexOf b < order.indexOf a) := by
  constructor
  · intro c
    cases hdc : g.detect_cycles with
    | nil =>
      unfold DependencyGraph.topological_sort
      rw [hdc]
      simp
    | cons c0 rest =>
      unfold DependencyGraph.topological_sort
      rw [hdc]
      simp
  · intro order hok
    unfold DependencyGraph.topological_sort at hok
    cases hdc : g.detect_cycles with
    | cons c0 rest =>
      rw [hdc] at hok
      simp at hok
    | nil =>
      rw [hdc] at hok
      dsimp only at hok
      have horder := Except.ok.inj hok
      have hnc : ¬ g.HasCycle := (detect_cycles_main g).1 hdc
      have hinit := kahnInit_spec g hwf
      have hinit2eq : (kahnInit g).2
          = g.ids.map (fun t => (t, ((g.indeg0 t : Nat) : Int))) := by
        apply al_eq_map_of_lookup _ _ _ hinit.2.1 hwf
        intro t ht
        obtain ⟨n0, hn0, hid⟩ := List.mem_map.mp ht
        rw [← hid]
        exact hinit.2.2.2 n0 hn0
      have hqmem : ∀ x, x ∈ ((kahnInit g).2.filter (fun p => p.2 = 0)).map (·.1)
          ↔ x ∈ g.ids ∧ (g.indeg0 x : Int) = 0 := by
        intro x
        rw [hinit2eq]
        constructor
        · intro h
          obtain ⟨p, hp, hpx⟩ := List.mem_map.mp h
          obtain ⟨hp1, hp2⟩ := List.mem_filter.mp hp
          obtain ⟨t, htids, hteq⟩ := List.mem_map.mp hp1
          rw [← hteq] at hp2 hpx
          dsimp only at hp2 hpx
          rw [← hpx]
          exact ⟨htids, of_decide_eq_true hp2⟩
        · rintro ⟨h1, h2⟩
          apply List.mem_map.mpr
          refine ⟨(x, ((g.indeg0 x : Nat) : Int)), ?_, rfl⟩
          apply List.mem_filter.mpr
          refine ⟨List.mem_map.mpr ⟨x, h1, rfl⟩, ?_⟩
          exact decide_eq_true h2
      have hqnodup : (((kahnInit g).2.filter (fun p => p.2 = 0)).map (·.1)).Nodup := by
        have hsub : (((kahnInit g).2.filter (fun p => p.2 = 0)).map (·.1)).Sublist
            ((kahnInit g).2.map (·.1)) :=
          List.Sublist.map _ (List.filter_sublist _)
        have hnd : ((kahnInit g).2.map (·.1)).Nodup := by
          have hkeys : (kahnInit g).2.map (·.1) = g.ids := hinit.2.1
          rw [hkeys]
          exact hwf
        exact List.Nodup.sublist hsub hnd
      have hinv0 : KahnInv g (((kahnInit g).2.filter (fun p => p.2 = 0)).map (·.1))
          [] (kahnInit g).2 := by
        refine ⟨hinit.2.1, ?_, ?_, ?_, ?_, ?_, ?_, ?_⟩
        · intro t ht
          obtain ⟨n0, hn0, hid⟩ := List.mem_map.mp ht
          rw [← hid, hinit.2.2.2 n0 hn0]
          rw [pend_nil_eq_indeg0]
        · rw [List.nil_append]
          exact hqnodup
        · intro x hx
          rw [List.nil_append] at hx
          exact ((hqmem x).mp hx).1
        · intro t ht
          have h2 := ((hqmem t).mp ht).2
          rw [pend_nil_eq_indeg0]
          omega
        · intro t ht
          exact absurd ht (List.not_mem_nil t)
        · intro t ht hnm
          rw [List.nil_append] at hnm
          have : ¬ ((g.indeg0 t : Int) = 0) := fun h => hnm ((hqmem t).mpr ⟨ht, h⟩)
          rw [pend_nil_eq_indeg0]
          omega
        · intro a ha
          exact absurd ha (List.not_mem_nil a)
      have hdeps : ∀ x ∈ g.ids, alLookup (kahnInit g).1 x = some (g.depList x) := by
        intro x hx
        rw [hinit.2.2.1 x, if_pos hx]
      have harith : g.ids.length + 1 ≤ (g.nodes.length + 1) + ([] : List String).length := by
        have hlen : g.ids.length = g.nodes.length := by
          unfold DependencyGraph.ids
          simp
        simp [hlen]
      obtain ⟨deg2, hfin⟩ := kahnLoop_spec g hwf (kahnInit g).1 hdeps
        (g.nodes.length + 1) (((kahnInit g).2.filter (fun p => p.2 = 0)).map (·.1))
        [] (kahnInit g).2 hinv0 harith
      rw [horder] at hfin
      have hordNodup : order.Nodup := by
        have := hfin.nodup
        rw [List.append_nil] at this
        exact this
      have hordSub : ∀ x ∈ order, x ∈ g.ids := by
        intro x hx
        exact hfin.subIds x (by rw [List.append_nil]; exact hx)
      have hall : ∀ t ∈ g.ids, t ∈ order := kahn_complete g hnc hfin
      constructor
      · exact List.Subperm.antisymm
          (List.subperm_of_subset hordNodup hordSub)
          (List.subperm_of_subset hwf hall)
      · intro a b hedge
        have haIn : a ∈ order := hall a ((hasNode_iff_mem_ids g a).mp hedge.1)
        exact (hfin.resultTopo a haIn b hedge).2

/-- C3: `detect_cycles` returns the empty list iff the known-node subgraph is
acyclic; `topological_sort` fails with exactly the first detected cycle iff
`detect_cycles` is non-empty, and on success it returns an ordering of the
known nodes in which every known dependency appears strictly before its
dependent. -/
theorem C3_cycles_iff_dag_and_topo (g : DependencyGraph) (hwf : g.WF) :
    (g.detect_cycles = [] ↔ ¬ g.HasCycle)
    ∧ (∀ c, g.topological_sort = .error c ↔ g.detect_cycles.head? = some c)
    ∧ (∀ order, g.topological_sort = .ok order →
        order.Perm g.ids ∧ ∀ a b, g.Edge a b → order.indexOf b < order.indexOf a) := by
  refine ⟨⟨(detect_cycles_main g).1, ?_⟩, (topological_sort_spec g hwf).1,
    (topological_sort_spec g hwf).2⟩
  intro hnc
  by_contra h
  exact hnc ((detect_cycles_main g).2 h)

/-- Witness for C3 on a concrete two-node acyclic graph. -/
theorem C3_witness :
    ¬ c3Graph.HasCycle ∧ ["B", "A"].Perm c3Graph.ids :=
  ⟨(C3_cycles_iff_dag_and_topo c3Graph (by decide)).1.mp (by decide),
   ((C3_cycles_iff_dag_and_topo c3Graph (by decide)).2.2 ["B", "A"] rfl).1⟩

end Plan
